import Mathlib

/-! Flow graph: add-on acceptance protocol and input dispatch.

A shallow embedding of the node / add-on core of the Flow plugin
(`Plugins/FlowGraph/Source`), followed by theorems about it.

* `FlowTypes.h`        : `EFlowAddOnAcceptResult`, `CombineFlowAddOnAcceptResult`
* `FlowNodeBase.cpp`   : `CheckAcceptFlowNodeAddOnChild`, `ExecuteInput`, `FindFlowPinByName`,
  `InitializeInstance`, `DeinitializeInstance`, `PreloadContent`, `FlushContent`, `OnActivate`,
  `ForceFinishNode`, `Cleanup`, `GetContextInputs`, `GetContextOutputs`,
  `GetFlowOwnerInterface`
* `FlowNodeAddOn.cpp`  : `UFlowNodeAddOn::IsSupportedInputPinName`, `InitializeInstance`,
  `DeinitializeInstance`, `CacheFlowNode`, `TriggerFirstOutput`, `TriggerOutput`, `Finish`
* `FlowGraphSchema.cpp`: `IsAddOnAllowedForSelectedObjects`, `CanCreateConnection`,
  `GetAssignedGraphNodeClass`, `AddAsset`, `OnAssetAdded`, `OnAssetRemoved`, `OnAssetRenamed`,
  `ShouldAddToBlueprintFlowNodesMap`
* `FlowNodeBase.cpp`   : also `ForEachAddOn`, `ForEachAddOnConst`, `ForEachAddOnForClass`
* `FlowGraph.cpp`      : `RecursivelyRefreshAddOns`
* `FlowGraphSettings.cpp`: `PostInitProperties`, `PostEditChangeProperty`
* `FlowNode.h`, `FlowTypes.h`: `SignalMode`, `EFlowSignalMode` (the dispatch on it follows the
  specification, its body not being among the sources)

Side effects (hook calls, log lines, handler runs, object creation) are recorded as event
lists; a call that dereferences a null pointer or fails a check has no result (`none`).
-/

namespace Flow

/-! ## Data model -/

/-- Engine name type `FName`; only equality of names is used. -/
abbrev FName := String

/-- A pin of a node or add-on (`FFlowPin`); it is looked up by `PinName`. -/
structure FFlowPin where
  PinName : FName
  deriving DecidableEq, Repr

/-- The enumerators of `EFlowAddOnAcceptResult` (`FlowTypes.h`), in declaration order.
`Max` and `Invalid` are the hidden sentinels; `Min` is an alias of `Undetermined`. -/
inductive EFlowAddOnAcceptResult where
  | Undetermined
  | TentativeAccept
  | Reject
  | Max
  | Invalid
  deriving DecidableEq, Repr

namespace EFlowAddOnAcceptResult

/-- The underlying `uint8` value of an enumerator (`static_cast<__underlying_type(...)>`). -/
def toUnderlying : EFlowAddOnAcceptResult → Nat
  | Undetermined => 0
  | TentativeAccept => 1
  | Reject => 2
  | Max => 3
  | Invalid => 4

/-- The cast back from the underlying value (`static_cast<EFlowAddOnAcceptResult>`).
Values above 4 name no enumerator; they do not arise from `FMath::Max` of two enumerators. -/
def ofUnderlying : Nat → EFlowAddOnAcceptResult
  | 0 => Undetermined
  | 1 => TentativeAccept
  | 2 => Reject
  | 3 => Max
  | _ => Invalid

/-- The alias `Min = Undetermined` of the enum. -/
def Min : EFlowAddOnAcceptResult := Undetermined

/-- The three results an acceptance hook is meant to give
(the enumerators that are not hidden sentinels). -/
def IsAnswer : EFlowAddOnAcceptResult → Bool
  | Undetermined => true
  | TentativeAccept => true
  | Reject => true
  | Max => false
  | Invalid => false

end EFlowAddOnAcceptResult

open EFlowAddOnAcceptResult

/-- The engine's `FMath::Max(A, B)`, which is `(B < A) ? A : B`. -/
def FMath_Max (A B : Nat) : Nat := if B < A then A else B

/-- `CombineFlowAddOnAcceptResult` (`FlowTypes.h`): the enumerator of the higher numerical value. -/
def CombineFlowAddOnAcceptResult (Result0 Result1 : EFlowAddOnAcceptResult) :
    EFlowAddOnAcceptResult :=
  let Result0AsInt := Result0.toUnderlying
  let Result1AsInt := Result1.toUnderlying
  ofUnderlying (FMath_Max Result0AsInt Result1AsInt)

/-- The place of a unit below the unit a call starts from: `[]` is that unit itself and
`Path ++ [i]` is entry `i` of the add-on array of the unit at `Path`. -/
abbrev ObjectPath := List Nat

/-- A reference to an object, as the functions of a unit tree meet it. -/
inductive ObjectRef where
  /-- The live unit at `Path`: the unit a call starts from, or an add-on of the current arrays
  below it. -/
  | Unit (Path : ObjectPath)
  /-- The object that stood at `Path` in an add-on array before `InitializeInstance` replaced
  the array: the source (template) of the instance now at `Path`. -/
  | SourceAddOn (Path : ObjectPath)
  /-- An object outside the unit tree, such as an outer of the unit a call starts from. -/
  | External (Id : Nat)
  deriving DecidableEq, Repr

/-- The enumerators of `EFlowSignalMode` (`FlowTypes.h`): a node is fully executed, ignores
every input, or lets the signal pass without running its logic. -/
inductive EFlowSignalMode where
  | Enabled
  | Disabled
  | PassThrough
  deriving DecidableEq, Repr

/-- An editor graph node (`UEdGraphNode`) as the code reads it through a pointer: the object's
name (two pointers are equal when they lead to the same object), the name of its class, whether
`Cast<UFlowGraphNode>` succeeds on it, and whether the object is alive. -/
structure UEdGraphNode where
  Name : FName
  Class : FName
  IsFlowGraphNode : Bool := true
  Valid : Bool := true
  deriving DecidableEq, Repr

/-- The properties of a `UFlowNodeBase` object other than its add-on array, with the members of
`UFlowNode` and `UFlowNodeAddOn` side by side. `IsFlowNode` is the answer of
`IsA<UFlowNode>()`, `Valid` says the object is not garbage (the object part of `IsValid`),
`FlowNode` is the anchor member `UFlowNodeAddOn::FlowNode`. `SuperClasses` names the classes
above the object's class (nearest first) and `Interfaces` the interfaces that class implements;
`SignalMode` is the member `UFlowNode::SignalMode` and `GraphNode` the editor-only member
`UFlowNodeBase::GraphNode`. -/
structure FlowNodeProperties where
  Class : FName
  IsFlowNode : Bool
  Valid : Bool := true
  InputPins : List FFlowPin := []
  OutputPins : List FFlowPin := []
  FlowNode : Option ObjectRef := none
  SuperClasses : List FName := []
  Interfaces : List FName := []
  SignalMode : EFlowSignalMode := .Enabled
  GraphNode : Option UEdGraphNode := none
  deriving DecidableEq, Repr

/-- A `UFlowNodeBase` object: a flow node or an add-on, with the array of its add-on pointers.
An entry `none` of `AddOns` is a null pointer. -/
inductive UFlowNodeBase where
  | mk (Properties : FlowNodeProperties) (AddOns : List (Option UFlowNodeBase))

namespace UFlowNodeBase

/-- The properties of the object. -/
def Properties : UFlowNodeBase → FlowNodeProperties
  | mk p _ => p

/-- The attached add-ons, in declaration order. -/
def AddOns : UFlowNodeBase → List (Option UFlowNodeBase)
  | mk _ a => a

/-- Name of the object's class (`GetClass()->GetName()`). -/
def Class (this : UFlowNodeBase) : FName := this.Properties.Class

/-- Whether the object is a `UFlowNode` (`IsA<UFlowNode>()`). -/
def IsFlowNode (this : UFlowNodeBase) : Bool := this.Properties.IsFlowNode

/-- Whether the object is alive (not marked as garbage). -/
def Valid (this : UFlowNodeBase) : Bool := this.Properties.Valid

/-- The declared input pins. -/
def InputPins (this : UFlowNodeBase) : List FFlowPin := this.Properties.InputPins

/-- The declared output pins. -/
def OutputPins (this : UFlowNodeBase) : List FFlowPin := this.Properties.OutputPins

/-- The anchor member `FlowNode` of an add-on. -/
def FlowNode (this : UFlowNodeBase) : Option ObjectRef := this.Properties.FlowNode

/-- The member `SignalMode` of a flow node. -/
def SignalMode (this : UFlowNodeBase) : EFlowSignalMode := this.Properties.SignalMode

/-- `UFlowNodeBase::GetGraphNode` (`FlowNodeBase.h`). -/
def GetGraphNode (this : UFlowNodeBase) : Option UEdGraphNode := this.Properties.GraphNode

end UFlowNodeBase

/-- The engine's `IsValid(Object)`: the pointer is not null and the object is not garbage. -/
def IsValid : Option UFlowNodeBase → Bool
  | none => false
  | some Object => Object.Valid

/-- The overridable behaviour of the classes in play: the two acceptance hooks
(`BlueprintNativeEvent`s, dispatched on the object they are called on) and
`UFlowNode::IsSupportedInputPinName`, whose body is in `FlowNode.cpp`. -/
structure FlowClassBehaviour where
  /-- The hook `this->AcceptFlowNodeAddOnChild(AddOnTemplate)` of a potential parent. -/
  AcceptFlowNodeAddOnChild : UFlowNodeBase → UFlowNodeBase → EFlowAddOnAcceptResult
  /-- The hook `AddOnTemplate->AcceptFlowNodeAddOnParent(ParentTemplate)` of an add-on. -/
  AcceptFlowNodeAddOnParent : UFlowNodeBase → UFlowNodeBase → EFlowAddOnAcceptResult
  /-- The pin filter of a `UFlowNode`. -/
  UFlowNode_IsSupportedInputPinName : UFlowNodeBase → FName → Bool

/-- `UFlowNodeBase::AcceptFlowNodeAddOnChild_Implementation`: the default parent-side answer. -/
def AcceptFlowNodeAddOnChild_Implementation (_this _AddOnTemplate : UFlowNodeBase) :
    EFlowAddOnAcceptResult :=
  Undetermined

/-- `UFlowNodeAddOn::AcceptFlowNodeAddOnParent_Implementation`: the default add-on-side answer. -/
def AcceptFlowNodeAddOnParent_Implementation (_this _ParentTemplate : UFlowNodeBase) :
    EFlowAddOnAcceptResult :=
  Undetermined

/-! ## Acceptance protocol -/

/-- What `CheckAcceptFlowNodeAddOnChild` does besides returning a verdict. -/
inductive AcceptEvent where
  /-- The parent-side hook `AcceptFlowNodeAddOnChild` was consulted. -/
  | AskedParent
  /-- The add-on-side hook `AcceptFlowNodeAddOnParent` was consulted. -/
  | AskedAddOn
  /-- A line was sent to the asset's error log. -/
  | LogError (Message : String)
  deriving DecidableEq, Repr

/-- `UFlowNodeBase::CheckAcceptFlowNodeAddOnChild` (`FlowNodeBase.cpp`), called on `this` with
the pointer `AddOnTemplate`: the verdict and the events in the order they happen.
The parameter of the source is a `const UFlowNodeAddOn*`, and `UFlowNodeAddOn` and `UFlowNode`
are siblings below `UFlowNodeBase`, so a template the function can receive has
`IsFlowNode = false` and does not enter the branch of `IsA<UFlowNode>()`. That branch is kept
for the comparison with the source only: there the source writes the error line through
`GetFlowAsset()->GetTemplateAsset()` without a null check before it returns `Reject`, which
is kept here as the event `LogError`, so the pair given for that branch is what the call
yields when both pointers are there. -/
def CheckAcceptFlowNodeAddOnChild (B : FlowClassBehaviour) (this : UFlowNodeBase)
    (AddOnTemplate : Option UFlowNodeBase) : EFlowAddOnAcceptResult × List AcceptEvent :=
  match AddOnTemplate with
  | none => (Reject, [])
  | some Template =>
    if !Template.Valid then
      (Reject, [])
    else
      let CombinedResult := Undetermined
      let AsChildResult := B.AcceptFlowNodeAddOnChild this Template
      let CombinedResult := CombineFlowAddOnAcceptResult AsChildResult CombinedResult
      if CombinedResult = Reject then
        (Reject, [.AskedParent])
      else
        let AsParentResult := B.AcceptFlowNodeAddOnParent Template this
        if AsParentResult ≠ Reject ∧ Template.IsFlowNode = true then
          let Message :=
            this.Class ++ "::AcceptFlowNodeAddOnParent must always Reject for UFlowNode subclasses"
          (Reject, [.AskedParent, .AskedAddOn, .LogError Message])
        else
          let CombinedResult := CombineFlowAddOnAcceptResult AsParentResult CombinedResult
          (CombinedResult, [.AskedParent, .AskedAddOn])

/-- An editor graph node (`UFlowGraphNode`): alive or not, and the pointer it keeps to its
node instance (`GetFlowNodeBase()`). -/
structure UFlowGraphNode where
  Valid : Bool
  NodeInstance : Option UFlowNodeBase

/-- An object of the editor selection, by what `Cast<UFlowGraphNode>` makes of it. -/
inductive UObject where
  /-- An object of a class that is not a `UFlowGraphNode`. -/
  | Other
  /-- A `UFlowGraphNode`. -/
  | GraphNode (Node : UFlowGraphNode)

/-- The engine's `Cast<UFlowGraphNode>(SelectedObject)`: null for a null pointer and for an
object of another class. -/
def Cast_UFlowGraphNode : Option UObject → Option UFlowGraphNode
  | some (.GraphNode Node) => some Node
  | _ => none

/-- The loop of `IsAddOnAllowedForSelectedObjects` over the remaining selected objects, with the
running `CombinedResult`, followed by the final test. -/
def IsAddOnAllowedLoop (B : FlowClassBehaviour) (AddOnTemplate : Option UFlowNodeBase) :
    List (Option UObject) → EFlowAddOnAcceptResult → Bool
  | [], CombinedResult =>
    if CombinedResult = TentativeAccept then true else false
  | SelectedObject :: Rest, CombinedResult =>
    match Cast_UFlowGraphNode SelectedObject with
    | none => false
    | some FlowGraphNode =>
      if !FlowGraphNode.Valid then
        false
      else
        match FlowGraphNode.NodeInstance with
        | none => IsAddOnAllowedLoop B AddOnTemplate Rest CombinedResult
        | some FlowNodeOuter =>
          if !FlowNodeOuter.Valid then
            IsAddOnAllowedLoop B AddOnTemplate Rest CombinedResult
          else
            let SelectedObjectResult :=
              (CheckAcceptFlowNodeAddOnChild B FlowNodeOuter AddOnTemplate).1
            let CombinedResult := CombineFlowAddOnAcceptResult SelectedObjectResult CombinedResult
            if CombinedResult = Reject then
              false
            else
              IsAddOnAllowedLoop B AddOnTemplate Rest CombinedResult

/-- `UFlowGraphSchema::IsAddOnAllowedForSelectedObjects` (`FlowGraphSchema.cpp`). -/
def IsAddOnAllowedForSelectedObjects (B : FlowClassBehaviour)
    (SelectedObjects : List (Option UObject)) (AddOnTemplate : Option UFlowNodeBase) : Bool :=
  IsAddOnAllowedLoop B AddOnTemplate SelectedObjects Undetermined

/-- The selection made of the graph nodes of the given parents: every selected object is a live
`UFlowGraphNode` whose node instance is the parent. -/
def SelectionOfParents (Parents : List UFlowNodeBase) : List (Option UObject) :=
  Parents.map fun Parent => some (.GraphNode { Valid := true, NodeInstance := some Parent })

/-! ## Pin filter and input dispatch -/

/-- `UFlowNodeBase::FindFlowPinByName` (`FlowNodeBase.cpp`): the first pin of `FlowPins` whose
name equals `PinName`, or null. -/
def FindFlowPinByName (PinName : FName) (FlowPins : List FFlowPin) : Option FFlowPin :=
  FlowPins.find? fun FlowPin => FlowPin.PinName == PinName

/-- `UFlowNodeAddOn::IsSupportedInputPinName` (`FlowNodeAddOn.cpp`). -/
def UFlowNodeAddOn_IsSupportedInputPinName (this : UFlowNodeBase) (PinName : FName) : Bool :=
  if this.InputPins.isEmpty then
    true
  else
    match FindFlowPinByName PinName this.InputPins with
    | some _FoundFlowPin => true
    | none => false

/-- The virtual call `IsSupportedInputPinName(PinName)`: the override of `UFlowNode` for a node,
the override of `UFlowNodeAddOn` for an add-on. -/
def IsSupportedInputPinName (B : FlowClassBehaviour) (this : UFlowNodeBase) (PinName : FName) :
    Bool :=
  if this.IsFlowNode then
    B.UFlowNode_IsSupportedInputPinName this PinName
  else
    UFlowNodeAddOn_IsSupportedInputPinName this PinName

/-- What a call of `ExecuteInput` does, unit by unit. -/
inductive ExecEvent where
  /-- The unit at `Unit` received the call `ExecuteInput(PinName)`. -/
  | ExecuteInput (Unit : ObjectPath) (PinName : FName)
  /-- The unit at `Unit` ran its own input handler,
  `IFlowCoreExecutableInterface::ExecuteInput(PinName)`. -/
  | OwnExecuteInput (Unit : ObjectPath) (PinName : FName)
  deriving DecidableEq, Repr

namespace ExecEvent

/-- The unit an event happened on. -/
def Unit : ExecEvent → ObjectPath
  | ExecuteInput U _ => U
  | OwnExecuteInput U _ => U

/-- The event is a received call `ExecuteInput` on a unit `Depth` levels below the start. -/
def IsCallAtDepth (Depth : Nat) : ExecEvent → Bool
  | ExecuteInput U _ => U.length == Depth
  | OwnExecuteInput _ _ => false

/-- The event is a run of the own input handler of a unit `Depth` levels below the start. -/
def IsOwnAtDepth (Depth : Nat) : ExecEvent → Bool
  | ExecuteInput _ _ => false
  | OwnExecuteInput U _ => U.length == Depth

end ExecEvent

mutual
/-- `UFlowNodeBase::ExecuteInput` (`FlowNodeBase.cpp`) called on the unit at `Path`: the events
in the order they happen, or `none` when the loop dereferences a null add-on pointer. -/
def ExecuteInput (B : FlowClassBehaviour) (Path : ObjectPath) :
    UFlowNodeBase → FName → Option (List ExecEvent)
  | .mk Properties AddOns, PinName =>
    let this := UFlowNodeBase.mk Properties AddOns
    let Own :=
      if IsSupportedInputPinName B this PinName then [ExecEvent.OwnExecuteInput Path PinName]
      else []
    match ExecuteInputAddOns B Path 0 AddOns PinName with
    | none => none
    | some Forwarded => some (ExecEvent.ExecuteInput Path PinName :: (Own ++ Forwarded))
/-- The loop `for (UFlowNodeAddOn* AddOn : AddOns) AddOn->ExecuteInput(PinName)` of the unit at
`Path`, from entry `Index` of its array on. -/
def ExecuteInputAddOns (B : FlowClassBehaviour) (Path : ObjectPath) (Index : Nat) :
    List (Option UFlowNodeBase) → FName → Option (List ExecEvent)
  | [], _ => some []
  | none :: _, _ => none
  | some AddOn :: Rest, PinName =>
    match ExecuteInput B (Path ++ [Index]) AddOn PinName with
    | none => none
    | some First =>
      match ExecuteInputAddOns B Path (Index + 1) Rest PinName with
      | none => none
      | some Others => some (First ++ Others)
end

mutual
/-- No add-on pointer below the unit is null, at any depth. -/
def NoNullAddOn : UFlowNodeBase → Bool
  | .mk _ AddOns => NoNullAddOnIn AddOns
/-- No pointer of the array is null, and none below its add-ons. -/
def NoNullAddOnIn : List (Option UFlowNodeBase) → Bool
  | [] => true
  | none :: _ => false
  | some AddOn :: Rest => NoNullAddOn AddOn && NoNullAddOnIn Rest
end

/-- Whether the add-on behind a pointer accepts `PinName` by its own filter. -/
def AddOnSupports (B : FlowClassBehaviour) (PinName : FName) : Option UFlowNodeBase → Bool
  | none => false
  | some AddOn => IsSupportedInputPinName B AddOn PinName

/-! ## Lifecycle forwarding -/

/-- The functions of `IFlowCoreExecutableInterface` that `UFlowNodeBase` overrides to forward
them to its add-ons. -/
inductive EFlowFunction where
  | InitializeInstance
  | DeinitializeInstance
  | PreloadContent
  | FlushContent
  | OnActivate
  | ForceFinishNode
  | Cleanup
  deriving DecidableEq, Repr

/-- What a lifecycle call does, object by object. -/
inductive FlowEvent where
  /-- The object received the call `Function()`. -/
  | Call (Function : EFlowFunction) (Object : ObjectRef)
  /-- The own hook of the object ran: `IFlowCoreExecutableInterface::Function()`. -/
  | Own (Function : EFlowFunction) (Object : ObjectRef)
  /-- `Outer` created `Created` by `NewObject<UFlowNodeAddOn>(Outer, Class, ..., Template)`. -/
  | NewObject (Outer : ObjectRef) (Class : FName) (Template : ObjectRef) (Created : ObjectRef)
  /-- The anchor member `FlowNode` of the add-on `Object` was assigned. -/
  | SetFlowNode (Object : ObjectRef) (FlowNode : Option ObjectRef)
  deriving DecidableEq, Repr

/-- The object is a live unit strictly more than `Depth` levels below the start. -/
def ObjectRef.IsUnitBelow (Depth : Nat) : ObjectRef → Bool
  | .Unit Path => Depth < Path.length
  | .SourceAddOn _ => false
  | .External _ => false

namespace FlowEvent

/-- The object an event happens on (for a creation, the creating outer). -/
def Object : FlowEvent → ObjectRef
  | Call _ O => O
  | Own _ O => O
  | NewObject O _ _ _ => O
  | SetFlowNode O _ => O

/-- The event is the call `Function()` received by a live unit `Depth` levels below the start. -/
def IsCallAtDepth (Function : EFlowFunction) (Depth : Nat) : FlowEvent → Bool
  | Call F (.Unit Path) => F == Function && Path.length == Depth
  | _ => false

/-- The event is a run of the own hook of `Function` on a live unit `Depth` levels below the
start. -/
def IsOwnAtDepth (Function : EFlowFunction) (Depth : Nat) : FlowEvent → Bool
  | Own F (.Unit Path) => F == Function && Path.length == Depth
  | _ => false

/-- The event is a creation by the live unit at `Path`. -/
def IsNewObjectOf (Path : ObjectPath) : FlowEvent → Bool
  | NewObject (.Unit Outer) _ _ _ => Outer == Path
  | _ => false

/-- The event concerns a source add-on: a call received or a hook run by one, a creation by
one, or an assignment to its anchor. -/
def IsOnSourceAddOn : FlowEvent → Bool
  | Call _ (.SourceAddOn _) => true
  | Own _ (.SourceAddOn _) => true
  | NewObject (.SourceAddOn _) _ _ _ => true
  | SetFlowNode (.SourceAddOn _) _ => true
  | _ => false

end FlowEvent

mutual
/-- The body that `UFlowNodeBase::PreloadContent` and `UFlowNodeBase::OnActivate` share
(`FlowNodeBase.cpp`), called on the unit at `Path`:
`IFlowCoreExecutableInterface::Function(); for (AddOn : AddOns) AddOn->Function();`.
The result is `none` when the loop dereferences a null add-on pointer. -/
def OwnThenAddOns (Function : EFlowFunction) (Path : ObjectPath) :
    UFlowNodeBase → Option (List FlowEvent)
  | .mk _ AddOns =>
    match OwnThenAddOnsLoop Function Path 0 AddOns with
    | none => none
    | some Forwarded =>
      some (FlowEvent.Call Function (.Unit Path) :: FlowEvent.Own Function (.Unit Path) ::
        Forwarded)
/-- The loop `for (UFlowNodeAddOn* AddOn : AddOns) AddOn->Function()` of the unit at `Path`, from
entry `Index` on. -/
def OwnThenAddOnsLoop (Function : EFlowFunction) (Path : ObjectPath) (Index : Nat) :
    List (Option UFlowNodeBase) → Option (List FlowEvent)
  | [] => some []
  | none :: _ => none
  | some AddOn :: Rest =>
    match OwnThenAddOns Function (Path ++ [Index]) AddOn with
    | none => none
    | some First =>
      match OwnThenAddOnsLoop Function Path (Index + 1) Rest with
      | none => none
      | some Others => some (First ++ Others)
end

mutual
/-- The body that `UFlowNodeBase::FlushContent`, `UFlowNodeBase::ForceFinishNode` and
`UFlowNodeBase::Cleanup` share (`FlowNodeBase.cpp`), called on the unit at `Path`:
`for (AddOn : AddOns) AddOn->Function(); IFlowCoreExecutableInterface::Function();`.
The result is `none` when the loop dereferences a null add-on pointer. -/
def AddOnsThenOwn (Function : EFlowFunction) (Path : ObjectPath) :
    UFlowNodeBase → Option (List FlowEvent)
  | .mk _ AddOns =>
    match AddOnsThenOwnLoop Function Path 0 AddOns with
    | none => none
    | some Forwarded =>
      some (FlowEvent.Call Function (.Unit Path) ::
        (Forwarded ++ [FlowEvent.Own Function (.Unit Path)]))
/-- The loop `for (UFlowNodeAddOn* AddOn : AddOns) AddOn->Function()` of the unit at `Path`, from
entry `Index` on. -/
def AddOnsThenOwnLoop (Function : EFlowFunction) (Path : ObjectPath) (Index : Nat) :
    List (Option UFlowNodeBase) → Option (List FlowEvent)
  | [] => some []
  | none :: _ => none
  | some AddOn :: Rest =>
    match AddOnsThenOwn Function (Path ++ [Index]) AddOn with
    | none => none
    | some First =>
      match AddOnsThenOwnLoop Function Path (Index + 1) Rest with
      | none => none
      | some Others => some (First ++ Others)
end

/-- `UFlowNodeBase::PreloadContent` (`FlowNodeBase.cpp`, lines 95-103). -/
def PreloadContent (Path : ObjectPath) (this : UFlowNodeBase) : Option (List FlowEvent) :=
  OwnThenAddOns .PreloadContent Path this

/-- `UFlowNodeBase::FlushContent` (`FlowNodeBase.cpp`, lines 105-113). -/
def FlushContent (Path : ObjectPath) (this : UFlowNodeBase) : Option (List FlowEvent) :=
  AddOnsThenOwn .FlushContent Path this

/-- `UFlowNodeBase::OnActivate` (`FlowNodeBase.cpp`, lines 115-123). -/
def OnActivate (Path : ObjectPath) (this : UFlowNodeBase) : Option (List FlowEvent) :=
  OwnThenAddOns .OnActivate Path this

/-- `UFlowNodeBase::ForceFinishNode` (`FlowNodeBase.cpp`, lines 142-150). -/
def ForceFinishNode (Path : ObjectPath) (this : UFlowNodeBase) : Option (List FlowEvent) :=
  AddOnsThenOwn .ForceFinishNode Path this

/-- `UFlowNodeBase::Cleanup` (`FlowNodeBase.cpp`, lines 152-160). -/
def Cleanup (Path : ObjectPath) (this : UFlowNodeBase) : Option (List FlowEvent) :=
  AddOnsThenOwn .Cleanup Path this

mutual
/-- The virtual call `DeinitializeInstance()` on the unit at `Path`: the unit afterwards and the
events in order, or `none` when a null add-on pointer is dereferenced. A flow node runs
`UFlowNodeBase::DeinitializeInstance` (`FlowNodeBase.cpp`); an add-on runs
`UFlowNodeAddOn::DeinitializeInstance` (`FlowNodeAddOn.cpp`), which is
`Super::DeinitializeInstance(); FlowNode = nullptr;`. -/
def DeinitializeInstance (Path : ObjectPath) :
    UFlowNodeBase → Option (UFlowNodeBase × List FlowEvent)
  | .mk Properties AddOns =>
    match DeinitializeAddOns Path 0 AddOns with
    | none => none
    | some (AddOns, Forwarded) =>
      let Super := Forwarded ++ [FlowEvent.Own .DeinitializeInstance (.Unit Path)]
      if Properties.IsFlowNode then
        some (.mk Properties AddOns,
          FlowEvent.Call .DeinitializeInstance (.Unit Path) :: Super)
      else
        some (.mk { Properties with FlowNode := none } AddOns,
          FlowEvent.Call .DeinitializeInstance (.Unit Path) ::
            (Super ++ [FlowEvent.SetFlowNode (.Unit Path) none]))
/-- The loop `for (UFlowNodeAddOn* AddOn : AddOns) AddOn->DeinitializeInstance()` of the unit at
`Path`, from entry `Index` on: the entries afterwards and the events. -/
def DeinitializeAddOns (Path : ObjectPath) (Index : Nat) :
    List (Option UFlowNodeBase) → Option (List (Option UFlowNodeBase) × List FlowEvent)
  | [] => some ([], [])
  | none :: _ => none
  | some AddOn :: Rest =>
    match DeinitializeInstance (Path ++ [Index]) AddOn with
    | none => none
    | some (AddOn, First) =>
      match DeinitializeAddOns Path (Index + 1) Rest with
      | none => none
      | some (Rest, Others) => some (some AddOn :: Rest, First ++ Others)
end

/-- `GetFlowNodeSelfOrOwner()` of the unit `Self`: `this` for a `UFlowNode` (`FlowNode.h`), the
anchor member `FlowNode` for a `UFlowNodeAddOn` (`FlowNodeAddOn.h`). -/
def GetFlowNodeSelfOrOwner (Self : ObjectRef) (this : UFlowNodeBase) : Option ObjectRef :=
  if this.IsFlowNode then some Self else this.FlowNode

/-- What `DeinitializeInstance` leaves of an add-on entry: the same object, with a null anchor
when it is an add-on. -/
def DeinitializedEntry (Before After : Option UFlowNodeBase) : Prop :=
  ∃ u v, Before = some u ∧ After = some v ∧ v.Class = u.Class ∧ v.IsFlowNode = u.IsFlowNode ∧
    (u.IsFlowNode = false → v.FlowNode = none)

/-! ## Instantiation of add-ons -/

/-- An object of an ownership (`GetOuter()`) chain, by what `CacheFlowNode` asks of it. -/
structure OuterObject where
  Ref : ObjectRef
  IsFlowNode : Bool
  Valid : Bool
  deriving DecidableEq, Repr

/-- The engine's `Cast<UFlowNode>(OuterObject)`. -/
def Cast_UFlowNode (OuterObject : OuterObject) : Option ObjectRef :=
  if OuterObject.IsFlowNode then some OuterObject.Ref else none

/-- `UFlowNodeAddOn::CacheFlowNode` (`FlowNodeAddOn.cpp`): the value of the member `FlowNode`
after the walk. `Outers` is the chain `GetOuter()`, `GetOuter()->GetOuter()`, ... up to the
null that ends it, `FlowNode` the value of the member before the walk. The closing
`ensureAsRuntimeWarning` only reports. -/
def CacheFlowNode (Outers : List OuterObject) (FlowNode : Option ObjectRef) : Option ObjectRef :=
  match Outers with
  | [] => FlowNode
  | OuterObject :: Rest =>
    if !OuterObject.Valid then
      FlowNode
    else
      match Cast_UFlowNode OuterObject with
      | some Node => some Node
      | none => CacheFlowNode Rest none

/-- The properties of the object that
`NewObject<UFlowNodeAddOn>(this, SourceAddOn->GetClass(), NAME_None, RF_Transient, SourceAddOn,
false, nullptr)` creates: those of its template `SourceAddOn` (transient members included,
`bCopyTransientsFromClassDefaults` being false), on a fresh, live object. -/
def NewObject_Properties (SourceAddOn : FlowNodeProperties) : FlowNodeProperties :=
  { SourceAddOn with Valid := true }

/-- The first loop of `UFlowNodeBase::InitializeInstance` on the unit at `Path`, from entry
`Index` of `SourceAddOns` on: one `NewObject` per source add-on, `none` when `GetClass()` is
called through a null pointer. -/
def NewAddOnInstances (Path : ObjectPath) (Index : Nat) :
    List (Option UFlowNodeBase) → Option (List FlowEvent)
  | [] => some []
  | none :: _ => none
  | some SourceAddOn :: Rest =>
    match NewAddOnInstances Path (Index + 1) Rest with
    | none => none
    | some Others =>
      some (FlowEvent.NewObject (.Unit Path) SourceAddOn.Class (.SourceAddOn (Path ++ [Index]))
        (.Unit (Path ++ [Index])) :: Others)

mutual
/-- The virtual call `InitializeInstance()` on the unit at `Path` whose properties are
`Properties` and whose add-on array is the one of the given object; `Outers` is the ownership
chain of the unit. The result is the unit afterwards and the events in order, or `none` when a
null add-on pointer is dereferenced. An add-on runs `UFlowNodeAddOn::InitializeInstance`
(`FlowNodeAddOn.cpp`), `CacheFlowNode(); Super::InitializeInstance();`; then comes
`UFlowNodeBase::InitializeInstance` (`FlowNodeBase.cpp`): the own hook, one new instance per
source add-on, and `InitializeInstance()` on each entry of the new array. -/
def InitializeInstanceWith (Outers : List OuterObject) (Path : ObjectPath)
    (Properties : FlowNodeProperties) :
    UFlowNodeBase → Option (UFlowNodeBase × List FlowEvent)
  | .mk _ SourceAddOns =>
    let Properties :=
      if Properties.IsFlowNode then Properties
      else { Properties with FlowNode := CacheFlowNode Outers Properties.FlowNode }
    let Cached :=
      if Properties.IsFlowNode then []
      else [FlowEvent.SetFlowNode (.Unit Path) Properties.FlowNode]
    match NewAddOnInstances Path 0 SourceAddOns with
    | none => none
    | some Created =>
      let Self : OuterObject :=
        { Ref := .Unit Path, IsFlowNode := Properties.IsFlowNode, Valid := Properties.Valid }
      match InitializeAddOns (Self :: Outers) Path 0 SourceAddOns with
      | none => none
      | some (AddOns, Initialized) =>
        some (.mk Properties AddOns,
          FlowEvent.Call .InitializeInstance (.Unit Path) ::
            (Cached ++ FlowEvent.Own .InitializeInstance (.Unit Path) ::
              (Created ++ Initialized)))
/-- The second loop of `UFlowNodeBase::InitializeInstance` on the unit at `Path`, from entry
`Index` on: `AddOn->InitializeInstance()` on each entry of the new array. Entry `Index` of the
new array is the instance created from entry `Index` of `SourceAddOns`: it has the properties
`NewObject_Properties` of its source, the add-on array of its source, and the unit at `Path`
as its outer (`Outers` starts with that unit). -/
def InitializeAddOns (Outers : List OuterObject) (Path : ObjectPath) (Index : Nat) :
    List (Option UFlowNodeBase) → Option (List (Option UFlowNodeBase) × List FlowEvent)
  | [] => some ([], [])
  | none :: _ => none
  | some SourceAddOn :: Rest =>
    match InitializeInstanceWith Outers (Path ++ [Index])
        (NewObject_Properties SourceAddOn.Properties) SourceAddOn with
    | none => none
    | some (AddOn, First) =>
      match InitializeAddOns Outers Path (Index + 1) Rest with
      | none => none
      | some (Others, Events) => some (some AddOn :: Others, First ++ Events)
end

/-- The virtual call `InitializeInstance()` on `this`, the unit at `Path`, whose ownership chain
is `Outers`. -/
def InitializeInstance (Outers : List OuterObject) (Path : ObjectPath) (this : UFlowNodeBase) :
    Option (UFlowNodeBase × List FlowEvent) :=
  InitializeInstanceWith Outers Path this.Properties this

/-- The class name that `SourceAddOn->GetClass()` gives for an entry of `SourceAddOns`. -/
def SourceAddOnClass : Option UFlowNodeBase → FName
  | some SourceAddOn => SourceAddOn.Class
  | none => ""

/-- What `InitializeInstance` of a unit puts in the place of a source add-on: a live copy of
it (same class, same pins, as many add-ons), whose anchor, when it is an add-on, is the one
`CacheFlowNode` finds along `Outers`, the ownership chain that starts with the unit. -/
def InstanceOfSource (Outers : List OuterObject) (Source Instance : Option UFlowNodeBase) :
    Prop :=
  ∃ t c, Source = some t ∧ Instance = some c ∧ c.Class = t.Class ∧
    c.IsFlowNode = t.IsFlowNode ∧ c.Valid = true ∧ c.InputPins = t.InputPins ∧
    c.OutputPins = t.OutputPins ∧ c.AddOns.length = t.AddOns.length ∧
    (t.IsFlowNode = false → c.FlowNode = CacheFlowNode Outers t.FlowNode)

/-! ## Output triggering of an add-on -/

/-- The underlying value of an `EFlowPinActivationType`; the enum is declared in a header that
is not among the sources, and the functions below only pass it on. -/
abbrev EFlowPinActivationType := Nat

/-- A call made on a flow node. -/
inductive NodeCall where
  | TriggerFirstOutput (Node : ObjectRef) (bFinish : Bool)
  | TriggerOutput (Node : ObjectRef) (PinName : FName) (bFinish : Bool)
      (ActivationType : EFlowPinActivationType)
  | Finish (Node : ObjectRef)
  deriving DecidableEq, Repr

/-- `UFlowNodeAddOn::TriggerFirstOutput` (`FlowNodeAddOn.cpp`): the calls it makes. -/
def UFlowNodeAddOn_TriggerFirstOutput (this : UFlowNodeBase) (bFinish : Bool) : List NodeCall :=
  match this.FlowNode with
  | some FlowNode => [NodeCall.TriggerFirstOutput FlowNode bFinish]
  | none => []

/-- `UFlowNodeAddOn::TriggerOutput` (`FlowNodeAddOn.cpp`): the calls it makes. -/
def UFlowNodeAddOn_TriggerOutput (this : UFlowNodeBase) (PinName : FName) (bFinish : Bool)
    (ActivationType : EFlowPinActivationType) : List NodeCall :=
  match this.FlowNode with
  | some FlowNode => [NodeCall.TriggerOutput FlowNode PinName bFinish ActivationType]
  | none => []

/-- `UFlowNodeAddOn::Finish` (`FlowNodeAddOn.cpp`): the calls it makes. -/
def UFlowNodeAddOn_Finish (this : UFlowNodeBase) : List NodeCall :=
  match this.FlowNode with
  | some FlowNode => [NodeCall.Finish FlowNode]
  | none => []

/-! ## Owner capability -/

/-- The class flags (`EClassFlags`) that the code tests. -/
inductive EClassFlags where
  | CLASS_Abstract
  | CLASS_NotPlaceable
  | CLASS_Deprecated
  deriving DecidableEq, Repr

/-- A class object (`UClass`): its name, the names of the classes above it (nearest first),
whether the class object is alive, and whether the class implements `IFlowOwnerInterface`.
`Interfaces` names the interfaces the class implements, `ClassFlags` holds its flags, and
`DefaultObject_bNodeDeprecated` is the member `bNodeDeprecated` of the class default object
when that object is a `UFlowNodeBase` (`none` otherwise). -/
structure UClass where
  Name : FName
  SuperClasses : List FName := []
  Valid : Bool := true
  ImplementsFlowOwnerInterface : Bool := false
  Interfaces : List FName := []
  ClassFlags : List EClassFlags := []
  DefaultObject_bNodeDeprecated : Option Bool := none
  deriving DecidableEq, Repr

/-- The engine's `UClass::IsChildOf(SomeBase)`: the class is `SomeBase` or derives from it. -/
def UClass.IsChildOf (this SomeBase : UClass) : Bool :=
  this.Name == SomeBase.Name || this.SuperClasses.contains SomeBase.Name

/-- An actor (`AActor`). -/
structure AActor where
  Name : FName
  Class : UClass
  Valid : Bool := true
  deriving DecidableEq, Repr

/-- An object that can own a root flow. `ComponentOwner` is `none` when the object is not a
`UActorComponent`, and otherwise holds what `GetOwner()` of the component returns. -/
structure UOwnerObject where
  Name : FName
  Class : UClass
  Valid : Bool := true
  ComponentOwner : Option (Option AActor) := none
  deriving DecidableEq, Repr

/-- The flow asset (`UFlowAsset`, declared outside the sources) as `GetFlowOwnerInterface` reads
it: `GetExpectedOwnerClass()` and `GetOwner()`. -/
structure UFlowAsset where
  Valid : Bool := true
  ExpectedOwnerClass : Option UClass
  Owner : Option UOwnerObject
  deriving DecidableEq, Repr

/-- A pointer `IFlowOwnerInterface*`, by the object it points into. -/
inductive FlowOwnerInterfacePtr where
  | nullptr
  | OfRootFlowOwner (RootFlowOwner : UOwnerObject)
  | OfActor (ActorOwner : AActor)
  deriving DecidableEq, Repr

/-- The engine's `CastChecked<IFlowOwnerInterface>(Object)` for an object of class `Class`:
the pointer, or `none` when the check fails because the class does not implement the
interface. -/
def CastChecked_IFlowOwnerInterface (Class : UClass) (Pointer : FlowOwnerInterfacePtr) :
    Option FlowOwnerInterfacePtr :=
  if Class.ImplementsFlowOwnerInterface then some Pointer else none

/-- `UFlowNodeBase::TryGetFlowOwnerInterfaceFromRootFlowOwner` (`FlowNodeBase.cpp`). -/
def TryGetFlowOwnerInterfaceFromRootFlowOwner (RootFlowOwner : UOwnerObject)
    (ExpectedOwnerClass : UClass) : Option FlowOwnerInterfacePtr :=
  let RootFlowOwnerClass := RootFlowOwner.Class
  if !RootFlowOwnerClass.Valid then
    some .nullptr
  else if !RootFlowOwnerClass.IsChildOf ExpectedOwnerClass then
    some .nullptr
  else
    CastChecked_IFlowOwnerInterface RootFlowOwnerClass (.OfRootFlowOwner RootFlowOwner)

/-- `UFlowNodeBase::TryGetFlowOwnerInterfaceActor` (`FlowNodeBase.cpp`). -/
def TryGetFlowOwnerInterfaceActor (RootFlowOwner : UOwnerObject) (ExpectedOwnerClass : UClass) :
    Option FlowOwnerInterfacePtr :=
  match RootFlowOwner.ComponentOwner with
  | none => some .nullptr
  | some GetOwner =>
    if !RootFlowOwner.Valid then
      some .nullptr
    else
      match GetOwner with
      | none => some .nullptr
      | some ActorOwner =>
        if !ActorOwner.Valid then
          some .nullptr
        else
          let ActorOwnerClass := ActorOwner.Class
          if !ActorOwnerClass.IsChildOf ExpectedOwnerClass then
            some .nullptr
          else
            CastChecked_IFlowOwnerInterface ActorOwnerClass (.OfActor ActorOwner)

/-- `UFlowNodeBase::GetFlowOwnerInterface` (`FlowNodeBase.cpp`), with `FlowAsset` the pointer
that `GetFlowAsset()` returns: the pointer returned, or `none` when a `CastChecked` fails. -/
def GetFlowOwnerInterface (FlowAsset : Option UFlowAsset) : Option FlowOwnerInterfacePtr :=
  match FlowAsset with
  | none => some .nullptr
  | some FlowAsset =>
    if !FlowAsset.Valid then
      some .nullptr
    else
      match FlowAsset.ExpectedOwnerClass with
      | none => some .nullptr
      | some ExpectedOwnerClass =>
        if !ExpectedOwnerClass.Valid then
          some .nullptr
        else
          match FlowAsset.Owner with
          | none => some .nullptr
          | some RootFlowOwner =>
            if !RootFlowOwner.Valid then
              some .nullptr
            else
              match TryGetFlowOwnerInterfaceFromRootFlowOwner RootFlowOwner ExpectedOwnerClass with
              | none => none
              | some .nullptr =>
                match TryGetFlowOwnerInterfaceActor RootFlowOwner ExpectedOwnerClass with
                | none => none
                | some .nullptr => some .nullptr
                | some FlowOwnerInterface => some FlowOwnerInterface
              | some FlowOwnerInterface => some FlowOwnerInterface

/-! ## Context pins -/

/-- The engine's `TArray::AddUnique(Item)`: the item is appended unless an equal element is
there already. Pins are equal when their names are. -/
def AddUnique (Array : List FFlowPin) (Item : FFlowPin) : List FFlowPin :=
  if Array.contains Item then Array else Array ++ [Item]

/-- `UFlowNodeAddOn::GetContextInputs` (`FlowNodeAddOn.h`). -/
def UFlowNodeAddOn_GetContextInputs (this : UFlowNodeBase) : List FFlowPin :=
  this.InputPins

/-- `UFlowNodeAddOn::GetContextOutputs` (`FlowNodeAddOn.h`). -/
def UFlowNodeAddOn_GetContextOutputs (this : UFlowNodeBase) : List FFlowPin :=
  this.OutputPins

/-- The loop `for (const UFlowNodeAddOn* AddOn : AddOns) AddOnPins.Append(AddOn->Get())` of
`UFlowNodeBase::GetContextInputs` and `GetContextOutputs`, with `Get` the getter called on the
add-on: the appended pins, or `none` when a null add-on pointer is dereferenced. -/
def AppendAddOnPins (Get : UFlowNodeBase → List FFlowPin) :
    List (Option UFlowNodeBase) → Option (List FFlowPin)
  | [] => some []
  | none :: _ => none
  | some AddOn :: Rest =>
    match AppendAddOnPins Get Rest with
    | none => none
    | some Others => some (Get AddOn ++ Others)

/-- `UFlowNodeBase::GetContextInputs` (`FlowNodeBase.cpp`). `ContextInputs` is what
`IFlowContextPinSupplierInterface::GetContextInputs()` returns, the unit's own context pins. -/
def UFlowNodeBase_GetContextInputs (ContextInputs : List FFlowPin) (this : UFlowNodeBase) :
    Option (List FFlowPin) :=
  match AppendAddOnPins UFlowNodeAddOn_GetContextInputs this.AddOns with
  | none => none
  | some AddOnInputs =>
    if !AddOnInputs.isEmpty then
      some (AddOnInputs.foldl AddUnique ContextInputs)
    else
      some ContextInputs

/-- `UFlowNodeBase::GetContextOutputs` (`FlowNodeBase.cpp`). `ContextOutputs` is what
`IFlowContextPinSupplierInterface::GetContextOutputs()` returns. -/
def UFlowNodeBase_GetContextOutputs (ContextOutputs : List FFlowPin) (this : UFlowNodeBase) :
    Option (List FFlowPin) :=
  match AppendAddOnPins UFlowNodeAddOn_GetContextOutputs this.AddOns with
  | none => none
  | some AddOnOutputs =>
    if !AddOnOutputs.isEmpty then
      some (AddOnOutputs.foldl AddUnique ContextOutputs)
    else
      some ContextOutputs

/-- The virtual call `GetContextInputs()`: a flow node keeps the implementation of
`UFlowNodeBase`, an add-on has the override of `UFlowNodeAddOn`. -/
def GetContextInputs (ContextInputs : List FFlowPin) (this : UFlowNodeBase) :
    Option (List FFlowPin) :=
  if this.IsFlowNode then UFlowNodeBase_GetContextInputs ContextInputs this
  else some (UFlowNodeAddOn_GetContextInputs this)

/-- The virtual call `GetContextOutputs()`. -/
def GetContextOutputs (ContextOutputs : List FFlowPin) (this : UFlowNodeBase) :
    Option (List FFlowPin) :=
  if this.IsFlowNode then UFlowNodeBase_GetContextOutputs ContextOutputs this
  else some (UFlowNodeAddOn_GetContextOutputs this)

/-- The pins that the add-ons of an array contribute through `Get`, in declaration order
(a null entry contributes nothing). -/
def ContributedPins (Get : UFlowNodeBase → List FFlowPin)
    (AddOns : List (Option UFlowNodeBase)) : List FFlowPin :=
  AddOns.flatMap fun AddOn =>
    match AddOn with
    | some AddOn => Get AddOn
    | none => []

/-! ## Signal mode -/

/-- What triggering an input pin of a flow node brings about. -/
inductive TriggerEvent where
  /-- An event of the dispatch `ExecuteInput` on the node and the units below it. -/
  | Dispatch (Event : ExecEvent)
  /-- The node triggered its output pin `PinName`. -/
  | TriggerOutput (PinName : FName)
  deriving DecidableEq, Repr

/-- Modelled from the spec: `UFlowNode::TriggerInput`, whose body is in `FlowNode.cpp` and
missing from the sources (`FlowNode.h` declares it next to the member `SignalMode`).
Section 4.4: with `Enabled` the input is dispatched as in section 4.2 step 4 (`ExecuteInput`);
with `Disabled` the trigger is ignored entirely, without own logic and without add-on
forwarding; with `PassThrough` the own input handling is skipped and all output pins of the
node that correspond to the activated input are triggered. The spec leaves the pairing of an
input with its outputs open (section 9); it is the parameter `Corresponds`, read as
`Corresponds this InputName OutputName`. -/
def UFlowNode_TriggerInput_Spec (B : FlowClassBehaviour)
    (Corresponds : UFlowNodeBase → FName → FName → Bool) (this : UFlowNodeBase)
    (PinName : FName) : Option (List TriggerEvent) :=
  match this.SignalMode with
  | .Enabled => (ExecuteInput B [] this PinName).map (List.map TriggerEvent.Dispatch)
  | .Disabled => some []
  | .PassThrough =>
    some ((this.OutputPins.filter fun Pin => Corresponds this PinName Pin.PinName).map
      fun Pin => TriggerEvent.TriggerOutput Pin.PinName)

/-! ## Iteration over add-ons -/

/-- The engine's `UObject::GetClass` for a flow object. -/
def UFlowNodeBase.GetClass (this : UFlowNodeBase) : UClass :=
  { Name := this.Class, SuperClasses := this.Properties.SuperClasses,
    Interfaces := this.Properties.Interfaces }

/-- The engine's `UObject::IsA(SomeBase)`: the object's class is `SomeBase` or derives from
it. -/
def UFlowNodeBase.IsA (this : UFlowNodeBase) (SomeBase : UClass) : Bool :=
  this.GetClass.IsChildOf SomeBase

/-- The engine's `UClass::ImplementsInterface(SomeInterface)`. -/
def UClass.ImplementsInterface (this SomeInterface : UClass) : Bool :=
  this.Interfaces.contains SomeInterface.Name

mutual
/-- `UFlowNodeBase::ForEachAddOn` (`FlowNodeBase.cpp`) called on the unit at `Path`. The
function object is `Function`; what it does is a change of a state `σ`, and it is told the
place of the add-on it is called on together with the add-on. -/
def ForEachAddOn {σ : Type} (Function : ObjectPath → UFlowNodeBase → σ → σ) :
    ObjectPath → UFlowNodeBase → σ → σ
  | Path, .mk _ AddOns, State => ForEachAddOnLoop Function Path 0 AddOns State
/-- The loop `for (UFlowNodeAddOn* AddOn : AddOns)` of `ForEachAddOn` on the unit at `Path`,
from entry `Index` on:
`if (IsValid(AddOn)) { Function(*AddOn); AddOn->ForEachAddOn(Function); }`. -/
def ForEachAddOnLoop {σ : Type} (Function : ObjectPath → UFlowNodeBase → σ → σ) :
    ObjectPath → Nat → List (Option UFlowNodeBase) → σ → σ
  | _, _, [], State => State
  | Path, Index, none :: Rest, State => ForEachAddOnLoop Function Path (Index + 1) Rest State
  | Path, Index, some AddOn :: Rest, State =>
    if AddOn.Valid then
      ForEachAddOnLoop Function Path (Index + 1) Rest
        (ForEachAddOn Function (Path ++ [Index]) AddOn (Function (Path ++ [Index]) AddOn State))
    else
      ForEachAddOnLoop Function Path (Index + 1) Rest State
end

/-- `UFlowNodeBase::ForEachAddOnConst` (`FlowNodeBase.cpp`): the body of `ForEachAddOn` with
a const add-on reference, which makes no difference here. -/
def ForEachAddOnConst {σ : Type} (Function : ObjectPath → UFlowNodeBase → σ → σ)
    (Path : ObjectPath) (this : UFlowNodeBase) (State : σ) : σ :=
  ForEachAddOn Function Path this State

mutual
/-- `UFlowNodeBase::ForEachAddOnForClass` (`FlowNodeBase.cpp`) called on the unit at `Path`. -/
def ForEachAddOnForClass {σ : Type} (InterfaceOrClass : UClass)
    (Function : ObjectPath → UFlowNodeBase → σ → σ) :
    ObjectPath → UFlowNodeBase → σ → σ
  | Path, .mk _ AddOns, State =>
    ForEachAddOnForClassLoop InterfaceOrClass Function Path 0 AddOns State
/-- The loop of `ForEachAddOnForClass` on the unit at `Path`, from entry `Index` on: a live
add-on gets the call when it is of the class or implements the interface, and is descended
into in either case. -/
def ForEachAddOnForClassLoop {σ : Type} (InterfaceOrClass : UClass)
    (Function : ObjectPath → UFlowNodeBase → σ → σ) :
    ObjectPath → Nat → List (Option UFlowNodeBase) → σ → σ
  | _, _, [], State => State
  | Path, Index, none :: Rest, State =>
    ForEachAddOnForClassLoop InterfaceOrClass Function Path (Index + 1) Rest State
  | Path, Index, some AddOn :: Rest, State =>
    if AddOn.Valid then
      ForEachAddOnForClassLoop InterfaceOrClass Function Path (Index + 1) Rest
        (ForEachAddOnForClass InterfaceOrClass Function (Path ++ [Index]) AddOn
          (if AddOn.IsA InterfaceOrClass || AddOn.GetClass.ImplementsInterface InterfaceOrClass
            then Function (Path ++ [Index]) AddOn State
            else State))
    else
      ForEachAddOnForClassLoop InterfaceOrClass Function Path (Index + 1) Rest State
end

/-- A function object that records the add-on it is called on, after the calls so far. -/
def RecordCall (Path : ObjectPath) (AddOn : UFlowNodeBase)
    (Calls : List (ObjectPath × UFlowNodeBase)) : List (ObjectPath × UFlowNodeBase) :=
  Calls ++ [(Path, AddOn)]

/-- The calls that `ForEachAddOn` makes on the unit at `Path`, in the order they happen. -/
def ForEachAddOn_Calls (Path : ObjectPath) (this : UFlowNodeBase) :
    List (ObjectPath × UFlowNodeBase) :=
  ForEachAddOn RecordCall Path this []

/-- The calls that the loop of `ForEachAddOn` makes from entry `Index` of the array of the unit
at `Path` on. -/
def ForEachAddOnLoop_Calls (Path : ObjectPath) (Index : Nat)
    (AddOns : List (Option UFlowNodeBase)) : List (ObjectPath × UFlowNodeBase) :=
  ForEachAddOnLoop RecordCall Path Index AddOns []

/-- The calls that the loop of `ForEachAddOnForClass` makes from entry `Index` of the array of
the unit at `Path` on. -/
def ForEachAddOnForClassLoop_Calls (InterfaceOrClass : UClass) (Path : ObjectPath) (Index : Nat)
    (AddOns : List (Option UFlowNodeBase)) : List (ObjectPath × UFlowNodeBase) :=
  ForEachAddOnForClassLoop InterfaceOrClass RecordCall Path Index AddOns []

/-- The calls that `ForEachAddOnForClass` makes on the unit at `Path`, in the order they
happen. -/
def ForEachAddOnForClass_Calls (InterfaceOrClass : UClass) (Path : ObjectPath)
    (this : UFlowNodeBase) : List (ObjectPath × UFlowNodeBase) :=
  ForEachAddOnForClass InterfaceOrClass RecordCall Path this []

/-- The add-on reached from the entry `Index` of an array by the further steps `Below`, when
that entry and every add-on on the way are live (not null and not garbage). -/
def LiveAddOnIn : List (Option UFlowNodeBase) → Nat → ObjectPath → Option UFlowNodeBase
  | AddOns, Index, [] =>
    match AddOns[Index]? with
    | some (some AddOn) => if AddOn.Valid then some AddOn else none
    | _ => none
  | AddOns, Index, Next :: Below =>
    match AddOns[Index]? with
    | some (some AddOn) => if AddOn.Valid then LiveAddOnIn AddOn.AddOns Next Below else none
    | _ => none

/-- The add-on at the place `Below` under a unit (`Below` is not empty), when it and every
add-on between it and the unit are live. -/
def LiveAddOnAt (this : UFlowNodeBase) : ObjectPath → Option UFlowNodeBase
  | [] => none
  | Index :: Below => LiveAddOnIn this.AddOns Index Below

/-- Whether `ForEachAddOnForClass` calls the function on an add-on. -/
def MatchesInterfaceOrClass (InterfaceOrClass : UClass) (AddOn : UFlowNodeBase) : Bool :=
  AddOn.IsA InterfaceOrClass || AddOn.GetClass.ImplementsInterface InterfaceOrClass

/-! ## Connections between pins -/

/-- The engine's `EEdGraphPinDirection`. -/
inductive EEdGraphPinDirection where
  | EGPD_Input
  | EGPD_Output
  | EGPD_MAX
  deriving DecidableEq, Repr

/-- A pin of an editor graph node (`UEdGraphPin`): its identifier, the pointer to the node that
owns it, its direction, whether it is orphaned, and the identifiers of the pins it is linked
to. -/
structure UEdGraphPin where
  PinId : Nat
  OwningNode : Option UEdGraphNode
  Direction : EEdGraphPinDirection
  bOrphanedPin : Bool := false
  LinkedTo : List Nat := []
  deriving DecidableEq, Repr

/-- The engine's `ECanCreateConnectionResponse`. -/
inductive ECanCreateConnectionResponse where
  | CONNECT_RESPONSE_MAKE
  | CONNECT_RESPONSE_DISALLOW
  | CONNECT_RESPONSE_BREAK_OTHERS_A
  | CONNECT_RESPONSE_BREAK_OTHERS_B
  | CONNECT_RESPONSE_BREAK_OTHERS_AB
  | CONNECT_RESPONSE_MAKE_WITH_CONVERSION_NODE
  | CONNECT_RESPONSE_MAKE_WITH_PROMOTION
  deriving DecidableEq, Repr

open ECanCreateConnectionResponse EEdGraphPinDirection

/-- The engine's `FPinConnectionResponse`: the response and the message shown with it. -/
structure FPinConnectionResponse where
  Response : ECanCreateConnectionResponse
  Message : String
  deriving DecidableEq, Repr

/-- The engine's `Cast<UFlowGraphNode>` applied to a pointer to an editor graph node. -/
def Cast_UFlowGraphNode_OfEdGraphNode : Option UEdGraphNode → Option UEdGraphNode
  | some Node => if Node.IsFlowGraphNode then some Node else none
  | none => none

/-- The engine's `UEdGraphSchema::CategorizePinsByDirection`: the pair `(InputPin, OutputPin)`
when one pin is an input and the other an output, and `none` (the answer `false`) otherwise. -/
def CategorizePinsByDirection (PinA PinB : UEdGraphPin) : Option (UEdGraphPin × UEdGraphPin) :=
  if PinA.Direction = EGPD_Input ∧ PinB.Direction = EGPD_Output then some (PinA, PinB)
  else if PinB.Direction = EGPD_Input ∧ PinA.Direction = EGPD_Output then some (PinB, PinA)
  else none

/-- `UFlowGraphSchema::CanCreateConnection` (`FlowGraphSchema.cpp`). -/
def CanCreateConnection (PinA PinB : UEdGraphPin) : FPinConnectionResponse :=
  let OwningNodeA := Cast_UFlowGraphNode_OfEdGraphNode PinA.OwningNode
  let OwningNodeB := Cast_UFlowGraphNode_OfEdGraphNode PinB.OwningNode
  if OwningNodeA.isNone || OwningNodeB.isNone then
    ⟨CONNECT_RESPONSE_DISALLOW, "Invalid nodes"⟩
  else if PinA.OwningNode = PinB.OwningNode then
    ⟨CONNECT_RESPONSE_DISALLOW, "Both are on the same node"⟩
  else if PinA.bOrphanedPin || PinB.bOrphanedPin then
    ⟨CONNECT_RESPONSE_DISALLOW, "Cannot make new connections to orphaned pin"⟩
  else
    match CategorizePinsByDirection PinA PinB with
    | none => ⟨CONNECT_RESPONSE_DISALLOW, "Directions are not compatible"⟩
    | some (_InputPin, OutputPin) =>
      if OutputPin.LinkedTo.length > 0 then
        let ReplyBreakInputs :=
          if OutputPin = PinA then CONNECT_RESPONSE_BREAK_OTHERS_A
          else CONNECT_RESPONSE_BREAK_OTHERS_B
        ⟨ReplyBreakInputs, "Replace existing connections"⟩
      else
        ⟨CONNECT_RESPONSE_MAKE, ""⟩

/-- The engine's `UEdGraphPin::MakeLinkTo(ToPin)` on both sides: each pin gets the other one
as a further link. -/
def MakeLinkTo (PinA PinB : UEdGraphPin) : UEdGraphPin × UEdGraphPin :=
  ({ PinA with LinkedTo := PinA.LinkedTo ++ [PinB.PinId] },
   { PinB with LinkedTo := PinB.LinkedTo ++ [PinA.PinId] })

/-- The engine's `UEdGraphPin::BreakAllPinLinks`, as far as the pin itself goes. -/
def BreakAllPinLinks (Pin : UEdGraphPin) : UEdGraphPin :=
  { Pin with LinkedTo := [] }

/-- The engine's `UEdGraphSchema::TryCreateConnection`, which
`UFlowGraphSchema::TryCreateConnection` calls first: it carries out the response of
`CanCreateConnection`. The result is the two pins afterwards, or `none` when no link is made
(the answer `false`); the two responses that insert a node between the pins are not given by
this schema. -/
def UEdGraphSchema_TryCreateConnection (PinA PinB : UEdGraphPin) :
    Option (UEdGraphPin × UEdGraphPin) :=
  match (CanCreateConnection PinA PinB).Response with
  | CONNECT_RESPONSE_MAKE => some (MakeLinkTo PinA PinB)
  | CONNECT_RESPONSE_BREAK_OTHERS_A => some (MakeLinkTo (BreakAllPinLinks PinA) PinB)
  | CONNECT_RESPONSE_BREAK_OTHERS_B => some (MakeLinkTo PinA (BreakAllPinLinks PinB))
  | CONNECT_RESPONSE_BREAK_OTHERS_AB =>
    some (MakeLinkTo (BreakAllPinLinks PinA) (BreakAllPinLinks PinB))
  | _ => none

/-! ## Graph node classes assigned to flow node classes -/

/-- The engine's `TMap::Contains` on a map kept as the list of its pairs in iteration order. -/
def TMap_Contains {V : Type} (Map : List (FName × V)) (Key : FName) : Bool :=
  Map.any fun Pair => Pair.1 == Key

/-- The engine's `TMap::Emplace`: the value of an existing key is replaced, a new key is
added at the end. -/
def TMap_Emplace {V : Type} (Map : List (FName × V)) (Key : FName) (Value : V) :
    List (FName × V) :=
  if TMap_Contains Map Key then
    Map.map fun Pair => if Pair.1 == Key then (Key, Value) else Pair
  else
    Map ++ [(Key, Value)]

/-- The engine's `TMap::Remove`. -/
def TMap_Remove {V : Type} (Map : List (FName × V)) (Key : FName) : List (FName × V) :=
  Map.filter fun Pair => Pair.1 != Key

/-- The engine's `TMap::FindRef` for a map to pointers: the value of the key, or null when the
key is absent. -/
def TMap_FindRef {V : Type} (Map : List (FName × Option V)) (Key : FName) : Option V :=
  match Map.find? fun Pair => Pair.1 == Key with
  | some Pair => Pair.2
  | none => none

/-- The class object `UFlowNode::StaticClass()`. -/
def UFlowNode_StaticClass : UClass :=
  { Name := "FlowNode", SuperClasses := ["FlowNodeBase", "Object"] }

/-- The class object `UFlowNodeAddOn::StaticClass()`. -/
def UFlowNodeAddOn_StaticClass : UClass :=
  { Name := "FlowNodeAddOn", SuperClasses := ["FlowNodeBase", "Object"] }

/-- The name of the class `UFlowGraphNode::StaticClass()`. -/
def UFlowGraphNode_StaticClass : FName := "FlowGraphNode"

/-- The first loop of `GetAssignedGraphNodeClass` over the remaining pairs of the map: the value
of the pair whose key is the class itself (`Except.error`, the early `return`), or else the
keys the class derives from, added to `FoundParentClasses` in iteration order. Classes are
compared by name. -/
def CollectParentClasses (FlowNodeClass : UClass) :
    List (FName × Option FName) → List FName → Except (Option FName) (List FName)
  | [], FoundParentClasses => .ok FoundParentClasses
  | (Key, Value) :: Rest, FoundParentClasses =>
    if FlowNodeClass.Name = Key then
      .error Value
    else if FlowNodeClass.IsChildOf { Name := Key } then
      CollectParentClasses FlowNodeClass Rest (FoundParentClasses ++ [Key])
    else
      CollectParentClasses FlowNodeClass Rest FoundParentClasses

/-- The inner `while` loop of `GetAssignedGraphNodeClass`: the value of `StepsTillExactMatch`
when `LocalParentClass` starts at the head of the chain (a class, then the classes above it,
nearest first) and `GetSuperClass()` moves to the next one; past the end of the chain the
pointer is null. -/
def StepsTillExactMatch (ParentClass : FName) : List FName → Nat
  | [] => 0
  | LocalParentClass :: SuperClasses =>
    if LocalParentClass ≠ ParentClass ∧ LocalParentClass ≠ UFlowNode_StaticClass.Name then
      StepsTillExactMatch ParentClass SuperClasses + 1
    else
      0

/-- The loop of `GetAssignedGraphNodeClass` over `FoundParentClasses` with the running
`ClosestParentMatch`. -/
def ClosestParentLoop (FlowNodeClass : UClass) :
    List FName → Nat × Option FName → Nat × Option FName
  | [], ClosestParentMatch => ClosestParentMatch
  | ParentClass :: Rest, ClosestParentMatch =>
    let Steps := StepsTillExactMatch ParentClass (FlowNodeClass.Name :: FlowNodeClass.SuperClasses)
    if Steps ≠ 0 ∧ Steps < ClosestParentMatch.1 then
      ClosestParentLoop FlowNodeClass Rest (Steps, some ParentClass)
    else
      ClosestParentLoop FlowNodeClass Rest ClosestParentMatch

/-- `UFlowGraphSchema::GetAssignedGraphNodeClass` (`FlowGraphSchema.cpp`) for the static map
`GraphNodesByFlowNodes`, kept as the list of its pairs in iteration order; a class is named,
and a null class pointer is `none`. -/
def GetAssignedGraphNodeClass (GraphNodesByFlowNodes : List (FName × Option FName))
    (FlowNodeClass : UClass) : Option FName :=
  match CollectParentClasses FlowNodeClass GraphNodesByFlowNodes [] with
  | .error Value => Value
  | .ok FoundParentClasses =>
    let ReturnClass : Option FName :=
      match FoundParentClasses with
      | [] => none
      | [ParentClass] => TMap_FindRef GraphNodesByFlowNodes ParentClass
      | _ =>
        let ClosestParentMatch := ClosestParentLoop FlowNodeClass FoundParentClasses (1000, none)
        match ClosestParentMatch.2 with
        | some ParentClass => TMap_FindRef GraphNodesByFlowNodes ParentClass
        | none => none
    match ReturnClass with
    | some Class => some Class
    | none => some UFlowGraphNode_StaticClass

/-- The part of a superclass chain strictly above `UFlowNode`. -/
def AboveFlowNode (Chain : List FName) : List FName :=
  (Chain.dropWhile fun Class => Class != UFlowNode_StaticClass.Name).drop 1

/-! ## Refreshing the graph nodes of add-ons -/

/-- What `RecursivelyRefreshAddOns` does, step by step. -/
inductive RefreshEvent where
  /-- The call was made for the graph node of the unit at `Unit`. -/
  | Refresh (Unit : ObjectPath)
  /-- The error line about the null entry `Index` of the add-on array of the unit at `Unit`. -/
  | LogError (Unit : ObjectPath) (Index : Nat)
  /-- The graph node of the add-on at `AddOn` was replaced by one of class `Class`
  (`FFlowSchemaAction_NewSubNode::RecreateNode`). -/
  | RecreateNode (AddOn : ObjectPath) (Class : Option FName)
  deriving DecidableEq, Repr

namespace RefreshEvent

/-- The event tells what became of an entry of the add-on array of a unit `Depth` levels below
the start: the error line for a null entry, or the call made for a non-null one. -/
def IsEntryAtDepth (Depth : Nat) : RefreshEvent → Bool
  | Refresh Unit => Unit.length == Depth + 1
  | LogError Unit _ => Unit.length == Depth
  | RecreateNode _ _ => false

/-- The event is made by the loop of a unit at least `Depth` levels below the start: an error
line of such a unit, or the replacement of the graph node of one of its add-ons, or the call
made for one of its add-ons. -/
def IsFromLoopBelow (Depth : Nat) : RefreshEvent → Bool
  | Refresh Unit => Depth + 1 ≤ Unit.length
  | LogError Unit _ => Depth ≤ Unit.length
  | RecreateNode AddOn _ => Depth + 1 ≤ AddOn.length

end RefreshEvent

mutual
/-- `UFlowGraph::RecursivelyRefreshAddOns` (`FlowGraph.cpp`) called with the graph node of the
unit at `Path`, `FromFlowNodeBase` being what `GetFlowNodeBase()` of that graph node returns.
`FlowGraphNode.cpp` and the schema actions are not among the sources: the graph node handed to
the recursive call, be it the existing one or the one `RecreateNode` returns, is taken to be a
graph node of the add-on, so that its `GetFlowNodeBase()` is the add-on. The result is `none`
when the existing graph node is kept although the pointer is null. -/
def RecursivelyRefreshAddOns (GraphNodesByFlowNodes : List (FName × Option FName))
    (Path : ObjectPath) : UFlowNodeBase → Option (List RefreshEvent)
  | .mk _ AddOns =>
    match RecursivelyRefreshAddOnsLoop GraphNodesByFlowNodes Path 0 AddOns with
    | none => none
    | some Events => some (RefreshEvent.Refresh Path :: Events)
/-- The loop `for (UFlowNodeAddOn* AddOn : FlowNodeAddOnChildren)` of
`RecursivelyRefreshAddOns` for the unit at `Path`, from entry `Index` on. -/
def RecursivelyRefreshAddOnsLoop (GraphNodesByFlowNodes : List (FName × Option FName))
    (Path : ObjectPath) (Index : Nat) : List (Option UFlowNodeBase) → Option (List RefreshEvent)
  | [] => some []
  | none :: Rest =>
    match RecursivelyRefreshAddOnsLoop GraphNodesByFlowNodes Path (Index + 1) Rest with
    | none => none
    | some Others => some (RefreshEvent.LogError Path Index :: Others)
  | some AddOn :: Rest =>
    let AddOnFlowGraphNode := Cast_UFlowGraphNode_OfEdGraphNode AddOn.GetGraphNode
    let ExpectAddOnGraphNodeClass := GetAssignedGraphNodeClass GraphNodesByFlowNodes AddOn.GetClass
    let ExistingAddOnGraphNodeClass : Option FName :=
      match AddOnFlowGraphNode with
      | some Node => if Node.Valid then some Node.Class else none
      | none => none
    let bRecreate : Bool := ExistingAddOnGraphNodeClass != ExpectAddOnGraphNodeClass
    if !bRecreate && AddOnFlowGraphNode.isNone then
      none
    else
      match RecursivelyRefreshAddOns GraphNodesByFlowNodes (Path ++ [Index]) AddOn with
      | none => none
      | some First =>
        match RecursivelyRefreshAddOnsLoop GraphNodesByFlowNodes Path (Index + 1) Rest with
        | none => none
        | some Others =>
          some ((if bRecreate then
              [RefreshEvent.RecreateNode (Path ++ [Index]) ExpectAddOnGraphNodeClass]
            else []) ++ First ++ Others)
end

/-- `UFlowGraph::RecursivelyRefreshAddOns` as `RefreshGraph` calls it, on a graph node: its
node instance is dereferenced unchecked. -/
def UFlowGraph_RecursivelyRefreshAddOns (GraphNodesByFlowNodes : List (FName × Option FName))
    (FromFlowGraphNode : UFlowGraphNode) : Option (List RefreshEvent) :=
  match FromFlowGraphNode.NodeInstance with
  | none => none
  | some FromFlowNodeBase => RecursivelyRefreshAddOns GraphNodesByFlowNodes [] FromFlowNodeBase

/-- What the refresh makes of an entry of an add-on array: the error line for a null entry, the
call for the graph node of a non-null one. -/
def RefreshEntryEvent (Path : ObjectPath) (Entry : Nat × Option UFlowNodeBase) : RefreshEvent :=
  match Entry.2 with
  | none => RefreshEvent.LogError Path Entry.1
  | some _ => RefreshEvent.Refresh (Path ++ [Entry.1])

/-! ## Prefixes removed from node names -/

/-- What the engine's `FPlatformString::Stricmp` compares of a string: the code of every
character after lowering its case. -/
def FString_Key (S : String) : List Nat :=
  S.data.map fun c => c.toLower.toNat

/-- The engine's `operator<` on `FString`: `Stricmp(A, B) < 0`, the order of the dictionary
without regard to case. -/
def FString_Less (A B : String) : Bool :=
  decide (FString_Key A < FString_Key B)

/-- The engine's `operator==` on `FString`: `Stricmp(A, B) == 0`. -/
def FString_Equals (A B : String) : Bool :=
  FString_Key A == FString_Key B

/-- The engine's `TGreater<>`: `A > B`, which is `B < A`. -/
def TGreater (A B : String) : Bool :=
  FString_Less B A

/-- The engine's `TArray::Sort(Predicate)`. The engine sorts with an algorithm of its own that
is not stable; what is used of it is that the result holds the same elements and that no
element is in front of one that the predicate puts before it. An insertion sort stands for
it. -/
def TArray_Sort (Predicate : String → String → Bool) (Array : List String) : List String :=
  Array.insertionSort fun A B => Predicate B A = false

/-- The loop of the engine's `Algo::Unique` after the first element: an element equal to the
last one kept is dropped. -/
def Algo_Unique_Loop (Last : String) : List String → List String
  | [] => []
  | Next :: Rest =>
    if FString_Equals Last Next then Algo_Unique_Loop Last Rest
    else Next :: Algo_Unique_Loop Next Rest

/-- The engine's `Algo::Unique(Range)`: the elements that are kept, which are the first
`SizeAfter` elements of the range afterwards. -/
def Algo_Unique : List String → List String
  | [] => []
  | First :: Rest => First :: Algo_Unique_Loop First Rest

/-- What `PostEditChangeProperty` does besides changing the list. -/
inductive SettingsEvent where
  /-- The error notification about a prefix that was there already. -/
  | DuplicatePrefixError
  /-- The call `UFlowGraphSchema::UpdateGeneratedDisplayNames()`. -/
  | UpdateGeneratedDisplayNames
  deriving DecidableEq, Repr

/-- `UFlowGraphSettings::PostInitProperties` (`FlowGraphSettings.cpp`): the member
`NodePrefixesToRemove` afterwards. -/
def UFlowGraphSettings_PostInitProperties (NodePrefixesToRemove : List String) : List String :=
  TArray_Sort TGreater NodePrefixesToRemove

/-- `UFlowGraphSettings::PostEditChangeProperty` (`FlowGraphSettings.cpp`) for the changed
member `MemberPropertyName`: the member `NodePrefixesToRemove` afterwards and what else
happened. -/
def UFlowGraphSettings_PostEditChangeProperty (MemberPropertyName : FName)
    (NodePrefixesToRemove : List String) : List String × List SettingsEvent :=
  if MemberPropertyName = "NodePrefixesToRemove" then
    let NodePrefixesToRemove := TArray_Sort TGreater NodePrefixesToRemove
    let SizeBefore := NodePrefixesToRemove.length
    let Kept := Algo_Unique NodePrefixesToRemove
    let SizeAfter := Kept.length
    if SizeBefore > SizeAfter then
      (Kept, [SettingsEvent.DuplicatePrefixError])
    else
      (NodePrefixesToRemove, [SettingsEvent.UpdateGeneratedDisplayNames])
  else
    (NodePrefixesToRemove, [])

/-- A string is a proper prefix of another one: the other one starts with it and is longer. -/
def IsProperPrefixOf (P Q : String) : Prop :=
  P.data <+: Q.data ∧ P ≠ Q

/-! ## Blueprint registries -/

/-- A blueprint asset (`UBlueprint`): whether the object is alive and its generated class. -/
structure UBlueprint where
  Valid : Bool := true
  GeneratedClass : Option UClass := none
  deriving DecidableEq, Repr

/-- The engine's `FAssetData` as the schema reads it: the package name, the class of the asset
(`GetClass()`), and the asset as a blueprint (`Cast<UBlueprint>(GetAsset())`). -/
structure FAssetData where
  PackageName : FName
  Class : UClass
  Asset : Option UBlueprint := none
  deriving DecidableEq, Repr

/-- The two static registries of blueprint assets of `UFlowGraphSchema`, each a map from
package name to asset data. -/
structure BlueprintRegistries where
  BlueprintFlowNodes : List (FName × FAssetData) := []
  BlueprintFlowNodeAddOns : List (FName × FAssetData) := []

/-- What the registry functions do besides changing the maps. -/
inductive SchemaEvent where
  /-- The call `UpdateGeneratedDisplayName(NodeClass, false)`. -/
  | UpdateGeneratedDisplayName (NodeClass : Option UClass)
  /-- The broadcast of `OnNodeListChanged`. -/
  | OnNodeListChanged
  deriving DecidableEq, Repr

/-- The class object `UFlowNodeBlueprint::StaticClass()`. -/
def UFlowNodeBlueprint_StaticClass : UClass :=
  { Name := "FlowNodeBlueprint", SuperClasses := ["Blueprint", "Object"] }

/-- The class object `UFlowNodeAddOnBlueprint::StaticClass()`. -/
def UFlowNodeAddOnBlueprint_StaticClass : UClass :=
  { Name := "FlowNodeAddOnBlueprint", SuperClasses := ["Blueprint", "Object"] }

/-- `UFlowGraphSchema::IsFlowNodeOrAddOnPlaceable` (`FlowGraphSchema.cpp`). -/
def IsFlowNodeOrAddOnPlaceable (Class : Option UClass) : Bool :=
  match Class with
  | none => false
  | some Class =>
    if Class.ClassFlags.any fun Flag =>
        Flag = .CLASS_Abstract ∨ Flag = .CLASS_NotPlaceable ∨ Flag = .CLASS_Deprecated then
      false
    else
      match Class.DefaultObject_bNodeDeprecated with
      | some bNodeDeprecated => !bNodeDeprecated
      | none => true

/-- `UFlowGraphSchema::GetPlaceableNodeOrAddOnBlueprint` (`FlowGraphSchema.cpp`). -/
def GetPlaceableNodeOrAddOnBlueprint (AssetData : FAssetData) : Option UBlueprint :=
  match AssetData.Asset with
  | some Blueprint =>
    if IsFlowNodeOrAddOnPlaceable Blueprint.GeneratedClass then some Blueprint else none
  | none => none

/-- `UFlowGraphSchema::ShouldAddToBlueprintFlowNodesMap` (`FlowGraphSchema.cpp`). -/
def ShouldAddToBlueprintFlowNodesMap (AssetData : FAssetData) (BlueprintClass : UClass)
    (FlowNodeBaseClass : UClass) : Bool :=
  if !AssetData.Class.IsChildOf BlueprintClass then
    false
  else
    match GetPlaceableNodeOrAddOnBlueprint AssetData with
    | none => false
    | some Blueprint =>
      if !Blueprint.Valid then
        false
      else
        match Blueprint.GeneratedClass with
        | none => false
        | some GeneratedClass =>
          if !GeneratedClass.IsChildOf FlowNodeBaseClass then false else true

/-- `UFlowGraphSchema::AddAsset` (`FlowGraphSchema.cpp`): the registries afterwards and what
else happened. `bIsLoadingAssets` is what the asset registry answers to `IsLoadingAssets()`. -/
def AddAsset (bIsLoadingAssets : Bool) (Registries : BlueprintRegistries)
    (AssetData : FAssetData) (bBatch : Bool) : BlueprintRegistries × List SchemaEvent :=
  let bIsAssetAlreadyKnown :=
    TMap_Contains Registries.BlueprintFlowNodes AssetData.PackageName ||
    TMap_Contains Registries.BlueprintFlowNodeAddOns AssetData.PackageName
  if bIsAssetAlreadyKnown then
    (Registries, [])
  else if bIsLoadingAssets then
    (Registries, [])
  else
    let Added : BlueprintRegistries × Bool :=
      if ShouldAddToBlueprintFlowNodesMap AssetData UFlowNodeBlueprint_StaticClass
          UFlowNode_StaticClass then
        ({ Registries with
            BlueprintFlowNodes :=
              TMap_Emplace Registries.BlueprintFlowNodes AssetData.PackageName AssetData }, true)
      else if ShouldAddToBlueprintFlowNodesMap AssetData UFlowNodeAddOnBlueprint_StaticClass
          UFlowNodeAddOn_StaticClass then
        ({ Registries with
            BlueprintFlowNodeAddOns :=
              TMap_Emplace Registries.BlueprintFlowNodeAddOns AssetData.PackageName AssetData },
          true)
      else
        (Registries, false)
    let bAddedToMap := Added.2
    if bAddedToMap && !bBatch then
      (Added.1,
        (match AssetData.Asset with
          | some Blueprint => [SchemaEvent.UpdateGeneratedDisplayName Blueprint.GeneratedClass]
          | none => []) ++ [SchemaEvent.OnNodeListChanged])
    else
      (Added.1, [])

/-- `UFlowGraphSchema::OnAssetAdded` (`FlowGraphSchema.cpp`). -/
def OnAssetAdded (bIsLoadingAssets : Bool) (Registries : BlueprintRegistries)
    (AssetData : FAssetData) : BlueprintRegistries × List SchemaEvent :=
  AddAsset bIsLoadingAssets Registries AssetData false

/-- `UFlowGraphSchema::OnAssetRemoved` (`FlowGraphSchema.cpp`). -/
def OnAssetRemoved (Registries : BlueprintRegistries) (AssetData : FAssetData) :
    BlueprintRegistries × List SchemaEvent :=
  if TMap_Contains Registries.BlueprintFlowNodes AssetData.PackageName then
    ({ Registries with
        BlueprintFlowNodes := TMap_Remove Registries.BlueprintFlowNodes AssetData.PackageName },
      [SchemaEvent.OnNodeListChanged])
  else if TMap_Contains Registries.BlueprintFlowNodeAddOns AssetData.PackageName then
    ({ Registries with
        BlueprintFlowNodeAddOns :=
          TMap_Remove Registries.BlueprintFlowNodeAddOns AssetData.PackageName },
      [SchemaEvent.OnNodeListChanged])
  else
    (Registries, [])

/-- The engine's `FString::Split` at the separator `.`, searched from the start: the parts left
and right of its first occurrence, or `none` (the answer `false`) when it does not occur. -/
def FString_Split_Dot (S : String) : Option (String × String) :=
  match S.data.span fun c => c != '.' with
  | (_, []) => none
  | (Left, _ :: Right) => some (String.mk Left, String.mk Right)

/-- `UFlowGraphSchema::OnAssetRenamed` (`FlowGraphSchema.cpp`). -/
def OnAssetRenamed (bIsLoadingAssets : Bool) (Registries : BlueprintRegistries)
    (AssetData : FAssetData) (OldObjectPath : String) : BlueprintRegistries × List SchemaEvent :=
  let Registries : BlueprintRegistries :=
    match FString_Split_Dot OldObjectPath with
    | some (OldPackageName, _OldAssetName) =>
      let NAME_OldPackageName : FName := OldPackageName
      if TMap_Contains Registries.BlueprintFlowNodes NAME_OldPackageName then
        { Registries with
            BlueprintFlowNodes := TMap_Remove Registries.BlueprintFlowNodes NAME_OldPackageName }
      else if TMap_Contains Registries.BlueprintFlowNodeAddOns NAME_OldPackageName then
        { Registries with
            BlueprintFlowNodeAddOns :=
              TMap_Remove Registries.BlueprintFlowNodeAddOns NAME_OldPackageName }
      else
        Registries
    | none => Registries
  AddAsset bIsLoadingAssets Registries AssetData false

/-- No package name is a key of both registries. -/
def KeysDisjoint (Registries : BlueprintRegistries) : Prop :=
  ∀ PackageName : FName,
    ¬ (TMap_Contains Registries.BlueprintFlowNodes PackageName = true ∧
       TMap_Contains Registries.BlueprintFlowNodeAddOns PackageName = true)

/-- The states of the two registries that can be reached: they start empty, and are changed by
`AddAsset` (which `GatherNodes` calls in batch mode), `OnAssetAdded`, `OnAssetRemoved` and
`OnAssetRenamed`. -/
inductive Reachable : BlueprintRegistries → Prop where
  | Empty : Reachable {}
  | AddAsset (bIsLoadingAssets : Bool) (Registries : BlueprintRegistries)
      (AssetData : FAssetData) (bBatch : Bool) :
      Reachable Registries → Reachable (AddAsset bIsLoadingAssets Registries AssetData bBatch).1
  | OnAssetAdded (bIsLoadingAssets : Bool) (Registries : BlueprintRegistries)
      (AssetData : FAssetData) :
      Reachable Registries → Reachable (OnAssetAdded bIsLoadingAssets Registries AssetData).1
  | OnAssetRemoved (Registries : BlueprintRegistries) (AssetData : FAssetData) :
      Reachable Registries → Reachable (OnAssetRemoved Registries AssetData).1
  | OnAssetRenamed (bIsLoadingAssets : Bool) (Registries : BlueprintRegistries)
      (AssetData : FAssetData) (OldObjectPath : String) :
      Reachable Registries →
        Reachable (OnAssetRenamed bIsLoadingAssets Registries AssetData OldObjectPath).1

end Flow

/-! ## Concrete units and behaviours -/

namespace Flow

open EFlowAddOnAcceptResult

/-- Modelled from the spec: the body of `UFlowNode::IsSupportedInputPinName`, which is in
`FlowNode.cpp` and missing from the sources. Section 4.1: a unit that declares no input pin
supports every name; otherwise a name is supported iff an input pin of that exact name is
declared. -/
def UFlowNode_IsSupportedInputPinName_Spec (this : UFlowNodeBase) (PinName : FName) : Bool :=
  if this.InputPins.isEmpty then true else (FindFlowPinByName PinName this.InputPins).isSome

/-- The classes as the plugin ships them: both acceptance hooks keep their default
`_Implementation`, nodes filter pins as section 4.1 says. -/
def DefaultBehaviour : FlowClassBehaviour where
  AcceptFlowNodeAddOnChild := AcceptFlowNodeAddOnChild_Implementation
  AcceptFlowNodeAddOnParent := AcceptFlowNodeAddOnParent_Implementation
  UFlowNode_IsSupportedInputPinName := UFlowNode_IsSupportedInputPinName_Spec

/-- A project in which flow nodes opt in to every add-on child (their override of
`AcceptFlowNodeAddOnChild` answers `TentativeAccept`), while add-ons keep both defaults. -/
def NodesOptInBehaviour : FlowClassBehaviour where
  AcceptFlowNodeAddOnChild := fun this _ => if this.IsFlowNode then TentativeAccept else Undetermined
  AcceptFlowNodeAddOnParent := AcceptFlowNodeAddOnParent_Implementation
  UFlowNode_IsSupportedInputPinName := UFlowNode_IsSupportedInputPinName_Spec

/-- A project in which only the node class `FlowNode_M` overrides `AcceptFlowNodeAddOnChild`,
to opt in to every add-on; every other class keeps the defaults. -/
def ClassMOptsInBehaviour : FlowClassBehaviour where
  AcceptFlowNodeAddOnChild := fun this _ =>
    if this.Class = "FlowNode_M" then TentativeAccept else Undetermined
  AcceptFlowNodeAddOnParent := AcceptFlowNodeAddOnParent_Implementation
  UFlowNode_IsSupportedInputPinName := UFlowNode_IsSupportedInputPinName_Spec

/-- A project in which every parent opts in to every add-on, except that the node class
`FlowNode_N` rejects them. -/
def ClassNRejectsBehaviour : FlowClassBehaviour where
  AcceptFlowNodeAddOnChild := fun this _ =>
    if this.Class = "FlowNode_N" then Reject else TentativeAccept
  AcceptFlowNodeAddOnParent := AcceptFlowNodeAddOnParent_Implementation
  UFlowNode_IsSupportedInputPinName := UFlowNode_IsSupportedInputPinName_Spec

/-- An add-on that declares the input pin `Foo`. -/
def AddOnFoo : UFlowNodeBase :=
  .mk { Class := "FlowNodeAddOn_Foo", IsFlowNode := false, InputPins := [⟨"Foo"⟩] } []

/-- An add-on that declares no pin. -/
def AddOnPlain : UFlowNodeBase :=
  .mk { Class := "FlowNodeAddOn_Plain", IsFlowNode := false } []

/-- An add-on object that has been marked as garbage. -/
def AddOnGarbage : UFlowNodeBase :=
  .mk { Class := "FlowNodeAddOn_Plain", IsFlowNode := false, Valid := false } []

/-- A flow node with the input `In`, the output `Out` and no add-on. -/
def NodeM : UFlowNodeBase :=
  .mk { Class := "FlowNode_M", IsFlowNode := true, InputPins := [⟨"In"⟩],
        OutputPins := [⟨"Out"⟩] } []

/-- An add-on that declares the inputs `A` and `B`. -/
def AddOnAB : UFlowNodeBase :=
  .mk { Class := "FlowNodeAddOn_AB", IsFlowNode := false, InputPins := [⟨"A"⟩, ⟨"B"⟩] } []

/-- An add-on that declares the input `X` and the output `Y` and carries the add-on `AddOnFoo`
itself. -/
def AddOnOuter : UFlowNodeBase :=
  .mk { Class := "FlowNodeAddOn_Outer", IsFlowNode := false, InputPins := [⟨"X"⟩],
        OutputPins := [⟨"Y"⟩] } [some AddOnFoo]

/-- The add-on `AddOnFoo` once initialized below a flow node that starts the call. -/
def AddOnFooAnchored : UFlowNodeBase :=
  .mk { Class := "FlowNodeAddOn_Foo", IsFlowNode := false, InputPins := [⟨"Foo"⟩],
        FlowNode := some (.Unit []) } []

/-- The add-on `AddOnOuter` once initialized below a flow node that starts the call. -/
def AddOnOuterAnchored : UFlowNodeBase :=
  .mk { Class := "FlowNodeAddOn_Outer", IsFlowNode := false, InputPins := [⟨"X"⟩],
        OutputPins := [⟨"Y"⟩], FlowNode := some (.Unit []) } [some AddOnFooAnchored]

/-- A flow node with two add-ons, the first of which has an add-on of its own. -/
def NodeTwo : UFlowNodeBase :=
  .mk { Class := "FlowNode_Two", IsFlowNode := true, InputPins := [⟨"In"⟩],
        OutputPins := [⟨"Out"⟩] } [some AddOnOuter, some AddOnPlain]

/-- A flow node whose two add-ons both declare the input `A`. -/
def NodeShared : UFlowNodeBase :=
  .mk { Class := "FlowNode_Shared", IsFlowNode := true } [some AddOnAB, some AddOnAB]

/-- The ownership chain of a flow node: the flow asset that holds it. -/
def AssetOuters : List OuterObject :=
  [{ Ref := .External 0, IsFlowNode := false, Valid := true }]

/-- The ownership chain of an add-on instance that the flow node starting the call created:
that node, then the flow asset. -/
def NodeOuters : List OuterObject :=
  { Ref := .Unit [], IsFlowNode := true, Valid := true } :: AssetOuters

/-- A class of actors that implements `IFlowOwnerInterface`. -/
def OwnerActorClass : UClass :=
  { Name := "OwnerActor", SuperClasses := ["Actor", "Object"],
    ImplementsFlowOwnerInterface := true }

/-- The class of flow components, which does not derive from `OwnerActorClass`. -/
def FlowComponentClass : UClass :=
  { Name := "FlowComponent", SuperClasses := ["ActorComponent", "Object"] }

/-- An actor of class `OwnerActorClass`. -/
def OwnerActor : AActor := { Name := "OwnerActor_0", Class := OwnerActorClass }

/-- A flow component attached to `OwnerActor`. -/
def FlowComponent : UOwnerObject :=
  { Name := "FlowComponent_0", Class := FlowComponentClass, ComponentOwner := some (some OwnerActor) }

/-- The actor `OwnerActor` as the root owner of a flow. -/
def OwnerActorObject : UOwnerObject := { Name := "OwnerActor_0", Class := OwnerActorClass }

/-- The class `UObject`, above every class. -/
def ObjectClass : UClass := { Name := "Object" }

/-- A class of components that implements `IFlowOwnerInterface`. -/
def OwnerComponentClass : UClass :=
  { Name := "OwnerComponent", SuperClasses := ["ActorComponent", "Object"],
    ImplementsFlowOwnerInterface := true }

/-- A component of class `OwnerComponentClass` attached to `OwnerActor`. -/
def OwnerComponent : UOwnerObject :=
  { Name := "OwnerComponent_0", Class := OwnerComponentClass,
    ComponentOwner := some (some OwnerActor) }

/-- A flow asset that expects an `OwnerActorClass` owner and is owned by `OwnerActor`. -/
def AssetOwnedByActor : UFlowAsset :=
  { ExpectedOwnerClass := some OwnerActorClass, Owner := some OwnerActorObject }

/-- A flow asset that expects an `OwnerActorClass` owner and is owned by a flow component of
`OwnerActor`. -/
def AssetOwnedByComponent : UFlowAsset :=
  { ExpectedOwnerClass := some OwnerActorClass, Owner := some FlowComponent }

/-- A flow asset that expects any object as owner and is owned by `OwnerComponent`: the
component and its actor both match. -/
def AssetBothMatch : UFlowAsset :=
  { ExpectedOwnerClass := some ObjectClass, Owner := some OwnerComponent }

/-- A flow asset that expects an `OwnerActorClass` owner and is owned by a component of some
other class without an owning actor. -/
def AssetNoMatch : UFlowAsset :=
  { ExpectedOwnerClass := some OwnerActorClass,
    Owner := some { Name := "FlowComponent_1", Class := FlowComponentClass,
                    ComponentOwner := some none } }

/-- The node of scenario C: it declares the input `In` only and carries the add-on `AddOnFoo`. -/
def NodeN : UFlowNodeBase :=
  .mk { Class := "FlowNode_N", IsFlowNode := true, InputPins := [⟨"In"⟩],
        OutputPins := [⟨"Out"⟩] } [some AddOnFoo]

/-- A pairing of inputs with outputs by position: the input and the output stand at the same
place of the two pin lists of the node. -/
def PairedByPosition (this : UFlowNodeBase) (InputName OutputName : FName) : Bool :=
  (this.InputPins.zip this.OutputPins).contains (⟨InputName⟩, ⟨OutputName⟩)

/-- The node of scenario B: the input `In` paired with the output `Out`, the signal mode
`PassThrough`, and the add-on `AddOnFoo`. -/
def NodePassThrough : UFlowNodeBase :=
  .mk { Class := "FlowNode_N", IsFlowNode := true, InputPins := [⟨"In"⟩],
        OutputPins := [⟨"Out"⟩], SignalMode := .PassThrough } [some AddOnFoo]

/-- A node like `NodePassThrough` whose signal mode is `Disabled`. -/
def NodeDisabled : UFlowNodeBase :=
  .mk { Class := "FlowNode_N", IsFlowNode := true, InputPins := [⟨"In"⟩],
        OutputPins := [⟨"Out"⟩], SignalMode := .Disabled } [some AddOnFoo]

/-- Two flow graph nodes of a graph. -/
def GraphNodeOne : UEdGraphNode := { Name := "FlowGraphNode_1", Class := "FlowGraphNode" }

/-- The second of two flow graph nodes of a graph. -/
def GraphNodeTwo : UEdGraphNode := { Name := "FlowGraphNode_2", Class := "FlowGraphNode" }

/-- An output pin of `GraphNodeOne` that is linked to the pin 7 already. -/
def PinOutLinked : UEdGraphPin :=
  { PinId := 1, OwningNode := some GraphNodeOne, Direction := .EGPD_Output, LinkedTo := [7] }

/-- An input pin of `GraphNodeTwo` that is linked to the pins 8 and 9 already. -/
def PinInLinked : UEdGraphPin :=
  { PinId := 2, OwningNode := some GraphNodeTwo, Direction := .EGPD_Input, LinkedTo := [8, 9] }

/-- A class generated from a blueprint that derives from `UFlowNode`. -/
def NodeGeneratedClass : UClass :=
  { Name := "BP_Node_C", SuperClasses := ["FlowNode", "FlowNodeBase", "Object"] }

/-- A class generated from a blueprint that derives from `UFlowNodeAddOn`. -/
def AddOnGeneratedClass : UClass :=
  { Name := "BP_AddOn_C", SuperClasses := ["FlowNodeAddOn", "FlowNodeBase", "Object"] }

/-- A blueprint asset whose generated class derives from `UFlowNode`. -/
def NodeBlueprintAsset : FAssetData :=
  { PackageName := "/Game/Flow/BP_Node", Class := UFlowNodeBlueprint_StaticClass,
    Asset := some { GeneratedClass := some NodeGeneratedClass } }

/-- A blueprint asset whose generated class derives from `UFlowNodeAddOn`. -/
def AddOnBlueprintAsset : FAssetData :=
  { PackageName := "/Game/Flow/BP_AddOn", Class := UFlowNodeAddOnBlueprint_StaticClass,
    Asset := some { GeneratedClass := some AddOnGeneratedClass } }

/-- An asset that claims the package name of `NodeBlueprintAsset` for an add-on blueprint. -/
def AddOnBlueprintSamePackage : FAssetData :=
  { AddOnBlueprintAsset with PackageName := "/Game/Flow/BP_Node" }

/-- The registries after the node blueprint, then the add-on blueprint were gathered, and the
asset that claims the package name of the first was reported as added. -/
def RegistriesAfterGather : BlueprintRegistries :=
  (OnAssetAdded false
    (AddAsset false (AddAsset false {} NodeBlueprintAsset true).1 AddOnBlueprintAsset true).1
    AddOnBlueprintSamePackage).1

/-- An add-on object that has been marked as garbage although it still carries `AddOnFoo`. -/
def AddOnGarbageWithChild : UFlowNodeBase :=
  .mk { Class := "FlowNodeAddOn_Outer", IsFlowNode := false, Valid := false } [some AddOnFoo]

/-- A flow node whose add-on array holds a live add-on with an add-on of its own, a null
pointer, a garbage add-on that has an add-on, and a live add-on. -/
def NodeWithGaps : UFlowNodeBase :=
  .mk { Class := "FlowNode_Gaps", IsFlowNode := true }
    [some AddOnOuter, none, some AddOnGarbageWithChild, some AddOnPlain]

/-- The class of `AddOnFoo`. -/
def AddOnFooClass : UClass := { Name := "FlowNodeAddOn_Foo" }

/-- A registry of graph node classes: one for flow nodes at large, one for sub graph nodes and
one for add-ons. -/
def SampleGraphNodesByFlowNodes : List (FName × Option FName) :=
  [("FlowNode", some "FlowGraphNode_Default"),
   ("FlowNode_SubGraph", some "FlowGraphNode_SubGraph"),
   ("FlowNodeAddOn", some "FlowGraphNode_AddOn")]

/-- A node class two steps below `UFlowNode`, derived from the sub graph node. -/
def MySubGraphClass : UClass :=
  { Name := "FlowNode_MySubGraph",
    SuperClasses := ["FlowNode_SubGraph", "FlowNode", "FlowNodeBase", "Object"] }

/-- An add-on of a class derived from `UFlowNodeAddOn` whose graph node is of the class that
the sample registry assigns to add-ons. -/
def AddOnWithGraphNode : UFlowNodeBase :=
  .mk { Class := "FlowNodeAddOn_Shown", IsFlowNode := false,
        SuperClasses := ["FlowNodeAddOn", "FlowNodeBase", "Object"],
        GraphNode := some { Name := "FlowGraphNode_AddOn_0", Class := "FlowGraphNode_AddOn" } }
    []

/-- A flow node whose add-on array holds `AddOnOuter` (which carries `AddOnFoo`), a null
pointer, and `AddOnWithGraphNode`. -/
def NodeWithNullAddOn : UFlowNodeBase :=
  .mk { Class := "FlowNode_N", IsFlowNode := true }
    [some AddOnOuter, none, some AddOnWithGraphNode]

end Flow

/-! ## Theorems -/

namespace Flow

open EFlowAddOnAcceptResult

/-! ### Helper lemmas on the combination of results -/

theorem combine_undetermined_right (r : EFlowAddOnAcceptResult) :
    CombineFlowAddOnAcceptResult r Undetermined = r := by
  cases r <;> rfl

theorem combine_eq_tentativeAccept_iff (r acc : EFlowAddOnAcceptResult) :
    CombineFlowAddOnAcceptResult r acc = TentativeAccept ↔
      (r = TentativeAccept ∨ r = Undetermined) ∧ (acc = TentativeAccept ∨ acc = Undetermined) ∧
        (r = TentativeAccept ∨ acc = TentativeAccept) := by
  cases r <;> cases acc <;> decide

theorem combine_eq_undetermined_iff (r acc : EFlowAddOnAcceptResult) :
    CombineFlowAddOnAcceptResult r acc = Undetermined ↔ r = Undetermined ∧ acc = Undetermined := by
  cases r <;> cases acc <;> decide

/-- The verdict of `CheckAcceptFlowNodeAddOnChild` for a live template, in closed form. -/
theorem check_verdict_of_valid (B : FlowClassBehaviour) (this Template : UFlowNodeBase)
    (hValid : Template.Valid = true) :
    (CheckAcceptFlowNodeAddOnChild B this (some Template)).1 =
      if B.AcceptFlowNodeAddOnChild this Template = Reject then Reject
      else if B.AcceptFlowNodeAddOnParent Template this ≠ Reject ∧ Template.IsFlowNode = true then
        Reject
      else
        CombineFlowAddOnAcceptResult (B.AcceptFlowNodeAddOnParent Template this)
          (B.AcceptFlowNodeAddOnChild this Template) := by
  simp only [CheckAcceptFlowNodeAddOnChild, hValid, combine_undetermined_right]
  split_ifs <;> simp_all

/-- The loop of `IsAddOnAllowedForSelectedObjects` over a selection of live graph nodes with
live node instances, in closed form. -/
theorem loop_selectionOfParents (B : FlowClassBehaviour) (AddOnTemplate : Option UFlowNodeBase)
    (Parents : List UFlowNodeBase) (hValid : ∀ P ∈ Parents, P.Valid = true)
    (acc : EFlowAddOnAcceptResult) :
    IsAddOnAllowedLoop B AddOnTemplate (SelectionOfParents Parents) acc = true ↔
      (acc = TentativeAccept ∨ acc = Undetermined) ∧
      (∀ P ∈ Parents,
        (CheckAcceptFlowNodeAddOnChild B P AddOnTemplate).1 = TentativeAccept ∨
        (CheckAcceptFlowNodeAddOnChild B P AddOnTemplate).1 = Undetermined) ∧
      (acc = TentativeAccept ∨
        ∃ P ∈ Parents, (CheckAcceptFlowNodeAddOnChild B P AddOnTemplate).1 = TentativeAccept) := by
  induction Parents generalizing acc with
  | nil =>
    cases acc <;> simp [SelectionOfParents, IsAddOnAllowedLoop]
  | cons P Rest ih =>
    have hP : P.Valid = true := hValid P (List.mem_cons_self _ _)
    have hRest : ∀ Q ∈ Rest, Q.Valid = true := fun Q hQ => hValid Q (List.mem_cons_of_mem _ hQ)
    have ih := fun a => ih hRest a
    have step : IsAddOnAllowedLoop B AddOnTemplate (SelectionOfParents (P :: Rest)) acc =
        if CombineFlowAddOnAcceptResult (CheckAcceptFlowNodeAddOnChild B P AddOnTemplate).1 acc
            = Reject then false
        else IsAddOnAllowedLoop B AddOnTemplate (SelectionOfParents Rest)
          (CombineFlowAddOnAcceptResult (CheckAcceptFlowNodeAddOnChild B P AddOnTemplate).1 acc) := by
      simp [SelectionOfParents, IsAddOnAllowedLoop, Cast_UFlowGraphNode, hP]
    rw [step, List.forall_mem_cons]
    simp only [List.exists_mem_cons_iff]
    generalize (CheckAcceptFlowNodeAddOnChild B P AddOnTemplate).1 = v
    cases v <;> cases acc <;>
      simp [CombineFlowAddOnAcceptResult, toUnderlying, ofUnderlying, FMath_Max, ih]

/-! ### Acceptance protocol -/

/-- C2: for every parent and every live template that is not a `UFlowNode`, whatever the parent
side answers and whatever the add-on side answers among `Undetermined`, `TentativeAccept` and
`Reject`, the verdict is the combination of the parent-side answer and the add-on-side answer:
it is one of the two and no lower than either in the order of the underlying values
(`Undetermined < TentativeAccept < Reject`). -/
theorem C2_verdict_is_highest_answer (B : FlowClassBehaviour) (this Template : UFlowNodeBase)
    (hValid : Template.Valid = true) (hAddOn : Template.IsFlowNode = false)
    (hParent : IsAnswer (B.AcceptFlowNodeAddOnParent Template this) = true) :
    ∃ Verdict, (CheckAcceptFlowNodeAddOnChild B this (some Template)).1 = Verdict ∧
      Verdict = CombineFlowAddOnAcceptResult (B.AcceptFlowNodeAddOnChild this Template)
        (B.AcceptFlowNodeAddOnParent Template this) ∧
      (Verdict = B.AcceptFlowNodeAddOnChild this Template ∨
        Verdict = B.AcceptFlowNodeAddOnParent Template this) ∧
      (B.AcceptFlowNodeAddOnChild this Template).toUnderlying ≤ Verdict.toUnderlying ∧
      (B.AcceptFlowNodeAddOnParent Template this).toUnderlying ≤ Verdict.toUnderlying := by
  refine ⟨_, rfl, ?_⟩
  rw [check_verdict_of_valid B this Template hValid, hAddOn]
  generalize B.AcceptFlowNodeAddOnChild this Template = a
  generalize B.AcceptFlowNodeAddOnParent Template this = b at hParent ⊢
  cases a <;> cases b <;> simp_all [IsAnswer] <;> decide

/-- Witness of C2: the add-on `AddOnFoo` offered to `NodeN`, nodes opting in. -/
theorem C2_verdict_is_highest_answer_witness :
    ∃ Verdict, (CheckAcceptFlowNodeAddOnChild NodesOptInBehaviour NodeN (some AddOnFoo)).1 = Verdict ∧
      Verdict = CombineFlowAddOnAcceptResult TentativeAccept Undetermined ∧
      (Verdict = TentativeAccept ∨ Verdict = Undetermined) ∧
      TentativeAccept.toUnderlying ≤ Verdict.toUnderlying ∧
      Undetermined.toUnderlying ≤ Verdict.toUnderlying :=
  C2_verdict_is_highest_answer NodesOptInBehaviour NodeN AddOnFoo rfl rfl rfl

/-- C3: for a selection of exactly one live graph node with a live node instance and a live
template, `IsAddOnAllowedForSelectedObjects` is true iff the verdict of
`CheckAcceptFlowNodeAddOnChild` is `TentativeAccept`; with both answers among the three results
that is iff one side answered `TentativeAccept`, neither answered `Reject` and the template is
not a `UFlowNode`; and if both sides answer `Undetermined` the add-on is not allowed. -/
theorem C3_single_parent_allowed_iff (B : FlowClassBehaviour) (Parent Template : UFlowNodeBase)
    (hParentValid : Parent.Valid = true) (hValid : Template.Valid = true) :
    (IsAddOnAllowedForSelectedObjects B
        [some (.GraphNode { Valid := true, NodeInstance := some Parent })] (some Template) = true ↔
      (CheckAcceptFlowNodeAddOnChild B Parent (some Template)).1 = TentativeAccept) ∧
    (IsAnswer (B.AcceptFlowNodeAddOnChild Parent Template) = true →
      IsAnswer (B.AcceptFlowNodeAddOnParent Template Parent) = true →
      (IsAddOnAllowedForSelectedObjects B
          [some (.GraphNode { Valid := true, NodeInstance := some Parent })] (some Template) = true ↔
        (B.AcceptFlowNodeAddOnChild Parent Template = TentativeAccept ∨
            B.AcceptFlowNodeAddOnParent Template Parent = TentativeAccept) ∧
          B.AcceptFlowNodeAddOnChild Parent Template ≠ Reject ∧
          B.AcceptFlowNodeAddOnParent Template Parent ≠ Reject ∧
          Template.IsFlowNode = false)) ∧
    (B.AcceptFlowNodeAddOnChild Parent Template = Undetermined →
      B.AcceptFlowNodeAddOnParent Template Parent = Undetermined →
      IsAddOnAllowedForSelectedObjects B
        [some (.GraphNode { Valid := true, NodeInstance := some Parent })] (some Template) = false) := by
  have hSel : [some (UObject.GraphNode { Valid := true, NodeInstance := some Parent })] =
      SelectionOfParents [Parent] := rfl
  have hOne : IsAddOnAllowedForSelectedObjects B
        [some (.GraphNode { Valid := true, NodeInstance := some Parent })] (some Template) = true ↔
      (CheckAcceptFlowNodeAddOnChild B Parent (some Template)).1 = TentativeAccept := by
    rw [hSel, IsAddOnAllowedForSelectedObjects,
      loop_selectionOfParents B _ [Parent] (by simpa using hParentValid)]
    constructor
    · rintro ⟨-, -, h⟩
      rcases h with h | ⟨P, hP, h⟩
      · exact absurd h (by decide)
      · rw [List.mem_singleton] at hP
        subst hP
        exact h
    · intro h
      refine ⟨Or.inr rfl, fun P hP => ?_, Or.inr ⟨Parent, List.mem_singleton.2 rfl, h⟩⟩
      rw [List.mem_singleton] at hP
      subst hP
      exact Or.inl h
  refine ⟨hOne, ?_, ?_⟩
  · intro hChild hAnswer
    rw [hOne, check_verdict_of_valid B Parent Template hValid]
    generalize B.AcceptFlowNodeAddOnChild Parent Template = a at hChild ⊢
    generalize B.AcceptFlowNodeAddOnParent Template Parent = b at hAnswer ⊢
    cases hN : Template.IsFlowNode <;> cases a <;> cases b <;> simp_all [IsAnswer] <;> decide
  · intro hChild hAnswer
    rw [← Bool.not_eq_true, hOne, check_verdict_of_valid B Parent Template hValid, hChild, hAnswer]
    cases hN : Template.IsFlowNode
    · simp only [Bool.false_eq_true, and_false, if_false]
      decide
    · simp

/-- Witness of C3: `AddOnFoo` offered to the single selected `NodeN`, nobody opting in. -/
theorem C3_single_parent_allowed_iff_witness :
    IsAddOnAllowedForSelectedObjects DefaultBehaviour
      [some (.GraphNode { Valid := true, NodeInstance := some NodeN })] (some AddOnFoo) = false :=
  (C3_single_parent_allowed_iff DefaultBehaviour NodeN AddOnFoo rfl rfl).2.2 rfl rfl

/-- C4, as stated, fails: with the nodes `NodeM` (whose class opts in) and `NodeN` (whose class
does not) selected together, `NodeN` resolves to `Undetermined` and the add-on is allowed all
the same. -/
theorem C4_counterexample :
    IsAddOnAllowedForSelectedObjects ClassMOptsInBehaviour (SelectionOfParents [NodeM, NodeN])
        (some AddOnFoo) = true ∧
      (CheckAcceptFlowNodeAddOnChild ClassMOptsInBehaviour NodeN (some AddOnFoo)).1 = Undetermined ∧
      ¬ (IsAddOnAllowedForSelectedObjects ClassMOptsInBehaviour (SelectionOfParents [NodeM, NodeN])
          (some AddOnFoo) = true →
        ∀ P ∈ [NodeM, NodeN],
          (CheckAcceptFlowNodeAddOnChild ClassMOptsInBehaviour P (some AddOnFoo)).1 =
            TentativeAccept) := by
  refine ⟨by decide, by decide, fun h => ?_⟩
  have hN := h (by decide) NodeN (by simp)
  exact absurd hN (by decide)

/-- C4, amended: for a selection of live graph nodes with live node instances,
`IsAddOnAllowedForSelectedObjects` is true iff every selected parent resolves to
`TentativeAccept` or `Undetermined` and at least one of them resolves to `TentativeAccept`. -/
theorem C4_selection_allowed_iff (B : FlowClassBehaviour) (Parents : List UFlowNodeBase)
    (AddOnTemplate : Option UFlowNodeBase) (hValid : ∀ P ∈ Parents, P.Valid = true) :
    IsAddOnAllowedForSelectedObjects B (SelectionOfParents Parents) AddOnTemplate = true ↔
      (∀ P ∈ Parents,
        (CheckAcceptFlowNodeAddOnChild B P AddOnTemplate).1 = TentativeAccept ∨
        (CheckAcceptFlowNodeAddOnChild B P AddOnTemplate).1 = Undetermined) ∧
      (∃ P ∈ Parents, (CheckAcceptFlowNodeAddOnChild B P AddOnTemplate).1 = TentativeAccept) := by
  rw [IsAddOnAllowedForSelectedObjects, loop_selectionOfParents B AddOnTemplate Parents hValid]
  constructor
  · rintro ⟨-, hAll, hSome⟩
    exact ⟨hAll, hSome.resolve_left (by decide)⟩
  · rintro ⟨hAll, hSome⟩
    exact ⟨Or.inr rfl, hAll, Or.inr hSome⟩

/-- Witness of the amended C4: `NodeN` (which does not opt in) and `NodeM` (which does)
selected together. -/
theorem C4_selection_allowed_iff_witness :
    (∀ P ∈ [NodeN, NodeM], P.Valid = true) ∧
    (IsAddOnAllowedForSelectedObjects ClassMOptsInBehaviour (SelectionOfParents [NodeN, NodeM])
        (some AddOnPlain) = true ↔
      (∀ P ∈ [NodeN, NodeM],
        (CheckAcceptFlowNodeAddOnChild ClassMOptsInBehaviour P (some AddOnPlain)).1 =
          TentativeAccept ∨
        (CheckAcceptFlowNodeAddOnChild ClassMOptsInBehaviour P (some AddOnPlain)).1 =
          Undetermined) ∧
      (∃ P ∈ [NodeN, NodeM],
        (CheckAcceptFlowNodeAddOnChild ClassMOptsInBehaviour P (some AddOnPlain)).1 =
          TentativeAccept)) :=
  ⟨by decide,
    C4_selection_allowed_iff ClassMOptsInBehaviour [NodeN, NodeM] (some AddOnPlain) (by decide)⟩

/-- C5: for a selection of live graph nodes with live node instances, if some selected parent
resolves to `Reject`, wherever it sits and whatever the others resolve to,
`IsAddOnAllowedForSelectedObjects` is false. -/
theorem C5_one_reject_vetoes_selection (B : FlowClassBehaviour) (Parents : List UFlowNodeBase)
    (AddOnTemplate : Option UFlowNodeBase) (hValid : ∀ P ∈ Parents, P.Valid = true)
    (hReject : ∃ P ∈ Parents, (CheckAcceptFlowNodeAddOnChild B P AddOnTemplate).1 = Reject) :
    IsAddOnAllowedForSelectedObjects B (SelectionOfParents Parents) AddOnTemplate = false := by
  rw [← Bool.not_eq_true, IsAddOnAllowedForSelectedObjects,
    loop_selectionOfParents B AddOnTemplate Parents hValid]
  rintro ⟨-, hAll, -⟩
  obtain ⟨P, hP, hR⟩ := hReject
  rcases hAll P hP with h | h <;> rw [hR] at h <;> exact absurd h (by decide)

/-- Witness of C5: `NodeM` accepts and `NodeN`, selected after it, rejects. -/
theorem C5_one_reject_vetoes_selection_witness :
    (CheckAcceptFlowNodeAddOnChild ClassNRejectsBehaviour NodeM (some AddOnFoo)).1 =
        TentativeAccept ∧
      (CheckAcceptFlowNodeAddOnChild ClassNRejectsBehaviour NodeN (some AddOnFoo)).1 = Reject ∧
      IsAddOnAllowedForSelectedObjects ClassNRejectsBehaviour (SelectionOfParents [NodeM, NodeN])
        (some AddOnFoo) = false :=
  ⟨by decide, by decide,
    C5_one_reject_vetoes_selection ClassNRejectsBehaviour [NodeM, NodeN] (some AddOnFoo)
      (by decide) ⟨NodeN, by simp, by decide⟩⟩

/-- C6: for every parent, `CheckAcceptFlowNodeAddOnChild` called with a null pointer or with
a template that is not valid returns `Reject` and consults neither acceptance hook: no event
happens at all. -/
theorem C6_invalid_template_is_rejected (B : FlowClassBehaviour) (this : UFlowNodeBase)
    (AddOnTemplate : Option UFlowNodeBase) (hInvalid : IsValid AddOnTemplate = false) :
    CheckAcceptFlowNodeAddOnChild B this AddOnTemplate = (Reject, []) ∧
      AcceptEvent.AskedParent ∉ (CheckAcceptFlowNodeAddOnChild B this AddOnTemplate).2 ∧
      AcceptEvent.AskedAddOn ∉ (CheckAcceptFlowNodeAddOnChild B this AddOnTemplate).2 := by
  have h : CheckAcceptFlowNodeAddOnChild B this AddOnTemplate = (Reject, []) := by
    cases AddOnTemplate with
    | none => rfl
    | some Template =>
      have hT : Template.Valid = false := hInvalid
      simp [CheckAcceptFlowNodeAddOnChild, hT]
  rw [h]
  exact ⟨rfl, by simp, by simp⟩

/-- Witness of C6: a garbage add-on object offered to `NodeN`, every parent opting in. -/
theorem C6_invalid_template_is_rejected_witness :
    IsValid (some AddOnGarbage) = false ∧
      CheckAcceptFlowNodeAddOnChild NodesOptInBehaviour NodeN (some AddOnGarbage) = (Reject, []) :=
  ⟨rfl, (C6_invalid_template_is_rejected NodesOptInBehaviour NodeN (some AddOnGarbage) rfl).1⟩

/-- C7: for results `r1`, `r2` among `Undetermined`, `TentativeAccept`, `Reject`, the combination
is commutative, and it is `Reject` as soon as one of the two is `Reject`. -/
theorem C7_combine_comm_reject_dominant (r1 r2 : EFlowAddOnAcceptResult)
    (h1 : IsAnswer r1 = true) (h2 : IsAnswer r2 = true) :
    CombineFlowAddOnAcceptResult r1 r2 = CombineFlowAddOnAcceptResult r2 r1 ∧
      (r1 = Reject ∨ r2 = Reject → CombineFlowAddOnAcceptResult r1 r2 = Reject) := by
  cases r1 <;> cases r2 <;> simp_all [IsAnswer] <;> decide

/-- Witness of C7 at `TentativeAccept` and `Reject`. -/
theorem C7_combine_comm_reject_dominant_witness :
    CombineFlowAddOnAcceptResult TentativeAccept Reject =
        CombineFlowAddOnAcceptResult Reject TentativeAccept ∧
      (TentativeAccept = Reject ∨ Reject = Reject →
        CombineFlowAddOnAcceptResult TentativeAccept Reject = Reject) :=
  C7_combine_comm_reject_dominant TentativeAccept Reject rfl rfl

/-- C8: for all results `r1`, `r2` the combination is one of the two and is no lower than either
in the order of the underlying values, in which `Undetermined < TentativeAccept < Reject`. -/
theorem C8_combine_is_greater_argument (r1 r2 : EFlowAddOnAcceptResult) :
    (CombineFlowAddOnAcceptResult r1 r2 = r1 ∨ CombineFlowAddOnAcceptResult r1 r2 = r2) ∧
      r1.toUnderlying ≤ (CombineFlowAddOnAcceptResult r1 r2).toUnderlying ∧
      r2.toUnderlying ≤ (CombineFlowAddOnAcceptResult r1 r2).toUnderlying ∧
      Undetermined.toUnderlying < TentativeAccept.toUnderlying ∧
      TentativeAccept.toUnderlying < Reject.toUnderlying := by
  cases r1 <;> cases r2 <;> decide

/-! ### Input dispatch -/

theorem executeInput_unfold (B : FlowClassBehaviour) (Path : ObjectPath) (this : UFlowNodeBase)
    (PinName : FName) :
    ExecuteInput B Path this PinName =
      (ExecuteInputAddOns B Path 0 this.AddOns PinName).map fun Forwarded =>
        ExecEvent.ExecuteInput Path PinName ::
          ((if IsSupportedInputPinName B this PinName then
              [ExecEvent.OwnExecuteInput Path PinName] else []) ++ Forwarded) := by
  cases this with
  | mk p a =>
    rw [ExecuteInput]
    simp only [UFlowNodeBase.AddOns]
    cases ExecuteInputAddOns B Path 0 a PinName <;> rfl

mutual
/-- The add-on part of a call of `ExecuteInput` on a unit without null add-ons exists and
happens strictly below the unit. -/
theorem executeInput_forwarded (B : FlowClassBehaviour) (PinName : FName) :
    ∀ (Path : ObjectPath) (this : UFlowNodeBase), NoNullAddOn this = true →
      ∃ Forwarded, ExecuteInputAddOns B Path 0 this.AddOns PinName = some Forwarded ∧
        (∀ e ∈ Forwarded, Path.length < e.Unit.length) ∧
        Forwarded.filter (ExecEvent.IsCallAtDepth (Path.length + 1)) =
          (this.AddOns.enumFrom 0).map (fun x => ExecEvent.ExecuteInput (Path ++ [x.1]) PinName) ∧
        Forwarded.filter (ExecEvent.IsOwnAtDepth (Path.length + 1)) =
          ((this.AddOns.enumFrom 0).filter (fun x => AddOnSupports B PinName x.2)).map
            (fun x => ExecEvent.OwnExecuteInput (Path ++ [x.1]) PinName)
  | Path, .mk _ a, h => by
    rw [NoNullAddOn] at h
    exact executeInputAddOns_forwarded B PinName Path 0 a h
/-- The loop over the add-ons from entry `Index` on: it ends, everything happens strictly below
the unit, every entry receives the call once, in order, and runs its own handler iff its own
filter accepts the pin. -/
theorem executeInputAddOns_forwarded (B : FlowClassBehaviour) (PinName : FName) :
    ∀ (Path : ObjectPath) (Index : Nat) (AddOns : List (Option UFlowNodeBase)),
      NoNullAddOnIn AddOns = true →
      ∃ T, ExecuteInputAddOns B Path Index AddOns PinName = some T ∧
        (∀ e ∈ T, Path.length < e.Unit.length) ∧
        T.filter (ExecEvent.IsCallAtDepth (Path.length + 1)) =
          (AddOns.enumFrom Index).map (fun x => ExecEvent.ExecuteInput (Path ++ [x.1]) PinName) ∧
        T.filter (ExecEvent.IsOwnAtDepth (Path.length + 1)) =
          ((AddOns.enumFrom Index).filter (fun x => AddOnSupports B PinName x.2)).map
            (fun x => ExecEvent.OwnExecuteInput (Path ++ [x.1]) PinName)
  | Path, Index, [], _ => ⟨[], by rw [ExecuteInputAddOns], by simp, rfl, rfl⟩
  | Path, Index, none :: _, h => by simp [NoNullAddOnIn] at h
  | Path, Index, some AddOn :: Rest, h => by
    rw [NoNullAddOnIn, Bool.and_eq_true] at h
    obtain ⟨F, hF, hFd, -, -⟩ := executeInput_forwarded B PinName (Path ++ [Index]) AddOn h.1
    obtain ⟨T, hT, hTd, hTc, hTo⟩ := executeInputAddOns_forwarded B PinName Path (Index + 1) Rest h.2
    have hLen : (Path ++ [Index]).length = Path.length + 1 := by simp
    rw [hLen] at hFd
    have hFc : F.filter (ExecEvent.IsCallAtDepth (Path.length + 1)) = [] := by
      rw [List.filter_eq_nil_iff]
      intro e he
      have := hFd e he
      cases e <;> simp_all [ExecEvent.IsCallAtDepth, ExecEvent.Unit]
      omega
    have hFo : F.filter (ExecEvent.IsOwnAtDepth (Path.length + 1)) = [] := by
      rw [List.filter_eq_nil_iff]
      intro e he
      have := hFd e he
      cases e <;> simp_all [ExecEvent.IsOwnAtDepth, ExecEvent.Unit]
      omega
    refine ⟨ExecEvent.ExecuteInput (Path ++ [Index]) PinName ::
        ((if IsSupportedInputPinName B AddOn PinName then
            [ExecEvent.OwnExecuteInput (Path ++ [Index]) PinName] else []) ++ F) ++ T, ?_, ?_, ?_, ?_⟩
    · rw [ExecuteInputAddOns, executeInput_unfold, hF, hT]
      rfl
    · intro e he
      simp only [List.cons_append, List.mem_cons, List.mem_append] at he
      rcases he with rfl | (he | he) | he
      · simp [ExecEvent.Unit]
      · split_ifs at he
        · rw [List.mem_singleton] at he
          subst he
          simp [ExecEvent.Unit]
        · simp at he
      · have := hFd e he
        omega
      · exact hTd e he
    · simp only [List.cons_append, List.filter_cons, List.filter_append, hFc, hTc,
        List.enumFrom_cons, List.map_cons]
      split_ifs <;> simp_all [ExecEvent.IsCallAtDepth]
    · simp only [List.cons_append, List.filter_cons, List.filter_append, hFo, hTo,
        List.enumFrom_cons, AddOnSupports]
      split_ifs <;> simp_all [ExecEvent.IsOwnAtDepth]
end

/-- C9: for every unit without null add-on pointers and every pin name, `ExecuteInput` ends;
the unit receives the call, runs its own input handler iff its `IsSupportedInputPinName`
accepts the pin, and everything after that happens in its add-ons, whether or not the unit's
own filter accepted: every add-on of the array receives `ExecuteInput` with the same pin
exactly once, in declaration order, and each add-on runs its own handler iff its own filter
accepts the pin. -/
theorem C9_execute_input_forwards_to_every_addon (B : FlowClassBehaviour) (Path : ObjectPath)
    (this : UFlowNodeBase) (PinName : FName) (hNoNull : NoNullAddOn this = true) :
    ∃ Trace Forwarded, ExecuteInput B Path this PinName = some Trace ∧
      Trace = ExecEvent.ExecuteInput Path PinName ::
        ((if IsSupportedInputPinName B this PinName then
            [ExecEvent.OwnExecuteInput Path PinName] else []) ++ Forwarded) ∧
      (ExecEvent.OwnExecuteInput Path PinName ∈ Trace ↔
        IsSupportedInputPinName B this PinName = true) ∧
      (∀ e ∈ Forwarded, Path.length < e.Unit.length) ∧
      Forwarded.filter (ExecEvent.IsCallAtDepth (Path.length + 1)) =
        this.AddOns.enum.map (fun x => ExecEvent.ExecuteInput (Path ++ [x.1]) PinName) ∧
      Forwarded.filter (ExecEvent.IsOwnAtDepth (Path.length + 1)) =
        (this.AddOns.enum.filter (fun x => AddOnSupports B PinName x.2)).map
          (fun x => ExecEvent.OwnExecuteInput (Path ++ [x.1]) PinName) := by
  obtain ⟨F, hF, hFd, hFc, hFo⟩ := executeInput_forwarded B PinName Path this hNoNull
  refine ⟨_, F, ?_, rfl, ?_, hFd, hFc, hFo⟩
  · rw [executeInput_unfold, hF]
    rfl
  · have hNotIn : ExecEvent.OwnExecuteInput Path PinName ∉ F := by
      intro hIn
      have := hFd _ hIn
      simp [ExecEvent.Unit] at this
    by_cases hS : IsSupportedInputPinName B this PinName = true
    · simp [hS]
    · simp [hS, hNotIn]

/-- Witness of C9, scenario C: `NodeN` does not support `Foo`, its add-on `AddOnFoo` declares
it; triggering `NodeN` with `Foo` runs the handler of the add-on and not the one of the node. -/
theorem C9_execute_input_forwards_to_every_addon_witness :
    NoNullAddOn NodeN = true ∧
    IsSupportedInputPinName DefaultBehaviour NodeN "Foo" = false ∧
    ExecuteInput DefaultBehaviour [] NodeN "Foo" =
      some [ExecEvent.ExecuteInput [] "Foo", ExecEvent.ExecuteInput [0] "Foo",
        ExecEvent.OwnExecuteInput [0] "Foo"] ∧
    ∃ Trace Forwarded, ExecuteInput DefaultBehaviour [] NodeN "Foo" = some Trace ∧
      Trace = ExecEvent.ExecuteInput [] "Foo" ::
        ((if IsSupportedInputPinName DefaultBehaviour NodeN "Foo" then
            [ExecEvent.OwnExecuteInput [] "Foo"] else []) ++ Forwarded) ∧
      (ExecEvent.OwnExecuteInput [] "Foo" ∈ Trace ↔
        IsSupportedInputPinName DefaultBehaviour NodeN "Foo" = true) ∧
      (∀ e ∈ Forwarded, ([] : ObjectPath).length < e.Unit.length) ∧
      Forwarded.filter (ExecEvent.IsCallAtDepth (([] : ObjectPath).length + 1)) =
        NodeN.AddOns.enum.map (fun x => ExecEvent.ExecuteInput ([] ++ [x.1]) "Foo") ∧
      Forwarded.filter (ExecEvent.IsOwnAtDepth (([] : ObjectPath).length + 1)) =
        (NodeN.AddOns.enum.filter (fun x => AddOnSupports DefaultBehaviour "Foo" x.2)).map
          (fun x => ExecEvent.OwnExecuteInput ([] ++ [x.1]) "Foo") :=
  ⟨rfl, by decide, by decide,
    C9_execute_input_forwards_to_every_addon DefaultBehaviour [] NodeN "Foo" rfl⟩

/-- C10: for every add-on whose declared input-pin list is empty, `IsSupportedInputPinName` is
true for every pin name. -/
theorem C10_empty_input_pins_support_every_name (B : FlowClassBehaviour) (AddOn : UFlowNodeBase)
    (PinName : FName) (hAddOn : AddOn.IsFlowNode = false) (hEmpty : AddOn.InputPins = []) :
    IsSupportedInputPinName B AddOn PinName = true ∧
      UFlowNodeAddOn_IsSupportedInputPinName AddOn PinName = true := by
  simp [IsSupportedInputPinName, UFlowNodeAddOn_IsSupportedInputPinName, hAddOn, hEmpty]

/-- Witness of C10: the add-on `AddOnPlain`, which declares no pin, asked about `Anything`. -/
theorem C10_empty_input_pins_support_every_name_witness :
    AddOnPlain.IsFlowNode = false ∧ AddOnPlain.InputPins = [] ∧
      IsSupportedInputPinName DefaultBehaviour AddOnPlain "Anything" = true :=
  ⟨rfl, rfl,
    (C10_empty_input_pins_support_every_name DefaultBehaviour AddOnPlain "Anything" rfl rfl).1⟩

/-- C11: for every add-on whose declared input-pin list is not empty and every pin name,
`IsSupportedInputPinName` is true iff some declared input pin has exactly that name. -/
theorem C11_declared_input_pins_filter_by_name (B : FlowClassBehaviour) (AddOn : UFlowNodeBase)
    (PinName : FName) (hAddOn : AddOn.IsFlowNode = false) (hNonEmpty : AddOn.InputPins ≠ []) :
    IsSupportedInputPinName B AddOn PinName = true ↔
      ∃ Pin ∈ AddOn.InputPins, Pin.PinName = PinName := by
  have hE : AddOn.InputPins.isEmpty = false := by
    cases h : AddOn.InputPins with
    | nil => exact absurd h hNonEmpty
    | cons _ _ => rfl
  simp only [IsSupportedInputPinName, hAddOn, UFlowNodeAddOn_IsSupportedInputPinName, hE,
    FindFlowPinByName]
  cases hF : List.find? (fun FlowPin => FlowPin.PinName == PinName) AddOn.InputPins with
  | none =>
    rw [List.find?_eq_none] at hF
    simp only [Bool.false_eq_true, if_false, false_iff, not_exists, not_and]
    intro Pin hPin hEq
    exact hF Pin hPin (by simpa using hEq)
  | some Found =>
    simp only [Bool.false_eq_true, if_false, true_iff]
    exact ⟨Found, List.mem_of_find?_eq_some hF, by simpa using List.find?_some hF⟩

/-- Witness of C11: with the declared inputs `A` and `B`, `A` is supported and `C` is not. -/
theorem C11_declared_input_pins_filter_by_name_witness :
    AddOnAB.IsFlowNode = false ∧ AddOnAB.InputPins ≠ [] ∧
    IsSupportedInputPinName DefaultBehaviour AddOnAB "A" = true ∧
    IsSupportedInputPinName DefaultBehaviour AddOnAB "C" = false ∧
    (IsSupportedInputPinName DefaultBehaviour AddOnAB "C" = true ↔
      ∃ Pin ∈ AddOnAB.InputPins, Pin.PinName = "C") :=
  ⟨rfl, by decide, by decide, by decide,
    C11_declared_input_pins_filter_by_name DefaultBehaviour AddOnAB "C" rfl (by decide)⟩

/-! ### Lifecycle forwarding -/

theorem isCallAtDepth_of_isUnitBelow (Function : EFlowFunction) (Depth : Nat) (e : FlowEvent)
    (h : e.Object.IsUnitBelow Depth = true) : FlowEvent.IsCallAtDepth Function Depth e = false := by
  cases e with
  | Call F O =>
    cases O <;> simp_all [FlowEvent.IsCallAtDepth, FlowEvent.Object, ObjectRef.IsUnitBelow]
    omega
  | Own F O => rfl
  | NewObject O C T N => rfl
  | SetFlowNode O A => rfl

theorem isOwnAtDepth_of_isUnitBelow (Function : EFlowFunction) (Depth : Nat) (e : FlowEvent)
    (h : e.Object.IsUnitBelow Depth = true) : FlowEvent.IsOwnAtDepth Function Depth e = false := by
  cases e with
  | Call F O => rfl
  | Own F O =>
    cases O <;> simp_all [FlowEvent.IsOwnAtDepth, FlowEvent.Object, ObjectRef.IsUnitBelow]
    omega
  | NewObject O C T N => rfl
  | SetFlowNode O A => rfl

theorem isUnitBelow_of_succ (Depth : Nat) (O : ObjectRef)
    (h : O.IsUnitBelow (Depth + 1) = true) : O.IsUnitBelow Depth = true := by
  cases O <;> simp_all [ObjectRef.IsUnitBelow]
  omega

theorem filter_call_of_below (Function : EFlowFunction) (Depth : Nat) (T : List FlowEvent)
    (h : ∀ e ∈ T, e.Object.IsUnitBelow Depth = true) :
    T.filter (FlowEvent.IsCallAtDepth Function Depth) = [] := by
  rw [List.filter_eq_nil_iff]
  intro e he
  simp [isCallAtDepth_of_isUnitBelow Function Depth e (h e he)]

theorem filter_own_of_below (Function : EFlowFunction) (Depth : Nat) (T : List FlowEvent)
    (h : ∀ e ∈ T, e.Object.IsUnitBelow Depth = true) :
    T.filter (FlowEvent.IsOwnAtDepth Function Depth) = [] := by
  rw [List.filter_eq_nil_iff]
  intro e he
  simp [isOwnAtDepth_of_isUnitBelow Function Depth e (h e he)]

theorem ownThenAddOns_unfold (Function : EFlowFunction) (Path : ObjectPath)
    (this : UFlowNodeBase) :
    OwnThenAddOns Function Path this =
      (OwnThenAddOnsLoop Function Path 0 this.AddOns).map fun Forwarded =>
        FlowEvent.Call Function (.Unit Path) :: FlowEvent.Own Function (.Unit Path) ::
          Forwarded := by
  cases this with
  | mk p a =>
    rw [OwnThenAddOns]
    simp only [UFlowNodeBase.AddOns]
    cases OwnThenAddOnsLoop Function Path 0 a <;> rfl

theorem addOnsThenOwn_unfold (Function : EFlowFunction) (Path : ObjectPath)
    (this : UFlowNodeBase) :
    AddOnsThenOwn Function Path this =
      (AddOnsThenOwnLoop Function Path 0 this.AddOns).map fun Forwarded =>
        FlowEvent.Call Function (.Unit Path) ::
          (Forwarded ++ [FlowEvent.Own Function (.Unit Path)]) := by
  cases this with
  | mk p a =>
    rw [AddOnsThenOwn]
    simp only [UFlowNodeBase.AddOns]
    cases AddOnsThenOwnLoop Function Path 0 a <;> rfl

mutual
/-- The add-on part of an own-first call on a unit without null add-ons. -/
theorem ownThenAddOns_forwarded (Function : EFlowFunction) :
    ∀ (Path : ObjectPath) (this : UFlowNodeBase), NoNullAddOn this = true →
      ∃ Forwarded, OwnThenAddOnsLoop Function Path 0 this.AddOns = some Forwarded ∧
        (∀ e ∈ Forwarded, e.Object.IsUnitBelow Path.length = true) ∧
        Forwarded.filter (FlowEvent.IsCallAtDepth Function (Path.length + 1)) =
          (this.AddOns.enumFrom 0).map
            (fun x => FlowEvent.Call Function (.Unit (Path ++ [x.1]))) ∧
        Forwarded.filter (FlowEvent.IsOwnAtDepth Function (Path.length + 1)) =
          (this.AddOns.enumFrom 0).map
            (fun x => FlowEvent.Own Function (.Unit (Path ++ [x.1])))
  | Path, .mk _ a, h => by
    rw [NoNullAddOn] at h
    exact ownThenAddOnsLoop_forwarded Function Path 0 a h
/-- The own-first loop over the add-ons from entry `Index` on. -/
theorem ownThenAddOnsLoop_forwarded (Function : EFlowFunction) :
    ∀ (Path : ObjectPath) (Index : Nat) (AddOns : List (Option UFlowNodeBase)),
      NoNullAddOnIn AddOns = true →
      ∃ T, OwnThenAddOnsLoop Function Path Index AddOns = some T ∧
        (∀ e ∈ T, e.Object.IsUnitBelow Path.length = true) ∧
        T.filter (FlowEvent.IsCallAtDepth Function (Path.length + 1)) =
          (AddOns.enumFrom Index).map
            (fun x => FlowEvent.Call Function (.Unit (Path ++ [x.1]))) ∧
        T.filter (FlowEvent.IsOwnAtDepth Function (Path.length + 1)) =
          (AddOns.enumFrom Index).map
            (fun x => FlowEvent.Own Function (.Unit (Path ++ [x.1])))
  | Path, Index, [], _ => ⟨[], by rw [OwnThenAddOnsLoop], by simp, rfl, rfl⟩
  | Path, Index, none :: _, h => by simp [NoNullAddOnIn] at h
  | Path, Index, some AddOn :: Rest, h => by
    rw [NoNullAddOnIn, Bool.and_eq_true] at h
    obtain ⟨F, hF, hFd, -, -⟩ := ownThenAddOns_forwarded Function (Path ++ [Index]) AddOn h.1
    obtain ⟨T, hT, hTd, hTc, hTo⟩ :=
      ownThenAddOnsLoop_forwarded Function Path (Index + 1) Rest h.2
    have hLen : (Path ++ [Index]).length = Path.length + 1 := by simp
    rw [hLen] at hFd
    have hFc := filter_call_of_below Function _ F hFd
    have hFo := filter_own_of_below Function _ F hFd
    refine ⟨FlowEvent.Call Function (.Unit (Path ++ [Index])) ::
        FlowEvent.Own Function (.Unit (Path ++ [Index])) :: F ++ T, ?_, ?_, ?_, ?_⟩
    · rw [OwnThenAddOnsLoop, ownThenAddOns_unfold, hF, hT]
      rfl
    · intro e he
      simp only [List.cons_append, List.mem_cons, List.mem_append] at he
      rcases he with rfl | rfl | he | he
      · simp [FlowEvent.Object, ObjectRef.IsUnitBelow]
      · simp [FlowEvent.Object, ObjectRef.IsUnitBelow]
      · exact isUnitBelow_of_succ _ _ (hFd e he)
      · exact hTd e he
    · simp [List.filter_cons, List.filter_append, hFc, hTc, List.enumFrom_cons,
        FlowEvent.IsCallAtDepth]
    · simp [List.filter_cons, List.filter_append, hFo, hTo, List.enumFrom_cons,
        FlowEvent.IsOwnAtDepth]
end

mutual
/-- The add-on part of an add-ons-first call on a unit without null add-ons. -/
theorem addOnsThenOwn_forwarded (Function : EFlowFunction) :
    ∀ (Path : ObjectPath) (this : UFlowNodeBase), NoNullAddOn this = true →
      ∃ Forwarded, AddOnsThenOwnLoop Function Path 0 this.AddOns = some Forwarded ∧
        (∀ e ∈ Forwarded, e.Object.IsUnitBelow Path.length = true) ∧
        Forwarded.filter (FlowEvent.IsCallAtDepth Function (Path.length + 1)) =
          (this.AddOns.enumFrom 0).map
            (fun x => FlowEvent.Call Function (.Unit (Path ++ [x.1]))) ∧
        Forwarded.filter (FlowEvent.IsOwnAtDepth Function (Path.length + 1)) =
          (this.AddOns.enumFrom 0).map
            (fun x => FlowEvent.Own Function (.Unit (Path ++ [x.1])))
  | Path, .mk _ a, h => by
    rw [NoNullAddOn] at h
    exact addOnsThenOwnLoop_forwarded Function Path 0 a h
/-- The add-ons-first loop over the add-ons from entry `Index` on. -/
theorem addOnsThenOwnLoop_forwarded (Function : EFlowFunction) :
    ∀ (Path : ObjectPath) (Index : Nat) (AddOns : List (Option UFlowNodeBase)),
      NoNullAddOnIn AddOns = true →
      ∃ T, AddOnsThenOwnLoop Function Path Index AddOns = some T ∧
        (∀ e ∈ T, e.Object.IsUnitBelow Path.length = true) ∧
        T.filter (FlowEvent.IsCallAtDepth Function (Path.length + 1)) =
          (AddOns.enumFrom Index).map
            (fun x => FlowEvent.Call Function (.Unit (Path ++ [x.1]))) ∧
        T.filter (FlowEvent.IsOwnAtDepth Function (Path.length + 1)) =
          (AddOns.enumFrom Index).map
            (fun x => FlowEvent.Own Function (.Unit (Path ++ [x.1])))
  | Path, Index, [], _ => ⟨[], by rw [AddOnsThenOwnLoop], by simp, rfl, rfl⟩
  | Path, Index, none :: _, h => by simp [NoNullAddOnIn] at h
  | Path, Index, some AddOn :: Rest, h => by
    rw [NoNullAddOnIn, Bool.and_eq_true] at h
    obtain ⟨F, hF, hFd, -, -⟩ := addOnsThenOwn_forwarded Function (Path ++ [Index]) AddOn h.1
    obtain ⟨T, hT, hTd, hTc, hTo⟩ :=
      addOnsThenOwnLoop_forwarded Function Path (Index + 1) Rest h.2
    have hLen : (Path ++ [Index]).length = Path.length + 1 := by simp
    rw [hLen] at hFd
    have hFc := filter_call_of_below Function _ F hFd
    have hFo := filter_own_of_below Function _ F hFd
    refine ⟨FlowEvent.Call Function (.Unit (Path ++ [Index])) ::
        (F ++ [FlowEvent.Own Function (.Unit (Path ++ [Index]))]) ++ T, ?_, ?_, ?_, ?_⟩
    · rw [AddOnsThenOwnLoop, addOnsThenOwn_unfold, hF, hT]
      rfl
    · intro e he
      simp only [List.cons_append, List.mem_cons, List.mem_append, List.mem_singleton,
        List.not_mem_nil, or_false] at he
      rcases he with rfl | (he | rfl) | he
      · simp [FlowEvent.Object, ObjectRef.IsUnitBelow]
      · exact isUnitBelow_of_succ _ _ (hFd e he)
      · simp [FlowEvent.Object, ObjectRef.IsUnitBelow]
      · exact hTd e he
    · simp [List.filter_cons, List.filter_append, hFc, hTc, List.enumFrom_cons,
        FlowEvent.IsCallAtDepth]
    · simp [List.filter_cons, List.filter_append, hFo, hTo, List.enumFrom_cons,
        FlowEvent.IsOwnAtDepth]
end

theorem deinitializeInstance_unfold (Path : ObjectPath) (this : UFlowNodeBase) :
    DeinitializeInstance Path this =
      (DeinitializeAddOns Path 0 this.AddOns).map fun r =>
        if this.IsFlowNode then
          (UFlowNodeBase.mk this.Properties r.1,
            FlowEvent.Call .DeinitializeInstance (.Unit Path) ::
              (r.2 ++ [FlowEvent.Own .DeinitializeInstance (.Unit Path)]))
        else
          (UFlowNodeBase.mk { this.Properties with FlowNode := none } r.1,
            FlowEvent.Call .DeinitializeInstance (.Unit Path) ::
              ((r.2 ++ [FlowEvent.Own .DeinitializeInstance (.Unit Path)]) ++
                [FlowEvent.SetFlowNode (.Unit Path) none])) := by
  cases this with
  | mk p a =>
    rw [DeinitializeInstance]
    simp only [UFlowNodeBase.AddOns, UFlowNodeBase.IsFlowNode, UFlowNodeBase.Properties]
    cases DeinitializeAddOns Path 0 a with
    | none => rfl
    | some r =>
      cases r with
      | mk x y => cases hp : p.IsFlowNode <;> simp

mutual
/-- The add-on part of `DeinitializeInstance` on a unit without null add-ons. -/
theorem deinitializeInstance_forwarded :
    ∀ (Path : ObjectPath) (this : UFlowNodeBase), NoNullAddOn this = true →
      ∃ AddOns Forwarded, DeinitializeAddOns Path 0 this.AddOns = some (AddOns, Forwarded) ∧
        (∀ e ∈ Forwarded, e.Object.IsUnitBelow Path.length = true) ∧
        Forwarded.filter (FlowEvent.IsCallAtDepth .DeinitializeInstance (Path.length + 1)) =
          (this.AddOns.enumFrom 0).map
            (fun x => FlowEvent.Call .DeinitializeInstance (.Unit (Path ++ [x.1]))) ∧
        List.Forall₂ DeinitializedEntry this.AddOns AddOns
  | Path, .mk _ a, h => by
    rw [NoNullAddOn] at h
    exact deinitializeAddOns_forwarded Path 0 a h
/-- The loop of `DeinitializeInstance` over the add-ons from entry `Index` on. -/
theorem deinitializeAddOns_forwarded :
    ∀ (Path : ObjectPath) (Index : Nat) (AddOns : List (Option UFlowNodeBase)),
      NoNullAddOnIn AddOns = true →
      ∃ After T, DeinitializeAddOns Path Index AddOns = some (After, T) ∧
        (∀ e ∈ T, e.Object.IsUnitBelow Path.length = true) ∧
        T.filter (FlowEvent.IsCallAtDepth .DeinitializeInstance (Path.length + 1)) =
          (AddOns.enumFrom Index).map
            (fun x => FlowEvent.Call .DeinitializeInstance (.Unit (Path ++ [x.1]))) ∧
        List.Forall₂ DeinitializedEntry AddOns After
  | Path, Index, [], _ => ⟨[], [], by rw [DeinitializeAddOns], by simp, rfl, List.Forall₂.nil⟩
  | Path, Index, none :: _, h => by simp [NoNullAddOnIn] at h
  | Path, Index, some AddOn :: Rest, h => by
    rw [NoNullAddOnIn, Bool.and_eq_true] at h
    obtain ⟨A, F, hF, hFd, -, -⟩ := deinitializeInstance_forwarded (Path ++ [Index]) AddOn h.1
    obtain ⟨R, T, hT, hTd, hTc, hTs⟩ := deinitializeAddOns_forwarded Path (Index + 1) Rest h.2
    have hLen : (Path ++ [Index]).length = Path.length + 1 := by simp
    rw [hLen] at hFd
    have hFc := filter_call_of_below .DeinitializeInstance _ F hFd
    have hHead := deinitializeInstance_unfold (Path ++ [Index]) AddOn
    rw [hF] at hHead
    cases hN : AddOn.IsFlowNode with
    | true =>
      simp only [hN, Option.map_some', if_true] at hHead
      refine ⟨some (UFlowNodeBase.mk AddOn.Properties A) :: R,
        FlowEvent.Call .DeinitializeInstance (.Unit (Path ++ [Index])) ::
          (F ++ [FlowEvent.Own .DeinitializeInstance (.Unit (Path ++ [Index]))]) ++ T,
        ?_, ?_, ?_, ?_⟩
      · rw [DeinitializeAddOns, hHead, hT]
      · intro e he
        simp only [List.cons_append, List.mem_cons, List.mem_append, List.mem_singleton,
          List.not_mem_nil, or_false] at he
        rcases he with rfl | (he | rfl) | he
        · simp [FlowEvent.Object, ObjectRef.IsUnitBelow]
        · exact isUnitBelow_of_succ _ _ (hFd e he)
        · simp [FlowEvent.Object, ObjectRef.IsUnitBelow]
        · exact hTd e he
      · simp [List.filter_cons, List.filter_append, hFc, hTc, List.enumFrom_cons,
          FlowEvent.IsCallAtDepth]
      · refine List.Forall₂.cons ⟨AddOn, _, rfl, rfl, rfl, rfl, ?_⟩ hTs
        intro hFalse
        rw [hN] at hFalse
        exact absurd hFalse (by decide)
    | false =>
      simp only [hN, Option.map_some', Bool.false_eq_true, if_false] at hHead
      refine ⟨some (UFlowNodeBase.mk { AddOn.Properties with FlowNode := none } A) :: R,
        FlowEvent.Call .DeinitializeInstance (.Unit (Path ++ [Index])) ::
          ((F ++ [FlowEvent.Own .DeinitializeInstance (.Unit (Path ++ [Index]))]) ++
            [FlowEvent.SetFlowNode (.Unit (Path ++ [Index])) none]) ++ T,
        ?_, ?_, ?_, ?_⟩
      · rw [DeinitializeAddOns, hHead, hT]
      · intro e he
        simp only [List.cons_append, List.mem_cons, List.mem_append, List.mem_singleton,
          List.not_mem_nil, or_false] at he
        rcases he with rfl | ((he | rfl) | rfl) | he
        · simp [FlowEvent.Object, ObjectRef.IsUnitBelow]
        · exact isUnitBelow_of_succ _ _ (hFd e he)
        · simp [FlowEvent.Object, ObjectRef.IsUnitBelow]
        · simp [FlowEvent.Object, ObjectRef.IsUnitBelow]
        · exact hTd e he
      · simp [List.filter_cons, List.filter_append, hFc, hTc, List.enumFrom_cons,
          FlowEvent.IsCallAtDepth]
      · exact List.Forall₂.cons ⟨AddOn, _, rfl, rfl, rfl, rfl, fun _ => rfl⟩ hTs
end

/-- C12: for every unit without null add-on pointers, each of `ForceFinishNode`, `Cleanup` and
`DeinitializeInstance` ends; after the unit receives the call, every add-on of its array
receives the same call exactly once, in declaration order, everything that follows happens
below the unit until its own hook runs, and after the own hook no add-on is visited (an add-on
only clears its own anchor there). -/
theorem C12_teardown_visits_addons_before_own_hook (Path : ObjectPath) (this : UFlowNodeBase)
    (hNoNull : NoNullAddOn this = true) :
    (∃ Forwarded, ForceFinishNode Path this =
        some (FlowEvent.Call .ForceFinishNode (.Unit Path) ::
          (Forwarded ++ [FlowEvent.Own .ForceFinishNode (.Unit Path)])) ∧
      (∀ e ∈ Forwarded, e.Object.IsUnitBelow Path.length = true) ∧
      Forwarded.filter (FlowEvent.IsCallAtDepth .ForceFinishNode (Path.length + 1)) =
        this.AddOns.enum.map (fun x => FlowEvent.Call .ForceFinishNode (.Unit (Path ++ [x.1])))) ∧
    (∃ Forwarded, Cleanup Path this =
        some (FlowEvent.Call .Cleanup (.Unit Path) ::
          (Forwarded ++ [FlowEvent.Own .Cleanup (.Unit Path)])) ∧
      (∀ e ∈ Forwarded, e.Object.IsUnitBelow Path.length = true) ∧
      Forwarded.filter (FlowEvent.IsCallAtDepth .Cleanup (Path.length + 1)) =
        this.AddOns.enum.map (fun x => FlowEvent.Call .Cleanup (.Unit (Path ++ [x.1])))) ∧
    (∃ After Forwarded, DeinitializeInstance Path this =
        some (After, FlowEvent.Call .DeinitializeInstance (.Unit Path) ::
          (Forwarded ++ FlowEvent.Own .DeinitializeInstance (.Unit Path) ::
            (if this.IsFlowNode then [] else [FlowEvent.SetFlowNode (.Unit Path) none]))) ∧
      (∀ e ∈ Forwarded, e.Object.IsUnitBelow Path.length = true) ∧
      Forwarded.filter (FlowEvent.IsCallAtDepth .DeinitializeInstance (Path.length + 1)) =
        this.AddOns.enum.map
          (fun x => FlowEvent.Call .DeinitializeInstance (.Unit (Path ++ [x.1])))) := by
  refine ⟨?_, ?_, ?_⟩
  · obtain ⟨F, hF, hFd, hFc, -⟩ := addOnsThenOwn_forwarded .ForceFinishNode Path this hNoNull
    refine ⟨F, ?_, hFd, hFc⟩
    rw [ForceFinishNode, addOnsThenOwn_unfold, hF]
    rfl
  · obtain ⟨F, hF, hFd, hFc, -⟩ := addOnsThenOwn_forwarded .Cleanup Path this hNoNull
    refine ⟨F, ?_, hFd, hFc⟩
    rw [Cleanup, addOnsThenOwn_unfold, hF]
    rfl
  · obtain ⟨A, F, hF, hFd, hFc, -⟩ := deinitializeInstance_forwarded Path this hNoNull
    rw [deinitializeInstance_unfold, hF]
    cases hN : this.IsFlowNode with
    | true => exact ⟨UFlowNodeBase.mk this.Properties A, F, by simp, hFd, hFc⟩
    | false =>
      exact ⟨UFlowNodeBase.mk { this.Properties with FlowNode := none } A, F, by simp, hFd, hFc⟩

/-- Witness of C12: the node `NodeTwo` with its two add-ons; both add-ons are visited, in
declaration order, before the own hook of the node. -/
theorem C12_teardown_visits_addons_before_own_hook_witness :
    NoNullAddOn NodeTwo = true ∧
    Cleanup [] NodeTwo = some
      [FlowEvent.Call .Cleanup (.Unit []),
        FlowEvent.Call .Cleanup (.Unit [0]),
          FlowEvent.Call .Cleanup (.Unit [0, 0]), FlowEvent.Own .Cleanup (.Unit [0, 0]),
        FlowEvent.Own .Cleanup (.Unit [0]),
        FlowEvent.Call .Cleanup (.Unit [1]), FlowEvent.Own .Cleanup (.Unit [1]),
        FlowEvent.Own .Cleanup (.Unit [])] ∧
    (∃ Forwarded, ForceFinishNode [] NodeTwo =
        some (FlowEvent.Call .ForceFinishNode (.Unit []) ::
          (Forwarded ++ [FlowEvent.Own .ForceFinishNode (.Unit [])])) ∧
      (∀ e ∈ Forwarded, e.Object.IsUnitBelow ([] : ObjectPath).length = true) ∧
      Forwarded.filter (FlowEvent.IsCallAtDepth .ForceFinishNode (([] : ObjectPath).length + 1)) =
        NodeTwo.AddOns.enum.map
          (fun x => FlowEvent.Call .ForceFinishNode (.Unit ([] ++ [x.1])))) :=
  ⟨rfl, by decide, (C12_teardown_visits_addons_before_own_hook [] NodeTwo rfl).1⟩

/-- C13, as stated, fails: on `NodeN` with its add-on, `PreloadContent` runs the own preload
handling of the node before the add-on receives the call, and `FlushContent` runs the own flush
handling of the node after the add-on has received the call and run its own. -/
theorem C13_counterexample :
    PreloadContent [] NodeN = some
      [FlowEvent.Call .PreloadContent (.Unit []), FlowEvent.Own .PreloadContent (.Unit []),
        FlowEvent.Call .PreloadContent (.Unit [0]), FlowEvent.Own .PreloadContent (.Unit [0])] ∧
    FlushContent [] NodeN = some
      [FlowEvent.Call .FlushContent (.Unit []),
        FlowEvent.Call .FlushContent (.Unit [0]), FlowEvent.Own .FlushContent (.Unit [0]),
        FlowEvent.Own .FlushContent (.Unit [])] ∧
    ¬ (∃ Trace, PreloadContent [] NodeN = some Trace ∧
        Trace.indexOf (FlowEvent.Call .PreloadContent (.Unit [0])) <
          Trace.indexOf (FlowEvent.Own .PreloadContent (.Unit []))) ∧
    ¬ (∃ Trace, FlushContent [] NodeN = some Trace ∧
        Trace.indexOf (FlowEvent.Own .FlushContent (.Unit [])) <
          Trace.indexOf (FlowEvent.Call .FlushContent (.Unit [0]))) := by
  have hP : PreloadContent [] NodeN = some
      [FlowEvent.Call .PreloadContent (.Unit []), FlowEvent.Own .PreloadContent (.Unit []),
        FlowEvent.Call .PreloadContent (.Unit [0]), FlowEvent.Own .PreloadContent (.Unit [0])] := by
    decide
  have hF : FlushContent [] NodeN = some
      [FlowEvent.Call .FlushContent (.Unit []),
        FlowEvent.Call .FlushContent (.Unit [0]), FlowEvent.Own .FlushContent (.Unit [0]),
        FlowEvent.Own .FlushContent (.Unit [])] := by
    decide
  refine ⟨hP, hF, ?_, ?_⟩
  · rintro ⟨Trace, hT, hLt⟩
    rw [hP] at hT
    cases hT
    revert hLt
    decide
  · rintro ⟨Trace, hT, hLt⟩
    rw [hF] at hT
    cases hT
    revert hLt
    decide

/-- C13, amended: for every unit without null add-on pointers, `PreloadContent` runs the own
preload handling of the unit first and then forwards the call to every add-on of the array,
once each and in declaration order; `FlushContent` forwards the call to every add-on of the
array first, once each and in declaration order, and runs the own flush handling of the unit
last. -/
theorem C13_preload_own_first_flush_own_last (Path : ObjectPath) (this : UFlowNodeBase)
    (hNoNull : NoNullAddOn this = true) :
    (∃ Forwarded, PreloadContent Path this =
        some (FlowEvent.Call .PreloadContent (.Unit Path) ::
          FlowEvent.Own .PreloadContent (.Unit Path) :: Forwarded) ∧
      (∀ e ∈ Forwarded, e.Object.IsUnitBelow Path.length = true) ∧
      Forwarded.filter (FlowEvent.IsCallAtDepth .PreloadContent (Path.length + 1)) =
        this.AddOns.enum.map (fun x => FlowEvent.Call .PreloadContent (.Unit (Path ++ [x.1])))) ∧
    (∃ Forwarded, FlushContent Path this =
        some (FlowEvent.Call .FlushContent (.Unit Path) ::
          (Forwarded ++ [FlowEvent.Own .FlushContent (.Unit Path)])) ∧
      (∀ e ∈ Forwarded, e.Object.IsUnitBelow Path.length = true) ∧
      Forwarded.filter (FlowEvent.IsCallAtDepth .FlushContent (Path.length + 1)) =
        this.AddOns.enum.map (fun x => FlowEvent.Call .FlushContent (.Unit (Path ++ [x.1])))) := by
  refine ⟨?_, ?_⟩
  · obtain ⟨F, hF, hFd, hFc, -⟩ := ownThenAddOns_forwarded .PreloadContent Path this hNoNull
    refine ⟨F, ?_, hFd, hFc⟩
    rw [PreloadContent, ownThenAddOns_unfold, hF]
    rfl
  · obtain ⟨F, hF, hFd, hFc, -⟩ := addOnsThenOwn_forwarded .FlushContent Path this hNoNull
    refine ⟨F, ?_, hFd, hFc⟩
    rw [FlushContent, addOnsThenOwn_unfold, hF]
    rfl

/-- Witness of the amended C13 on the node `NodeTwo`. -/
theorem C13_preload_own_first_flush_own_last_witness :
    NoNullAddOn NodeTwo = true ∧
    (∃ Forwarded, PreloadContent [] NodeTwo =
        some (FlowEvent.Call .PreloadContent (.Unit []) ::
          FlowEvent.Own .PreloadContent (.Unit []) :: Forwarded) ∧
      (∀ e ∈ Forwarded, e.Object.IsUnitBelow ([] : ObjectPath).length = true) ∧
      Forwarded.filter (FlowEvent.IsCallAtDepth .PreloadContent (([] : ObjectPath).length + 1)) =
        NodeTwo.AddOns.enum.map
          (fun x => FlowEvent.Call .PreloadContent (.Unit ([] ++ [x.1])))) ∧
    (∃ Forwarded, FlushContent [] NodeTwo =
        some (FlowEvent.Call .FlushContent (.Unit []) ::
          (Forwarded ++ [FlowEvent.Own .FlushContent (.Unit [])])) ∧
      (∀ e ∈ Forwarded, e.Object.IsUnitBelow ([] : ObjectPath).length = true) ∧
      Forwarded.filter (FlowEvent.IsCallAtDepth .FlushContent (([] : ObjectPath).length + 1)) =
        NodeTwo.AddOns.enum.map
          (fun x => FlowEvent.Call .FlushContent (.Unit ([] ++ [x.1])))) :=
  ⟨rfl, C13_preload_own_first_flush_own_last [] NodeTwo rfl⟩

/-- C14: for every unit without null add-on pointers, `OnActivate` ends; the unit runs its own
activation hook first, and then every add-on of its array receives `OnActivate` exactly once,
in declaration order, and runs its own activation hook once. -/
theorem C14_on_activate_own_hook_then_addons (Path : ObjectPath) (this : UFlowNodeBase)
    (hNoNull : NoNullAddOn this = true) :
    ∃ Forwarded, OnActivate Path this =
        some (FlowEvent.Call .OnActivate (.Unit Path) ::
          FlowEvent.Own .OnActivate (.Unit Path) :: Forwarded) ∧
      (∀ e ∈ Forwarded, e.Object.IsUnitBelow Path.length = true) ∧
      Forwarded.filter (FlowEvent.IsCallAtDepth .OnActivate (Path.length + 1)) =
        this.AddOns.enum.map (fun x => FlowEvent.Call .OnActivate (.Unit (Path ++ [x.1]))) ∧
      Forwarded.filter (FlowEvent.IsOwnAtDepth .OnActivate (Path.length + 1)) =
        this.AddOns.enum.map (fun x => FlowEvent.Own .OnActivate (.Unit (Path ++ [x.1]))) := by
  obtain ⟨F, hF, hFd, hFc, hFo⟩ := ownThenAddOns_forwarded .OnActivate Path this hNoNull
  refine ⟨F, ?_, hFd, hFc, hFo⟩
  rw [OnActivate, ownThenAddOns_unfold, hF]
  rfl

/-- Witness of C14 on the node `NodeTwo`. -/
theorem C14_on_activate_own_hook_then_addons_witness :
    NoNullAddOn NodeTwo = true ∧
    OnActivate [] NodeTwo = some
      [FlowEvent.Call .OnActivate (.Unit []), FlowEvent.Own .OnActivate (.Unit []),
        FlowEvent.Call .OnActivate (.Unit [0]), FlowEvent.Own .OnActivate (.Unit [0]),
          FlowEvent.Call .OnActivate (.Unit [0, 0]), FlowEvent.Own .OnActivate (.Unit [0, 0]),
        FlowEvent.Call .OnActivate (.Unit [1]), FlowEvent.Own .OnActivate (.Unit [1])] ∧
    ∃ Forwarded, OnActivate [] NodeTwo =
        some (FlowEvent.Call .OnActivate (.Unit []) ::
          FlowEvent.Own .OnActivate (.Unit []) :: Forwarded) ∧
      (∀ e ∈ Forwarded, e.Object.IsUnitBelow ([] : ObjectPath).length = true) ∧
      Forwarded.filter (FlowEvent.IsCallAtDepth .OnActivate (([] : ObjectPath).length + 1)) =
        NodeTwo.AddOns.enum.map (fun x => FlowEvent.Call .OnActivate (.Unit ([] ++ [x.1]))) ∧
      Forwarded.filter (FlowEvent.IsOwnAtDepth .OnActivate (([] : ObjectPath).length + 1)) =
        NodeTwo.AddOns.enum.map (fun x => FlowEvent.Own .OnActivate (.Unit ([] ++ [x.1]))) :=
  ⟨rfl, by decide, C14_on_activate_own_hook_then_addons [] NodeTwo rfl⟩

/-- C18: for every add-on without null add-on pointers, `DeinitializeInstance` ends and leaves
the anchor member of the add-on null, so that `GetFlowNodeSelfOrOwner` yields no node; the
assignment is the last thing that happens, after every nested add-on has received
`DeinitializeInstance` (once each, in declaration order) and after the own hook, and the
nested add-ons are left with null anchors as well. -/
theorem C18_deinitialize_clears_anchor_last (Path : ObjectPath) (this : UFlowNodeBase)
    (hAddOn : this.IsFlowNode = false) (hNoNull : NoNullAddOn this = true) :
    ∃ After Forwarded, DeinitializeInstance Path this =
        some (After, FlowEvent.Call .DeinitializeInstance (.Unit Path) ::
          (Forwarded ++ [FlowEvent.Own .DeinitializeInstance (.Unit Path),
            FlowEvent.SetFlowNode (.Unit Path) none])) ∧
      After.FlowNode = none ∧
      GetFlowNodeSelfOrOwner (.Unit Path) After = none ∧
      (∀ e ∈ Forwarded, e.Object.IsUnitBelow Path.length = true) ∧
      Forwarded.filter (FlowEvent.IsCallAtDepth .DeinitializeInstance (Path.length + 1)) =
        this.AddOns.enum.map
          (fun x => FlowEvent.Call .DeinitializeInstance (.Unit (Path ++ [x.1]))) ∧
      List.Forall₂ DeinitializedEntry this.AddOns After.AddOns := by
  obtain ⟨A, F, hF, hFd, hFc, hFs⟩ := deinitializeInstance_forwarded Path this hNoNull
  refine ⟨UFlowNodeBase.mk { this.Properties with FlowNode := none } A, F, ?_, rfl, ?_,
    hFd, hFc, hFs⟩
  · rw [deinitializeInstance_unfold, hF]
    simp [hAddOn]
  · have hP : this.Properties.IsFlowNode = false := hAddOn
    have hA : (UFlowNodeBase.mk { this.Properties with FlowNode := none } A).IsFlowNode =
        false := hP
    rw [GetFlowNodeSelfOrOwner, hA]
    rfl

/-- Witness of C18: the initialized add-on `AddOnOuterAnchored`, first add-on of its node. -/
theorem C18_deinitialize_clears_anchor_last_witness :
    AddOnOuterAnchored.IsFlowNode = false ∧ NoNullAddOn AddOnOuterAnchored = true ∧
    AddOnOuterAnchored.FlowNode = some (.Unit []) ∧
    (DeinitializeInstance [0] AddOnOuterAnchored).map (fun r => r.2) = some
      [FlowEvent.Call .DeinitializeInstance (.Unit [0]),
        FlowEvent.Call .DeinitializeInstance (.Unit [0, 0]),
        FlowEvent.Own .DeinitializeInstance (.Unit [0, 0]),
        FlowEvent.SetFlowNode (.Unit [0, 0]) none,
        FlowEvent.Own .DeinitializeInstance (.Unit [0]),
        FlowEvent.SetFlowNode (.Unit [0]) none] ∧
    ∃ After Forwarded, DeinitializeInstance [0] AddOnOuterAnchored =
        some (After, FlowEvent.Call .DeinitializeInstance (.Unit [0]) ::
          (Forwarded ++ [FlowEvent.Own .DeinitializeInstance (.Unit [0]),
            FlowEvent.SetFlowNode (.Unit [0]) none])) ∧
      After.FlowNode = none ∧
      GetFlowNodeSelfOrOwner (.Unit [0]) After = none ∧
      (∀ e ∈ Forwarded, e.Object.IsUnitBelow ([0] : ObjectPath).length = true) ∧
      Forwarded.filter
          (FlowEvent.IsCallAtDepth .DeinitializeInstance (([0] : ObjectPath).length + 1)) =
        AddOnOuterAnchored.AddOns.enum.map
          (fun x => FlowEvent.Call .DeinitializeInstance (.Unit ([0] ++ [x.1]))) ∧
      List.Forall₂ DeinitializedEntry AddOnOuterAnchored.AddOns After.AddOns :=
  ⟨rfl, rfl, rfl, by decide, C18_deinitialize_clears_anchor_last [0] AddOnOuterAnchored rfl rfl⟩

/-! ### Instantiation of add-ons -/

theorem noNullAddOn_eq (this : UFlowNodeBase) : NoNullAddOn this = NoNullAddOnIn this.AddOns := by
  cases this with
  | mk p a => rw [NoNullAddOn]; rfl

theorem newAddOnInstances_eq (Path : ObjectPath) :
    ∀ (AddOns : List (Option UFlowNodeBase)) (Index : Nat), NoNullAddOnIn AddOns = true →
      NewAddOnInstances Path Index AddOns =
        some ((AddOns.enumFrom Index).map fun x =>
          FlowEvent.NewObject (.Unit Path) (SourceAddOnClass x.2) (.SourceAddOn (Path ++ [x.1]))
            (.Unit (Path ++ [x.1])))
  | [], _, _ => rfl
  | none :: _, _, h => by simp [NoNullAddOnIn] at h
  | some t :: Rest, Index, h => by
    rw [NoNullAddOnIn, Bool.and_eq_true] at h
    rw [NewAddOnInstances, newAddOnInstances_eq Path Rest (Index + 1) h.2]
    rfl

theorem initializeInstanceWith_node (Outers : List OuterObject) (Path : ObjectPath)
    (P : FlowNodeProperties) (this : UFlowNodeBase) (Created : List FlowEvent)
    (hC : NewAddOnInstances Path 0 this.AddOns = some Created) (hN : P.IsFlowNode = true) :
    InitializeInstanceWith Outers Path P this =
      (InitializeAddOns ({ Ref := .Unit Path, IsFlowNode := true, Valid := P.Valid } :: Outers)
          Path 0 this.AddOns).map fun r =>
        (UFlowNodeBase.mk P r.1,
          FlowEvent.Call .InitializeInstance (.Unit Path) ::
            FlowEvent.Own .InitializeInstance (.Unit Path) :: (Created ++ r.2)) := by
  cases this with
  | mk p a =>
    simp only [UFlowNodeBase.AddOns] at hC ⊢
    rw [InitializeInstanceWith]
    simp only [hN, if_true, hC, List.nil_append]
    cases InitializeAddOns ({ Ref := .Unit Path, IsFlowNode := true, Valid := P.Valid } :: Outers)
        Path 0 a with
    | none => rfl
    | some r => cases r; rfl

theorem initializeInstanceWith_addOn (Outers : List OuterObject) (Path : ObjectPath)
    (P : FlowNodeProperties) (this : UFlowNodeBase) (Created : List FlowEvent)
    (hC : NewAddOnInstances Path 0 this.AddOns = some Created) (hN : P.IsFlowNode = false) :
    InitializeInstanceWith Outers Path P this =
      (InitializeAddOns ({ Ref := .Unit Path, IsFlowNode := false, Valid := P.Valid } :: Outers)
          Path 0 this.AddOns).map fun r =>
        (UFlowNodeBase.mk { P with FlowNode := CacheFlowNode Outers P.FlowNode } r.1,
          FlowEvent.Call .InitializeInstance (.Unit Path) ::
            FlowEvent.SetFlowNode (.Unit Path) (CacheFlowNode Outers P.FlowNode) ::
              FlowEvent.Own .InitializeInstance (.Unit Path) :: (Created ++ r.2)) := by
  cases this with
  | mk p a =>
    simp only [UFlowNodeBase.AddOns] at hC ⊢
    rw [InitializeInstanceWith]
    simp only [hN, Bool.false_eq_true, if_false, hC, List.singleton_append]
    cases InitializeAddOns ({ Ref := .Unit Path, IsFlowNode := false, Valid := P.Valid } :: Outers)
        Path 0 a with
    | none => rfl
    | some r => cases r; rfl

theorem object_of_created (Path : ObjectPath) (AddOns : List (Option UFlowNodeBase))
    (Index : Nat) (e : FlowEvent)
    (he : e ∈ (AddOns.enumFrom Index).map fun x =>
      FlowEvent.NewObject (.Unit Path) (SourceAddOnClass x.2) (.SourceAddOn (Path ++ [x.1]))
        (.Unit (Path ++ [x.1]))) :
    ∃ C T N, e = FlowEvent.NewObject (.Unit Path) C T N := by
  rw [List.mem_map] at he
  obtain ⟨x, -, rfl⟩ := he
  exact ⟨_, _, _, rfl⟩

theorem newAddOnInstances_created (Path : ObjectPath) (this : UFlowNodeBase)
    (h : NoNullAddOn this = true) :
    ∃ Created, NewAddOnInstances Path 0 this.AddOns = some Created ∧
      Created = this.AddOns.enum.map (fun x =>
        FlowEvent.NewObject (.Unit Path) (SourceAddOnClass x.2) (.SourceAddOn (Path ++ [x.1]))
          (.Unit (Path ++ [x.1]))) ∧
      ∀ e ∈ Created, e.Object = .Unit Path ∧
        ∀ F d, FlowEvent.IsCallAtDepth F d e = false := by
  refine ⟨_, newAddOnInstances_eq Path this.AddOns 0 (noNullAddOn_eq this ▸ h), rfl, ?_⟩
  intro e he
  obtain ⟨C, S, N, rfl⟩ := object_of_created _ _ _ e he
  exact ⟨rfl, fun _ _ => rfl⟩

mutual
/-- The second loop of `InitializeInstance` on a unit without null add-ons. -/
theorem initializeInstance_forwarded :
    ∀ (Outers : List OuterObject) (Path : ObjectPath) (this : UFlowNodeBase),
      NoNullAddOn this = true →
      ∃ AddOns Initialized,
        InitializeAddOns Outers Path 0 this.AddOns = some (AddOns, Initialized) ∧
        (∀ e ∈ Initialized, e.Object.IsUnitBelow Path.length = true) ∧
        Initialized.filter (FlowEvent.IsCallAtDepth .InitializeInstance (Path.length + 1)) =
          (this.AddOns.enumFrom 0).map
            (fun x => FlowEvent.Call .InitializeInstance (.Unit (Path ++ [x.1]))) ∧
        List.Forall₂ (InstanceOfSource Outers) this.AddOns AddOns
  | Outers, Path, .mk _ a, h => by
    rw [NoNullAddOn] at h
    exact initializeAddOns_forwarded Outers Path 0 a h
/-- The second loop of `InitializeInstance` from entry `Index` on. -/
theorem initializeAddOns_forwarded :
    ∀ (Outers : List OuterObject) (Path : ObjectPath) (Index : Nat)
      (SourceAddOns : List (Option UFlowNodeBase)), NoNullAddOnIn SourceAddOns = true →
      ∃ AddOns T, InitializeAddOns Outers Path Index SourceAddOns = some (AddOns, T) ∧
        (∀ e ∈ T, e.Object.IsUnitBelow Path.length = true) ∧
        T.filter (FlowEvent.IsCallAtDepth .InitializeInstance (Path.length + 1)) =
          (SourceAddOns.enumFrom Index).map
            (fun x => FlowEvent.Call .InitializeInstance (.Unit (Path ++ [x.1]))) ∧
        List.Forall₂ (InstanceOfSource Outers) SourceAddOns AddOns
  | Outers, Path, Index, [], _ =>
    ⟨[], [], by rw [InitializeAddOns], by simp, rfl, List.Forall₂.nil⟩
  | Outers, Path, Index, none :: _, h => by simp [NoNullAddOnIn] at h
  | Outers, Path, Index, some t :: Rest, h => by
    rw [NoNullAddOnIn, Bool.and_eq_true] at h
    obtain ⟨Created, hC, -, hCd⟩ := newAddOnInstances_created (Path ++ [Index]) t h.1
    obtain ⟨R, T, hT, hTd, hTc, hTs⟩ :=
      initializeAddOns_forwarded Outers Path (Index + 1) Rest h.2
    have hLen : (Path ++ [Index]).length = Path.length + 1 := by simp
    have hCb : ∀ e ∈ Created, e.Object.IsUnitBelow Path.length = true := by
      intro e he
      rw [(hCd e he).1]
      simp [ObjectRef.IsUnitBelow]
    have hCc : Created.filter
        (FlowEvent.IsCallAtDepth .InitializeInstance (Path.length + 1)) = [] := by
      rw [List.filter_eq_nil_iff]
      intro e he
      simp [(hCd e he).2]
    cases hN : t.IsFlowNode with
    | true =>
      have hPN : (NewObject_Properties t.Properties).IsFlowNode = true := hN
      obtain ⟨A, F, hF, hFd, -, hFs⟩ := initializeInstance_forwarded
        ({ Ref := .Unit (Path ++ [Index]), IsFlowNode := true,
           Valid := (NewObject_Properties t.Properties).Valid } :: Outers) (Path ++ [Index]) t h.1
      rw [hLen] at hFd
      have hFc := filter_call_of_below .InitializeInstance _ F hFd
      have hHead := initializeInstanceWith_node Outers (Path ++ [Index])
        (NewObject_Properties t.Properties) t _ hC hPN
      rw [hF] at hHead
      simp only [Option.map_some'] at hHead
      refine ⟨some (UFlowNodeBase.mk (NewObject_Properties t.Properties) A) :: R,
        FlowEvent.Call .InitializeInstance (.Unit (Path ++ [Index])) ::
          FlowEvent.Own .InitializeInstance (.Unit (Path ++ [Index])) :: (Created ++ F) ++ T,
        ?_, ?_, ?_, ?_⟩
      · rw [InitializeAddOns, hHead, hT]
      · intro e he
        simp only [List.cons_append, List.mem_cons, List.mem_append] at he
        rcases he with rfl | rfl | (he | he) | he
        · simp [FlowEvent.Object, ObjectRef.IsUnitBelow]
        · simp [FlowEvent.Object, ObjectRef.IsUnitBelow]
        · exact hCb e he
        · exact isUnitBelow_of_succ _ _ (hFd e he)
        · exact hTd e he
      · simp [List.filter_cons, List.filter_append, hFc, hTc, hCc, List.enumFrom_cons,
          FlowEvent.IsCallAtDepth]
      · refine List.Forall₂.cons ⟨t, _, rfl, rfl, rfl, rfl, rfl, rfl, rfl, ?_, ?_⟩ hTs
        · exact (List.Forall₂.length_eq hFs).symm
        · intro hFalse
          rw [hN] at hFalse
          exact absurd hFalse (by decide)
    | false =>
      have hPN : (NewObject_Properties t.Properties).IsFlowNode = false := hN
      obtain ⟨A, F, hF, hFd, -, hFs⟩ := initializeInstance_forwarded
        ({ Ref := .Unit (Path ++ [Index]), IsFlowNode := false,
           Valid := (NewObject_Properties t.Properties).Valid } :: Outers) (Path ++ [Index]) t h.1
      rw [hLen] at hFd
      have hFc := filter_call_of_below .InitializeInstance _ F hFd
      have hHead := initializeInstanceWith_addOn Outers (Path ++ [Index])
        (NewObject_Properties t.Properties) t _ hC hPN
      rw [hF] at hHead
      simp only [Option.map_some'] at hHead
      refine ⟨some (UFlowNodeBase.mk { NewObject_Properties t.Properties with
          FlowNode := CacheFlowNode Outers (NewObject_Properties t.Properties).FlowNode } A) :: R,
        FlowEvent.Call .InitializeInstance (.Unit (Path ++ [Index])) ::
          FlowEvent.SetFlowNode (.Unit (Path ++ [Index]))
            (CacheFlowNode Outers (NewObject_Properties t.Properties).FlowNode) ::
          FlowEvent.Own .InitializeInstance (.Unit (Path ++ [Index])) :: (Created ++ F) ++ T,
        ?_, ?_, ?_, ?_⟩
      · rw [InitializeAddOns, hHead, hT]
      · intro e he
        simp only [List.cons_append, List.mem_cons, List.mem_append] at he
        rcases he with rfl | rfl | rfl | (he | he) | he
        · simp [FlowEvent.Object, ObjectRef.IsUnitBelow]
        · simp [FlowEvent.Object, ObjectRef.IsUnitBelow]
        · simp [FlowEvent.Object, ObjectRef.IsUnitBelow]
        · exact hCb e he
        · exact isUnitBelow_of_succ _ _ (hFd e he)
        · exact hTd e he
      · simp [List.filter_cons, List.filter_append, hFc, hTc, hCc, List.enumFrom_cons,
          FlowEvent.IsCallAtDepth]
      · refine List.Forall₂.cons ⟨t, _, rfl, rfl, rfl, rfl, rfl, rfl, rfl, ?_, ?_⟩ hTs
        · exact (List.Forall₂.length_eq hFs).symm
        · intro _
          rfl
end

theorem not_onSourceAddOn_of_isUnitBelow (Depth : Nat) (e : FlowEvent)
    (h : e.Object.IsUnitBelow Depth = true) : e.IsOnSourceAddOn = false := by
  cases e with
  | Call F O => cases O <;> simp_all [FlowEvent.Object, ObjectRef.IsUnitBelow,
      FlowEvent.IsOnSourceAddOn]
  | Own F O => cases O <;> simp_all [FlowEvent.Object, ObjectRef.IsUnitBelow,
      FlowEvent.IsOnSourceAddOn]
  | NewObject O C T N => cases O <;> simp_all [FlowEvent.Object, ObjectRef.IsUnitBelow,
      FlowEvent.IsOnSourceAddOn]
  | SetFlowNode O A => cases O <;> simp_all [FlowEvent.Object, ObjectRef.IsUnitBelow,
      FlowEvent.IsOnSourceAddOn]

theorem not_newObjectOf_of_isUnitBelow (Path : ObjectPath) (e : FlowEvent)
    (h : e.Object.IsUnitBelow Path.length = true) : e.IsNewObjectOf Path = false := by
  cases e with
  | Call F O => rfl
  | Own F O => rfl
  | NewObject O C T N =>
    cases O with
    | Unit P =>
      simp only [FlowEvent.Object, ObjectRef.IsUnitBelow, decide_eq_true_eq] at h
      simp only [FlowEvent.IsNewObjectOf, beq_eq_false_iff_ne, ne_eq]
      intro hEq
      rw [hEq] at h
      exact absurd h (lt_irrefl _)
    | SourceAddOn P => rfl
    | External n => rfl
  | SetFlowNode O A => rfl

theorem cacheFlowNode_none_of_valid :
    ∀ (Outers : List OuterObject), (∀ o ∈ Outers, o.Valid = true) →
      CacheFlowNode Outers none = (Outers.find? (fun o => o.IsFlowNode)).map (fun o => o.Ref)
  | [], _ => rfl
  | o :: Rest, h => by
    have ho : o.Valid = true := h o (List.mem_cons_self _ _)
    have hr := cacheFlowNode_none_of_valid Rest (fun x hx => h x (List.mem_cons_of_mem _ hx))
    rw [CacheFlowNode]
    cases hN : o.IsFlowNode <;> simp [ho, hN, Cast_UFlowNode, hr, List.find?_cons]

theorem cacheFlowNode_of_valid (Outers : List OuterObject) (FlowNode : Option ObjectRef)
    (hValid : ∀ o ∈ Outers, o.Valid = true) (hNonEmpty : Outers ≠ []) :
    CacheFlowNode Outers FlowNode =
      (Outers.find? (fun o => o.IsFlowNode)).map (fun o => o.Ref) := by
  cases Outers with
  | nil => exact absurd rfl hNonEmpty
  | cons o Rest =>
    have ho : o.Valid = true := hValid o (List.mem_cons_self _ _)
    have hr := cacheFlowNode_none_of_valid Rest
      (fun x hx => hValid x (List.mem_cons_of_mem _ hx))
    rw [CacheFlowNode]
    cases hN : o.IsFlowNode <;> simp [ho, hN, Cast_UFlowNode, hr, List.find?_cons]

theorem forall₂_exists_left {α β : Type} (R : α → β → Prop) (l₁ : List α) (l₂ : List β)
    (h : List.Forall₂ R l₁ l₂) : ∀ b ∈ l₂, ∃ a ∈ l₁, R a b := by
  induction h with
  | nil =>
    intro b hb
    simp at hb
  | cons hab _ ih =>
    intro b hb
    rw [List.mem_cons] at hb
    rcases hb with rfl | hb
    · exact ⟨_, List.mem_cons_self _ _, hab⟩
    · obtain ⟨x, hx, hxb⟩ := ih b hb
      exact ⟨x, List.mem_cons_of_mem _ hx, hxb⟩

/-- The virtual call `InitializeInstance()` on a unit without null add-ons, in closed form. -/
theorem initializeInstance_closed (Outers : List OuterObject) (Path : ObjectPath)
    (this : UFlowNodeBase) (hNoNull : NoNullAddOn this = true) :
    ∃ AddOns Created Initialized,
      InitializeInstance Outers Path this =
        some (UFlowNodeBase.mk
            (if this.IsFlowNode then this.Properties
              else { this.Properties with
                FlowNode := CacheFlowNode Outers this.Properties.FlowNode }) AddOns,
          FlowEvent.Call .InitializeInstance (.Unit Path) ::
            ((if this.IsFlowNode then []
              else [FlowEvent.SetFlowNode (.Unit Path)
                (CacheFlowNode Outers this.Properties.FlowNode)]) ++
              FlowEvent.Own .InitializeInstance (.Unit Path) :: (Created ++ Initialized))) ∧
      Created = this.AddOns.enum.map (fun x =>
        FlowEvent.NewObject (.Unit Path) (SourceAddOnClass x.2) (.SourceAddOn (Path ++ [x.1]))
          (.Unit (Path ++ [x.1]))) ∧
      (∀ e ∈ Initialized, e.Object.IsUnitBelow Path.length = true) ∧
      Initialized.filter (FlowEvent.IsCallAtDepth .InitializeInstance (Path.length + 1)) =
        this.AddOns.enum.map
          (fun x => FlowEvent.Call .InitializeInstance (.Unit (Path ++ [x.1]))) ∧
      List.Forall₂
        (InstanceOfSource
          ({ Ref := .Unit Path, IsFlowNode := this.IsFlowNode, Valid := this.Valid } :: Outers))
        this.AddOns AddOns := by
  obtain ⟨Created, hC, hCe, -⟩ := newAddOnInstances_created Path this hNoNull
  cases hN : this.IsFlowNode with
  | true =>
    obtain ⟨A, I, hI, hId, hIc, hIs⟩ := initializeInstance_forwarded
      ({ Ref := .Unit Path, IsFlowNode := true, Valid := this.Properties.Valid } :: Outers)
      Path this hNoNull
    refine ⟨A, Created, I, ?_, hCe, hId, hIc, hIs⟩
    rw [InitializeInstance, initializeInstanceWith_node Outers Path this.Properties this _ hC hN,
      hI]
    simp
  | false =>
    obtain ⟨A, I, hI, hId, hIc, hIs⟩ := initializeInstance_forwarded
      ({ Ref := .Unit Path, IsFlowNode := false, Valid := this.Properties.Valid } :: Outers)
      Path this hNoNull
    refine ⟨A, Created, I, ?_, hCe, hId, hIc, hIs⟩
    rw [InitializeInstance,
      initializeInstanceWith_addOn Outers Path this.Properties this _ hC hN, hI]
    simp

/-- C15: for every unit without null add-on pointers, `InitializeInstance` ends. After the own
hook it creates one instance per source add-on, in declaration order, each with the unit as
outer and the class of its source; only after all of them are created does each instance
receive `InitializeInstance`, once and in declaration order, and nothing later is created by
the unit. No source add-on receives a call or is changed, and the array afterwards holds, entry
by entry, a live copy of its source (same class, same pins). -/
theorem C15_initialize_copies_all_then_initializes (Outers : List OuterObject)
    (Path : ObjectPath) (this : UFlowNodeBase) (hNoNull : NoNullAddOn this = true) :
    ∃ After Trace Created Initialized,
      InitializeInstance Outers Path this = some (After, Trace) ∧
      Trace = FlowEvent.Call .InitializeInstance (.Unit Path) ::
        ((if this.IsFlowNode then []
          else [FlowEvent.SetFlowNode (.Unit Path) After.FlowNode]) ++
          FlowEvent.Own .InitializeInstance (.Unit Path) :: (Created ++ Initialized)) ∧
      Created = this.AddOns.enum.map (fun x =>
        FlowEvent.NewObject (.Unit Path) (SourceAddOnClass x.2) (.SourceAddOn (Path ++ [x.1]))
          (.Unit (Path ++ [x.1]))) ∧
      (∀ e ∈ Initialized, e.Object.IsUnitBelow Path.length = true) ∧
      (∀ e ∈ Initialized, e.IsNewObjectOf Path = false) ∧
      Initialized.filter (FlowEvent.IsCallAtDepth .InitializeInstance (Path.length + 1)) =
        this.AddOns.enum.map
          (fun x => FlowEvent.Call .InitializeInstance (.Unit (Path ++ [x.1]))) ∧
      (∀ e ∈ Trace, e.IsOnSourceAddOn = false) ∧
      After.AddOns.length = this.AddOns.length ∧
      List.Forall₂
        (InstanceOfSource
          ({ Ref := .Unit Path, IsFlowNode := this.IsFlowNode, Valid := this.Valid } :: Outers))
        this.AddOns After.AddOns := by
  obtain ⟨A, Created, I, hEq, hC, hId, hIc, hIs⟩ :=
    initializeInstance_closed Outers Path this hNoNull
  refine ⟨_, _, Created, I, hEq, ?_, hC, hId,
    fun e he => not_newObjectOf_of_isUnitBelow Path e (hId e he), hIc, ?_,
    (List.Forall₂.length_eq hIs).symm, hIs⟩
  · cases hN : this.IsFlowNode <;> rfl
  · intro e he
    simp only [List.mem_cons, List.mem_append] at he
    rcases he with rfl | he | rfl | he | he
    · rfl
    · cases hN : this.IsFlowNode
      · rw [hN] at he
        simp only [Bool.false_eq_true, if_false, List.mem_singleton] at he
        rw [he]
        rfl
      · rw [hN] at he
        simp at he
    · rfl
    · rw [hC, List.mem_map] at he
      obtain ⟨x, -, rfl⟩ := he
      rfl
    · exact not_onSourceAddOn_of_isUnitBelow _ e (hId e he)

/-- Witness of C15: `InitializeInstance` on the node `NodeTwo` held by a flow asset. -/
theorem C15_initialize_copies_all_then_initializes_witness :
    NoNullAddOn NodeTwo = true ∧
    (InitializeInstance AssetOuters [] NodeTwo).map (fun r => r.2) = some
      [FlowEvent.Call .InitializeInstance (.Unit []),
        FlowEvent.Own .InitializeInstance (.Unit []),
        FlowEvent.NewObject (.Unit []) "FlowNodeAddOn_Outer" (.SourceAddOn [0]) (.Unit [0]),
        FlowEvent.NewObject (.Unit []) "FlowNodeAddOn_Plain" (.SourceAddOn [1]) (.Unit [1]),
        FlowEvent.Call .InitializeInstance (.Unit [0]),
        FlowEvent.SetFlowNode (.Unit [0]) (some (.Unit [])),
        FlowEvent.Own .InitializeInstance (.Unit [0]),
        FlowEvent.NewObject (.Unit [0]) "FlowNodeAddOn_Foo" (.SourceAddOn [0, 0]) (.Unit [0, 0]),
        FlowEvent.Call .InitializeInstance (.Unit [0, 0]),
        FlowEvent.SetFlowNode (.Unit [0, 0]) (some (.Unit [])),
        FlowEvent.Own .InitializeInstance (.Unit [0, 0]),
        FlowEvent.Call .InitializeInstance (.Unit [1]),
        FlowEvent.SetFlowNode (.Unit [1]) (some (.Unit [])),
        FlowEvent.Own .InitializeInstance (.Unit [1])] ∧
    ∃ After Trace Created Initialized,
      InitializeInstance AssetOuters [] NodeTwo = some (After, Trace) ∧
      Trace = FlowEvent.Call .InitializeInstance (.Unit []) ::
        ((if NodeTwo.IsFlowNode then []
          else [FlowEvent.SetFlowNode (.Unit []) After.FlowNode]) ++
          FlowEvent.Own .InitializeInstance (.Unit []) :: (Created ++ Initialized)) ∧
      Created = NodeTwo.AddOns.enum.map (fun x =>
        FlowEvent.NewObject (.Unit []) (SourceAddOnClass x.2) (.SourceAddOn ([] ++ [x.1]))
          (.Unit ([] ++ [x.1]))) ∧
      (∀ e ∈ Initialized, e.Object.IsUnitBelow ([] : ObjectPath).length = true) ∧
      (∀ e ∈ Initialized, e.IsNewObjectOf [] = false) ∧
      Initialized.filter
          (FlowEvent.IsCallAtDepth .InitializeInstance (([] : ObjectPath).length + 1)) =
        NodeTwo.AddOns.enum.map
          (fun x => FlowEvent.Call .InitializeInstance (.Unit ([] ++ [x.1]))) ∧
      (∀ e ∈ Trace, e.IsOnSourceAddOn = false) ∧
      After.AddOns.length = NodeTwo.AddOns.length ∧
      List.Forall₂
        (InstanceOfSource
          ({ Ref := .Unit [], IsFlowNode := NodeTwo.IsFlowNode, Valid := NodeTwo.Valid } ::
            AssetOuters))
        NodeTwo.AddOns After.AddOns :=
  ⟨rfl, by decide, C15_initialize_copies_all_then_initializes AssetOuters [] NodeTwo rfl⟩

/-- C16: for every add-on whose anchor member holds the node `N`, each of `TriggerOutput`,
`TriggerFirstOutput` and `Finish` makes exactly one call, the same function with the same
arguments on `N`; with a null anchor each of them makes no call at all. -/
theorem C16_addon_forwards_to_anchor (this : UFlowNodeBase) (N : ObjectRef) (PinName : FName)
    (bFinish : Bool) (ActivationType : EFlowPinActivationType) :
    (this.FlowNode = some N →
      UFlowNodeAddOn_TriggerOutput this PinName bFinish ActivationType =
          [NodeCall.TriggerOutput N PinName bFinish ActivationType] ∧
        UFlowNodeAddOn_TriggerFirstOutput this bFinish = [NodeCall.TriggerFirstOutput N bFinish] ∧
        UFlowNodeAddOn_Finish this = [NodeCall.Finish N]) ∧
    (this.FlowNode = none →
      UFlowNodeAddOn_TriggerOutput this PinName bFinish ActivationType = [] ∧
        UFlowNodeAddOn_TriggerFirstOutput this bFinish = [] ∧
        UFlowNodeAddOn_Finish this = []) := by
  constructor
  · intro h
    simp [UFlowNodeAddOn_TriggerOutput, UFlowNodeAddOn_TriggerFirstOutput,
      UFlowNodeAddOn_Finish, h]
  · intro h
    simp [UFlowNodeAddOn_TriggerOutput, UFlowNodeAddOn_TriggerFirstOutput,
      UFlowNodeAddOn_Finish, h]

/-- Witness of C16: `AddOnFooAnchored`, the state `InitializeInstance` of `NodeN` leaves its
add-on in, forwards to that node; the source `AddOnFoo`, never initialized, calls nothing. -/
theorem C16_addon_forwards_to_anchor_witness :
    (InitializeInstance AssetOuters [] NodeN).map
        (fun r => r.1.AddOns.map (fun a => a.map (fun u => u.Properties))) =
      some [some AddOnFooAnchored.Properties] ∧
    AddOnFooAnchored.FlowNode = some (.Unit []) ∧
    (UFlowNodeAddOn_TriggerOutput AddOnFooAnchored "Out" true 0 =
        [NodeCall.TriggerOutput (.Unit []) "Out" true 0] ∧
      UFlowNodeAddOn_TriggerFirstOutput AddOnFooAnchored true =
        [NodeCall.TriggerFirstOutput (.Unit []) true] ∧
      UFlowNodeAddOn_Finish AddOnFooAnchored = [NodeCall.Finish (.Unit [])]) ∧
    AddOnFoo.FlowNode = none ∧
    (UFlowNodeAddOn_TriggerOutput AddOnFoo "Out" true 0 = [] ∧
      UFlowNodeAddOn_TriggerFirstOutput AddOnFoo true = [] ∧
      UFlowNodeAddOn_Finish AddOnFoo = []) :=
  ⟨by decide, rfl,
    (C16_addon_forwards_to_anchor AddOnFooAnchored (.Unit []) "Out" true 0).1 rfl, rfl,
    (C16_addon_forwards_to_anchor AddOnFoo (.Unit []) "Out" true 0).2 rfl⟩

/-- C17: for every add-on without null add-on pointers whose ownership chain is not empty and
holds live objects, `InitializeInstance` ends and sets the anchor member to the nearest object
of the chain that is a `UFlowNode`, and to null if the chain holds none. The assignment comes
before the own hook, before any instance of a nested add-on is created and before any nested
add-on is initialized; and when the add-on itself is live, every nested add-on ends with the
same anchor as the add-on. -/
theorem C17_addon_anchor_is_nearest_flow_node (Outers : List OuterObject) (Path : ObjectPath)
    (this : UFlowNodeBase) (hAddOn : this.IsFlowNode = false)
    (hNoNull : NoNullAddOn this = true) (hValid : ∀ o ∈ Outers, o.Valid = true)
    (hNonEmpty : Outers ≠ []) :
    ∃ After Created Initialized,
      InitializeInstance Outers Path this =
        some (After, FlowEvent.Call .InitializeInstance (.Unit Path) ::
          FlowEvent.SetFlowNode (.Unit Path) After.FlowNode ::
          FlowEvent.Own .InitializeInstance (.Unit Path) :: (Created ++ Initialized)) ∧
      After.FlowNode = (Outers.find? (fun o => o.IsFlowNode)).map (fun o => o.Ref) ∧
      ((∀ o ∈ Outers, o.IsFlowNode = false) → After.FlowNode = none) ∧
      Created = this.AddOns.enum.map (fun x =>
        FlowEvent.NewObject (.Unit Path) (SourceAddOnClass x.2) (.SourceAddOn (Path ++ [x.1]))
          (.Unit (Path ++ [x.1]))) ∧
      (∀ e ∈ Initialized, e.Object.IsUnitBelow Path.length = true) ∧
      Initialized.filter (FlowEvent.IsCallAtDepth .InitializeInstance (Path.length + 1)) =
        this.AddOns.enum.map
          (fun x => FlowEvent.Call .InitializeInstance (.Unit (Path ++ [x.1]))) ∧
      (this.Valid = true → ∀ c, some c ∈ After.AddOns → c.IsFlowNode = false →
        c.FlowNode = After.FlowNode) := by
  obtain ⟨A, Created, I, hEq, hC, hId, hIc, hIs⟩ :=
    initializeInstance_closed Outers Path this hNoNull
  have hAnchor := cacheFlowNode_of_valid Outers this.Properties.FlowNode hValid hNonEmpty
  rw [hAddOn] at hEq hIs
  simp only [Bool.false_eq_true, if_false, List.singleton_append] at hEq
  refine ⟨_, Created, I, hEq, hAnchor, ?_, hC, hId, hIc, ?_⟩
  · intro hNone
    have hF : Outers.find? (fun o => o.IsFlowNode) = none := by
      rw [List.find?_eq_none]
      intro o ho
      simp [hNone o ho]
    show CacheFlowNode Outers this.Properties.FlowNode = none
    rw [hAnchor, hF]
    rfl
  · intro hThis c hc hcA
    obtain ⟨a, -, t, c', -, hc', -, hIsN, -, -, -, -, hAnc⟩ :=
      forall₂_exists_left _ _ _ hIs (some c) hc
    cases hc'
    rw [hIsN] at hcA
    rw [hAnc hcA]
    show CacheFlowNode _ t.FlowNode = CacheFlowNode Outers this.Properties.FlowNode
    rw [hAnchor, CacheFlowNode]
    simp only [hThis, Bool.not_true, Bool.false_eq_true, if_false, Cast_UFlowNode]
    exact cacheFlowNode_none_of_valid Outers hValid

/-- Witness of C17: the instance of `AddOnOuter` that a flow node created; its anchor and the
anchor of its nested add-on are that node. -/
theorem C17_addon_anchor_is_nearest_flow_node_witness :
    AddOnOuter.IsFlowNode = false ∧ NoNullAddOn AddOnOuter = true ∧
    (∀ o ∈ NodeOuters, o.Valid = true) ∧ NodeOuters ≠ [] ∧
    (InitializeInstance NodeOuters [0] AddOnOuter).map
        (fun r => (r.1.FlowNode, r.1.AddOns.map (fun a => a.map (fun u => u.FlowNode)))) =
      some (some (.Unit []), [some (some (.Unit []))]) ∧
    ∃ After Created Initialized,
      InitializeInstance NodeOuters [0] AddOnOuter =
        some (After, FlowEvent.Call .InitializeInstance (.Unit [0]) ::
          FlowEvent.SetFlowNode (.Unit [0]) After.FlowNode ::
          FlowEvent.Own .InitializeInstance (.Unit [0]) :: (Created ++ Initialized)) ∧
      After.FlowNode = (NodeOuters.find? (fun o => o.IsFlowNode)).map (fun o => o.Ref) ∧
      ((∀ o ∈ NodeOuters, o.IsFlowNode = false) → After.FlowNode = none) ∧
      Created = AddOnOuter.AddOns.enum.map (fun x =>
        FlowEvent.NewObject (.Unit [0]) (SourceAddOnClass x.2) (.SourceAddOn ([0] ++ [x.1]))
          (.Unit ([0] ++ [x.1]))) ∧
      (∀ e ∈ Initialized, e.Object.IsUnitBelow ([0] : ObjectPath).length = true) ∧
      Initialized.filter
          (FlowEvent.IsCallAtDepth .InitializeInstance (([0] : ObjectPath).length + 1)) =
        AddOnOuter.AddOns.enum.map
          (fun x => FlowEvent.Call .InitializeInstance (.Unit ([0] ++ [x.1]))) ∧
      (AddOnOuter.Valid = true → ∀ c, some c ∈ After.AddOns → c.IsFlowNode = false →
        c.FlowNode = After.FlowNode) :=
  ⟨rfl, rfl, by decide, by decide, by decide,
    C17_addon_anchor_is_nearest_flow_node NodeOuters [0] AddOnOuter rfl rfl (by decide)
      (by decide)⟩

/-! ### Owner capability -/

/-- C19: `GetFlowOwnerInterface` returns null without a live asset, without a live expected
owner class and without a live root owner. Otherwise it returns the root owner itself when the
class of the root owner derives from the expected class, whatever the root owner is attached
to; failing that, when the root owner is a component with a live owning actor whose class
derives from the expected class, it returns that actor; and it returns null when neither
matches. (The object returned implements `IFlowOwnerInterface`, as `CastChecked` demands.) -/
theorem C19_owner_interface_resolution :
    GetFlowOwnerInterface none = some .nullptr ∧
    (∀ A : UFlowAsset, A.Valid = false → GetFlowOwnerInterface (some A) = some .nullptr) ∧
    (∀ A : UFlowAsset,
      (A.ExpectedOwnerClass = none ∨ ∃ E, A.ExpectedOwnerClass = some E ∧ E.Valid = false) →
      GetFlowOwnerInterface (some A) = some .nullptr) ∧
    (∀ A : UFlowAsset, (A.Owner = none ∨ ∃ O, A.Owner = some O ∧ O.Valid = false) →
      GetFlowOwnerInterface (some A) = some .nullptr) ∧
    (∀ (A : UFlowAsset) (E : UClass) (O : UOwnerObject), A.Valid = true →
      A.ExpectedOwnerClass = some E → E.Valid = true → A.Owner = some O → O.Valid = true →
      (O.Class.Valid = true → O.Class.IsChildOf E = true →
        O.Class.ImplementsFlowOwnerInterface = true →
        GetFlowOwnerInterface (some A) = some (.OfRootFlowOwner O)) ∧
      ((O.Class.Valid = false ∨ O.Class.IsChildOf E = false) →
        ∀ Actor, O.ComponentOwner = some (some Actor) → Actor.Valid = true →
          Actor.Class.IsChildOf E = true → Actor.Class.ImplementsFlowOwnerInterface = true →
          GetFlowOwnerInterface (some A) = some (.OfActor Actor)) ∧
      ((O.Class.Valid = false ∨ O.Class.IsChildOf E = false) →
        (∀ Actor, O.ComponentOwner = some (some Actor) →
          Actor.Valid = false ∨ Actor.Class.IsChildOf E = false) →
        GetFlowOwnerInterface (some A) = some .nullptr)) := by
  refine ⟨rfl, ?_, ?_, ?_, ?_⟩
  · intro A hA
    simp [GetFlowOwnerInterface, hA]
  · intro A h
    cases hAv : A.Valid
    · simp [GetFlowOwnerInterface, hAv]
    · rcases h with h | ⟨E, h, hE⟩
      · simp [GetFlowOwnerInterface, hAv, h]
      · simp [GetFlowOwnerInterface, hAv, h, hE]
  · intro A h
    cases hAv : A.Valid
    · simp [GetFlowOwnerInterface, hAv]
    · cases hEo : A.ExpectedOwnerClass with
      | none => simp [GetFlowOwnerInterface, hAv, hEo]
      | some E =>
        cases hEv : E.Valid
        · simp [GetFlowOwnerInterface, hAv, hEo, hEv]
        · rcases h with h | ⟨O, h, hO⟩
          · simp [GetFlowOwnerInterface, hAv, hEo, hEv, h]
          · simp [GetFlowOwnerInterface, hAv, hEo, hEv, h, hO]
  · intro A E O hA hE hEv hO hOv
    have hRoot : O.Class.Valid = true → O.Class.IsChildOf E = true →
        TryGetFlowOwnerInterfaceFromRootFlowOwner O E =
          CastChecked_IFlowOwnerInterface O.Class (.OfRootFlowOwner O) := by
      intro h1 h2
      simp [TryGetFlowOwnerInterfaceFromRootFlowOwner, h1, h2]
    have hNoRoot : (O.Class.Valid = false ∨ O.Class.IsChildOf E = false) →
        TryGetFlowOwnerInterfaceFromRootFlowOwner O E = some .nullptr := by
      intro h
      rcases h with h | h
      · simp [TryGetFlowOwnerInterfaceFromRootFlowOwner, h]
      · simp only [TryGetFlowOwnerInterfaceFromRootFlowOwner, h]
        split_ifs <;> simp_all
    refine ⟨?_, ?_, ?_⟩
    · intro h1 h2 h3
      simp [GetFlowOwnerInterface, hA, hE, hEv, hO, hOv, hRoot h1 h2,
        CastChecked_IFlowOwnerInterface, h3]
    · intro h Actor hC hAv hAc hAi
      simp [GetFlowOwnerInterface, hA, hE, hEv, hO, hOv, hNoRoot h, TryGetFlowOwnerInterfaceActor,
        hC, hAv, hAc, CastChecked_IFlowOwnerInterface, hAi]
    · intro h hNo
      simp only [GetFlowOwnerInterface, hA, hE, hEv, hO, hOv, hNoRoot h, Bool.not_true,
        Bool.false_eq_true, if_false]
      have hActor : TryGetFlowOwnerInterfaceActor O E = some .nullptr := by
        simp only [TryGetFlowOwnerInterfaceActor, hOv, Bool.not_true, Bool.false_eq_true,
          if_false]
        cases hC : O.ComponentOwner with
        | none => rfl
        | some G =>
          cases G with
          | none => rfl
          | some Actor =>
            rcases hNo Actor hC with h1 | h1
            · simp [h1]
            · simp only [h1]
              split_ifs <;> simp_all
      rw [hActor]

/-- Witness of C19: an owning actor of the expected class is returned itself; a flow component
of such an actor yields the actor; a matching component wins over its matching actor; and a
component without actor yields null. -/
theorem C19_owner_interface_resolution_witness :
    GetFlowOwnerInterface (some AssetOwnedByActor) = some (.OfRootFlowOwner OwnerActorObject) ∧
    GetFlowOwnerInterface (some AssetOwnedByComponent) = some (.OfActor OwnerActor) ∧
    GetFlowOwnerInterface (some AssetBothMatch) = some (.OfRootFlowOwner OwnerComponent) ∧
    GetFlowOwnerInterface (some AssetNoMatch) = some .nullptr :=
  ⟨(C19_owner_interface_resolution.2.2.2.2 AssetOwnedByActor OwnerActorClass OwnerActorObject
      rfl rfl rfl rfl rfl).1 rfl (by decide) rfl,
    (C19_owner_interface_resolution.2.2.2.2 AssetOwnedByComponent OwnerActorClass FlowComponent
      rfl rfl rfl rfl rfl).2.1 (Or.inr (by decide)) OwnerActor rfl rfl (by decide) rfl,
    by decide, by decide⟩

/-! ### Context pins -/

theorem appendAddOnPins_eq (Get : UFlowNodeBase → List FFlowPin) :
    ∀ (AddOns : List (Option UFlowNodeBase)), AddOns.all Option.isSome = true →
      AppendAddOnPins Get AddOns = some (ContributedPins Get AddOns)
  | [], _ => rfl
  | none :: _, h => by simp at h
  | some a :: Rest, h => by
    rw [List.all_cons, Bool.and_eq_true] at h
    rw [AppendAddOnPins, appendAddOnPins_eq Get Rest h.2]
    simp [ContributedPins, List.flatMap_cons]

theorem foldl_addUnique (AddOnPins : List FFlowPin) :
    ∀ (Own : List FFlowPin), ∃ Added, AddOnPins.foldl AddUnique Own = Own ++ Added ∧
      Added.Sublist AddOnPins ∧ (∀ p ∈ Added, p ∉ Own) ∧ Added.Nodup ∧
      (∀ p ∈ AddOnPins, p ∈ Own ++ Added) := by
  induction AddOnPins with
  | nil => exact fun Own => ⟨[], by simp, List.Sublist.refl _, by simp, List.nodup_nil, by simp⟩
  | cons x Xs ih =>
    intro Own
    by_cases hx : x ∈ Own
    · obtain ⟨Added, hEq, hSub, hNot, hNd, hAll⟩ := ih Own
      refine ⟨Added, ?_, hSub.cons x, hNot, hNd, ?_⟩
      · simp [List.foldl_cons, AddUnique, hx, hEq]
      · intro p hp
        rw [List.mem_cons] at hp
        rcases hp with rfl | hp
        · exact List.mem_append_left _ hx
        · exact hAll p hp
    · obtain ⟨Added, hEq, hSub, hNot, hNd, hAll⟩ := ih (Own ++ [x])
      refine ⟨x :: Added, ?_, hSub.cons₂ x, ?_, ?_, ?_⟩
      · simp [List.foldl_cons, AddUnique, hx, hEq]
      · intro p hp
        rw [List.mem_cons] at hp
        rcases hp with rfl | hp
        · exact hx
        · exact fun hO => hNot p hp (List.mem_append_left _ hO)
      · refine List.nodup_cons.2 ⟨fun hIn => hNot x hIn (by simp), hNd⟩
      · intro p hp
        rw [List.mem_cons] at hp
        rcases hp with rfl | hp
        · simp
        · have := hAll p hp
          simp only [List.mem_append, List.mem_singleton, List.mem_cons] at this ⊢
          tauto

theorem pinName_injective : Function.Injective FFlowPin.PinName := by
  intro a b h
  cases a
  cases b
  simp_all

/-- The merge that `UFlowNodeBase::GetContextInputs` and `GetContextOutputs` perform, in closed
form. -/
theorem merge_contributed (Get : UFlowNodeBase → List FFlowPin) (Own : List FFlowPin)
    (AddOns : List (Option UFlowNodeBase)) (Result : Option (List FFlowPin))
    (hNoNull : AddOns.all Option.isSome = true)
    (hResult : Result =
      match AppendAddOnPins Get AddOns with
      | none => none
      | some AddOnPins =>
        if !AddOnPins.isEmpty then some (AddOnPins.foldl AddUnique Own) else some Own) :
    ∃ Added, Result = some (Own ++ Added) ∧
      Added.Sublist (ContributedPins Get AddOns) ∧
      (∀ p ∈ Added, p ∉ Own) ∧ Added.Nodup ∧
      (∀ p ∈ ContributedPins Get AddOns, p.PinName ∈ (Own ++ Added).map FFlowPin.PinName) ∧
      ((Own.map FFlowPin.PinName).Nodup → ((Own ++ Added).map FFlowPin.PinName).Nodup) := by
  obtain ⟨Added, hEq, hSub, hNot, hNd, hAll⟩ := foldl_addUnique (ContributedPins Get AddOns) Own
  refine ⟨Added, ?_, hSub, hNot, hNd, fun p hp => List.mem_map_of_mem _ (hAll p hp), ?_⟩
  · rw [hResult, appendAddOnPins_eq Get AddOns hNoNull]
    cases hC : ContributedPins Get AddOns with
    | nil =>
      rw [hC] at hSub
      simp [List.sublist_nil.1 hSub]
    | cons x Xs =>
      rw [hC] at hEq
      simp [hEq]
  · intro hOwn
    have hO : Own.Nodup := List.Nodup.of_map _ hOwn
    refine List.Nodup.map pinName_injective ?_
    rw [List.nodup_append]
    exact ⟨hO, hNd, fun p hp hq => hNot p hq hp⟩

/-- C20, as stated, fails. The add-on `AddOnOuter` carries the add-on `AddOnFoo`, which
contributes the input `Foo`, yet `GetContextInputs` of `AddOnOuter` is its own `X` alone; and
the flow node `NodeM`, whose own context pins name `A` twice, returns `A` twice. -/
theorem C20_counterexample :
    GetContextInputs [] AddOnOuter = some [⟨"X"⟩] ∧
    (⟨"Foo"⟩ : FFlowPin) ∈ ContributedPins UFlowNodeAddOn_GetContextInputs AddOnOuter.AddOns ∧
    (⟨"Foo"⟩ : FFlowPin) ∉ [(⟨"X"⟩ : FFlowPin)] ∧
    GetContextInputs [⟨"A"⟩, ⟨"A"⟩] NodeM = some [⟨"A"⟩, ⟨"A"⟩] ∧
    ¬ ([(⟨"A"⟩ : FFlowPin), ⟨"A"⟩].map FFlowPin.PinName).Nodup := by
  refine ⟨by decide, by decide, by decide, by decide, by decide⟩

/-- C20, amended: for every flow node whose add-on array holds no null pointer,
`GetContextInputs` (resp. `GetContextOutputs`) returns the node's own context pins followed by
the input (resp. output) pins of its add-ons in declaration order, each kept only if no pin of
its name is in the list yet: every contributed pin name occurs in the result, and no pin name
occurs twice provided none does among the own context pins. For an add-on the two functions
return its declared `InputPins` (resp. `OutputPins`) as they are. -/
theorem C20_context_pins_merged_by_name (this : UFlowNodeBase) (Inputs Outputs : List FFlowPin)
    (hNoNull : this.AddOns.all Option.isSome = true) :
    (this.IsFlowNode = true →
      (∃ Added, GetContextInputs Inputs this = some (Inputs ++ Added) ∧
        Added.Sublist (ContributedPins UFlowNodeAddOn_GetContextInputs this.AddOns) ∧
        (∀ p ∈ Added, p ∉ Inputs) ∧ Added.Nodup ∧
        (∀ p ∈ ContributedPins UFlowNodeAddOn_GetContextInputs this.AddOns,
          p.PinName ∈ (Inputs ++ Added).map FFlowPin.PinName) ∧
        ((Inputs.map FFlowPin.PinName).Nodup →
          ((Inputs ++ Added).map FFlowPin.PinName).Nodup)) ∧
      (∃ Added, GetContextOutputs Outputs this = some (Outputs ++ Added) ∧
        Added.Sublist (ContributedPins UFlowNodeAddOn_GetContextOutputs this.AddOns) ∧
        (∀ p ∈ Added, p ∉ Outputs) ∧ Added.Nodup ∧
        (∀ p ∈ ContributedPins UFlowNodeAddOn_GetContextOutputs this.AddOns,
          p.PinName ∈ (Outputs ++ Added).map FFlowPin.PinName) ∧
        ((Outputs.map FFlowPin.PinName).Nodup →
          ((Outputs ++ Added).map FFlowPin.PinName).Nodup))) ∧
    (this.IsFlowNode = false →
      GetContextInputs Inputs this = some this.InputPins ∧
      GetContextOutputs Outputs this = some this.OutputPins) := by
  constructor
  · intro hNode
    constructor
    · refine merge_contributed UFlowNodeAddOn_GetContextInputs Inputs this.AddOns _ hNoNull ?_
      rw [GetContextInputs, hNode]
      rfl
    · refine merge_contributed UFlowNodeAddOn_GetContextOutputs Outputs this.AddOns _ hNoNull ?_
      rw [GetContextOutputs, hNode]
      rfl
  · intro hAddOn
    simp [GetContextInputs, GetContextOutputs, hAddOn, UFlowNodeAddOn_GetContextInputs,
      UFlowNodeAddOn_GetContextOutputs]

/-- Witness of the amended C20: the node `NodeShared`, whose two add-ons both declare `A` and
`B`, with the own context inputs `In` and `A`. -/
theorem C20_context_pins_merged_by_name_witness :
    NodeShared.AddOns.all Option.isSome = true ∧ NodeShared.IsFlowNode = true ∧
    GetContextInputs [⟨"In"⟩, ⟨"A"⟩] NodeShared = some [⟨"In"⟩, ⟨"A"⟩, ⟨"B"⟩] ∧
    ∃ Added, GetContextInputs [⟨"In"⟩, ⟨"A"⟩] NodeShared = some ([⟨"In"⟩, ⟨"A"⟩] ++ Added) ∧
      Added.Sublist (ContributedPins UFlowNodeAddOn_GetContextInputs NodeShared.AddOns) ∧
      (∀ p ∈ Added, p ∉ [(⟨"In"⟩ : FFlowPin), ⟨"A"⟩]) ∧ Added.Nodup ∧
      (∀ p ∈ ContributedPins UFlowNodeAddOn_GetContextInputs NodeShared.AddOns,
        p.PinName ∈ ([(⟨"In"⟩ : FFlowPin), ⟨"A"⟩] ++ Added).map FFlowPin.PinName) ∧
      (([(⟨"In"⟩ : FFlowPin), ⟨"A"⟩].map FFlowPin.PinName).Nodup →
        (([(⟨"In"⟩ : FFlowPin), ⟨"A"⟩] ++ Added).map FFlowPin.PinName).Nodup) :=
  ⟨rfl, rfl, by decide,
    ((C20_context_pins_merged_by_name NodeShared [⟨"In"⟩, ⟨"A"⟩] [] rfl).1 rfl).1⟩

/-! ### Signal mode -/

/-- C21: for every node whose signal mode is `Disabled` and every input pin name, triggering
that input ends with nothing done: no unit runs its own input logic and no unit, the node and
its add-ons included, receives `ExecuteInput`. -/
theorem C21_disabled_node_ignores_input (B : FlowClassBehaviour)
    (Corresponds : UFlowNodeBase → FName → FName → Bool) (Node : UFlowNodeBase) (PinName : FName)
    (hDisabled : Node.SignalMode = EFlowSignalMode.Disabled) :
    ∃ Trace, UFlowNode_TriggerInput_Spec B Corresponds Node PinName = some Trace ∧
      (∀ Unit Name, TriggerEvent.Dispatch (ExecEvent.OwnExecuteInput Unit Name) ∉ Trace) ∧
      (∀ Unit Name, TriggerEvent.Dispatch (ExecEvent.ExecuteInput Unit Name) ∉ Trace) ∧
      Trace = [] := by
  refine ⟨[], ?_, by simp, by simp, rfl⟩
  simp [UFlowNode_TriggerInput_Spec, hDisabled]

/-- Witness of C21: `NodeDisabled` carries the add-on `AddOnFoo`, which declares the input
`Foo`; triggering `Foo` does nothing, whereas the same trigger on the enabled node `NodeN`
reaches the add-on. -/
theorem C21_disabled_node_ignores_input_witness :
    NodeDisabled.SignalMode = EFlowSignalMode.Disabled ∧
    UFlowNode_TriggerInput_Spec DefaultBehaviour PairedByPosition NodeDisabled "Foo" = some [] ∧
    UFlowNode_TriggerInput_Spec DefaultBehaviour PairedByPosition NodeN "Foo" =
      some [TriggerEvent.Dispatch (ExecEvent.ExecuteInput [] "Foo"),
        TriggerEvent.Dispatch (ExecEvent.ExecuteInput [0] "Foo"),
        TriggerEvent.Dispatch (ExecEvent.OwnExecuteInput [0] "Foo")] ∧
    ∃ Trace,
      UFlowNode_TriggerInput_Spec DefaultBehaviour PairedByPosition NodeDisabled "Foo" =
        some Trace ∧
      (∀ Unit Name, TriggerEvent.Dispatch (ExecEvent.OwnExecuteInput Unit Name) ∉ Trace) ∧
      (∀ Unit Name, TriggerEvent.Dispatch (ExecEvent.ExecuteInput Unit Name) ∉ Trace) ∧
      Trace = [] :=
  ⟨rfl, by decide, by decide,
    C21_disabled_node_ignores_input DefaultBehaviour PairedByPosition NodeDisabled "Foo" rfl⟩

/-- C22: for every node whose signal mode is `PassThrough` and every input pin `X`, triggering
`X` ends; the outputs triggered are the output pins of the node that correspond to `X`, each of
them triggered, in declaration order, and no unit receives `ExecuteInput` or runs its own input
handler. -/
theorem C22_pass_through_triggers_output_without_handler (B : FlowClassBehaviour)
    (Corresponds : UFlowNodeBase → FName → FName → Bool) (Node : UFlowNodeBase) (X : FName)
    (hPassThrough : Node.SignalMode = EFlowSignalMode.PassThrough) :
    ∃ Trace, UFlowNode_TriggerInput_Spec B Corresponds Node X = some Trace ∧
      Trace = ((Node.OutputPins.filter fun Pin => Corresponds Node X Pin.PinName).map
        fun Pin => TriggerEvent.TriggerOutput Pin.PinName) ∧
      (∀ Out, TriggerEvent.TriggerOutput Out ∈ Trace ↔
        (⟨Out⟩ ∈ Node.OutputPins ∧ Corresponds Node X Out = true)) ∧
      (∀ Event, TriggerEvent.Dispatch Event ∉ Trace) := by
  refine ⟨_, ?_, rfl, ?_, ?_⟩
  · simp [UFlowNode_TriggerInput_Spec, hPassThrough]
  · intro Out
    simp only [List.mem_map, List.mem_filter]
    constructor
    · rintro ⟨Pin, ⟨hIn, hC⟩, hEq⟩
      cases Pin with
      | mk Name =>
        simp only [TriggerEvent.TriggerOutput.injEq] at hEq
        subst hEq
        exact ⟨hIn, hC⟩
    · rintro ⟨hIn, hC⟩
      exact ⟨⟨Out⟩, ⟨hIn, hC⟩, rfl⟩
  · intro Event hIn
    simp only [List.mem_map] at hIn
    obtain ⟨_, _, hEq⟩ := hIn
    cases hEq

/-- Witness of C22, scenario B: `NodePassThrough` pairs `In` with `Out`; triggering `In` fires
`Out` and nothing else, although the node carries an add-on. -/
theorem C22_pass_through_triggers_output_without_handler_witness :
    NodePassThrough.SignalMode = EFlowSignalMode.PassThrough ∧
    UFlowNode_TriggerInput_Spec DefaultBehaviour PairedByPosition NodePassThrough "In" =
      some [TriggerEvent.TriggerOutput "Out"] ∧
    ∃ Trace,
      UFlowNode_TriggerInput_Spec DefaultBehaviour PairedByPosition NodePassThrough "In" =
        some Trace ∧
      Trace = ((NodePassThrough.OutputPins.filter fun Pin =>
          PairedByPosition NodePassThrough "In" Pin.PinName).map
        fun Pin => TriggerEvent.TriggerOutput Pin.PinName) ∧
      (∀ Out, TriggerEvent.TriggerOutput Out ∈ Trace ↔
        (⟨Out⟩ ∈ NodePassThrough.OutputPins ∧
          PairedByPosition NodePassThrough "In" Out = true)) ∧
      (∀ Event, TriggerEvent.Dispatch Event ∉ Trace) :=
  ⟨rfl, by decide,
    C22_pass_through_triggers_output_without_handler DefaultBehaviour PairedByPosition
      NodePassThrough "In" rfl⟩

/-! ### Selection of potential parents, in general -/

/-- When the selection loop answers `true`, every remaining object is a live flow graph node,
and the running result was `TentativeAccept` already or a remaining graph node has a live node
instance whose verdict is `TentativeAccept`. -/
theorem isAddOnAllowedLoop_true (B : FlowClassBehaviour) (AddOnTemplate : Option UFlowNodeBase) :
    ∀ (SelectedObjects : List (Option UObject)) (acc : EFlowAddOnAcceptResult),
      IsAddOnAllowedLoop B AddOnTemplate SelectedObjects acc = true →
      (∀ Object ∈ SelectedObjects, ∃ GraphNode,
        Cast_UFlowGraphNode Object = some GraphNode ∧ GraphNode.Valid = true) ∧
      (acc = TentativeAccept ∨
        ∃ Object ∈ SelectedObjects, ∃ GraphNode NodeInstance,
          Cast_UFlowGraphNode Object = some GraphNode ∧
          GraphNode.NodeInstance = some NodeInstance ∧ NodeInstance.Valid = true ∧
          (CheckAcceptFlowNodeAddOnChild B NodeInstance AddOnTemplate).1 = TentativeAccept)
  | [], acc, h => by
    rw [IsAddOnAllowedLoop] at h
    refine ⟨by simp, Or.inl ?_⟩
    by_contra hne
    simp [hne] at h
  | Object :: Rest, acc, h => by
    rw [IsAddOnAllowedLoop] at h
    cases hC : Cast_UFlowGraphNode Object with
    | none => simp [hC] at h
    | some GraphNode =>
      simp only [hC] at h
      cases hV : GraphNode.Valid with
      | false => simp [hV] at h
      | true =>
        simp only [hV, Bool.not_true, Bool.false_eq_true, if_false] at h
        have hHead : ∃ G, Cast_UFlowGraphNode Object = some G ∧ G.Valid = true :=
          ⟨GraphNode, hC, hV⟩
        have lift : ∀ acc2, IsAddOnAllowedLoop B AddOnTemplate Rest acc2 = true →
            (acc2 = TentativeAccept →
              acc = TentativeAccept ∨
              ∃ Object2 ∈ Object :: Rest, ∃ GraphNode2 NodeInstance,
                Cast_UFlowGraphNode Object2 = some GraphNode2 ∧
                GraphNode2.NodeInstance = some NodeInstance ∧ NodeInstance.Valid = true ∧
                (CheckAcceptFlowNodeAddOnChild B NodeInstance AddOnTemplate).1 =
                  TentativeAccept) →
            (∀ Object2 ∈ Object :: Rest, ∃ G,
              Cast_UFlowGraphNode Object2 = some G ∧ G.Valid = true) ∧
            (acc = TentativeAccept ∨
              ∃ Object2 ∈ Object :: Rest, ∃ GraphNode2 NodeInstance,
                Cast_UFlowGraphNode Object2 = some GraphNode2 ∧
                GraphNode2.NodeInstance = some NodeInstance ∧ NodeInstance.Valid = true ∧
                (CheckAcceptFlowNodeAddOnChild B NodeInstance AddOnTemplate).1 =
                  TentativeAccept) := by
          intro acc2 h2 hAcc
          obtain ⟨hAll, hSome⟩ := isAddOnAllowedLoop_true B AddOnTemplate Rest acc2 h2
          refine ⟨?_, ?_⟩
          · intro Object2 hMem
            rcases List.mem_cons.mp hMem with rfl | hMem
            · exact hHead
            · exact hAll Object2 hMem
          · rcases hSome with hEq | ⟨Object2, hMem, G, N, h1, h2, h3, h4⟩
            · exact hAcc hEq
            · exact Or.inr ⟨Object2, List.mem_cons_of_mem _ hMem, G, N, h1, h2, h3, h4⟩
        cases hN : GraphNode.NodeInstance with
        | none =>
          simp only [hN] at h
          exact lift acc h Or.inl
        | some NodeInstance =>
          simp only [hN] at h
          cases hNV : NodeInstance.Valid with
          | false =>
            simp only [hNV, Bool.not_false, if_true] at h
            exact lift acc h Or.inl
          | true =>
            simp only [hNV, Bool.not_true, Bool.false_eq_true, if_false] at h
            split_ifs at h with hR
            refine lift _ h ?_
            intro hEq
            rw [combine_eq_tentativeAccept_iff] at hEq
            rcases hEq.2.2 with hv | ha
            · exact Or.inr ⟨Object, List.mem_cons_self _ _, GraphNode, NodeInstance, hC, hN,
                hNV, hv⟩
            · exact Or.inl ha

/-- C28: `IsAddOnAllowedForSelectedObjects` returns `true` only if the selection is not empty,
every selected object is a live flow graph node, and some selected graph node has a live node
instance whose verdict is `TentativeAccept`. It returns `false` for the empty selection, for a
selection none of whose graph nodes has a node instance, and for a selection that holds an
object that is not a flow graph node. -/
theorem C28_selection_allowed_only_if (B : FlowClassBehaviour)
    (SelectedObjects : List (Option UObject)) (AddOnTemplate : Option UFlowNodeBase) :
    (IsAddOnAllowedForSelectedObjects B SelectedObjects AddOnTemplate = true →
      SelectedObjects ≠ [] ∧
      (∀ Object ∈ SelectedObjects, ∃ GraphNode,
        Cast_UFlowGraphNode Object = some GraphNode ∧ GraphNode.Valid = true) ∧
      ∃ Object ∈ SelectedObjects, ∃ GraphNode NodeInstance,
        Cast_UFlowGraphNode Object = some GraphNode ∧
        GraphNode.NodeInstance = some NodeInstance ∧ NodeInstance.Valid = true ∧
        (CheckAcceptFlowNodeAddOnChild B NodeInstance AddOnTemplate).1 = TentativeAccept) ∧
    IsAddOnAllowedForSelectedObjects B [] AddOnTemplate = false ∧
    ((∀ Object ∈ SelectedObjects, ∀ GraphNode,
        Cast_UFlowGraphNode Object = some GraphNode → GraphNode.NodeInstance = none) →
      IsAddOnAllowedForSelectedObjects B SelectedObjects AddOnTemplate = false) ∧
    ((∃ Object ∈ SelectedObjects, Cast_UFlowGraphNode Object = none) →
      IsAddOnAllowedForSelectedObjects B SelectedObjects AddOnTemplate = false) := by
  have main : IsAddOnAllowedForSelectedObjects B SelectedObjects AddOnTemplate = true →
      (∀ Object ∈ SelectedObjects, ∃ GraphNode,
        Cast_UFlowGraphNode Object = some GraphNode ∧ GraphNode.Valid = true) ∧
      ∃ Object ∈ SelectedObjects, ∃ GraphNode NodeInstance,
        Cast_UFlowGraphNode Object = some GraphNode ∧
        GraphNode.NodeInstance = some NodeInstance ∧ NodeInstance.Valid = true ∧
        (CheckAcceptFlowNodeAddOnChild B NodeInstance AddOnTemplate).1 = TentativeAccept := by
    intro h
    obtain ⟨hAll, hSome⟩ := isAddOnAllowedLoop_true B AddOnTemplate SelectedObjects _ h
    refine ⟨hAll, ?_⟩
    rcases hSome with hEq | hEx
    · cases hEq
    · exact hEx
  refine ⟨?_, rfl, ?_, ?_⟩
  · intro h
    obtain ⟨hAll, Object, hMem, hRest⟩ := main h
    exact ⟨List.ne_nil_of_mem hMem, hAll, Object, hMem, hRest⟩
  · intro hNone
    cases hR : IsAddOnAllowedForSelectedObjects B SelectedObjects AddOnTemplate with
    | false => rfl
    | true =>
      obtain ⟨_, Object, hMem, G, N, hC, hN, _⟩ := main hR
      rw [hNone Object hMem G hC] at hN
      cases hN
  · rintro ⟨Object, hMem, hC⟩
    cases hR : IsAddOnAllowedForSelectedObjects B SelectedObjects AddOnTemplate with
    | false => rfl
    | true =>
      obtain ⟨G, hG, _⟩ := (main hR).1 Object hMem
      rw [hC] at hG
      cases hG

/-- Witness of C28: with nodes that opt in, the selection of the graph node of `NodeM` allows
the add-on `AddOnPlain`, so the selection has the three properties; a selection that also holds
an object of another class, and one whose graph node has no node instance, are refused. -/
theorem C28_selection_allowed_only_if_witness :
    IsAddOnAllowedForSelectedObjects NodesOptInBehaviour (SelectionOfParents [NodeM])
      (some AddOnPlain) = true ∧
    (SelectionOfParents [NodeM] ≠ [] ∧
      (∀ Object ∈ SelectionOfParents [NodeM], ∃ GraphNode,
        Cast_UFlowGraphNode Object = some GraphNode ∧ GraphNode.Valid = true) ∧
      ∃ Object ∈ SelectionOfParents [NodeM], ∃ GraphNode NodeInstance,
        Cast_UFlowGraphNode Object = some GraphNode ∧
        GraphNode.NodeInstance = some NodeInstance ∧ NodeInstance.Valid = true ∧
        (CheckAcceptFlowNodeAddOnChild NodesOptInBehaviour NodeInstance (some AddOnPlain)).1 =
          TentativeAccept) ∧
    IsAddOnAllowedForSelectedObjects NodesOptInBehaviour
      (SelectionOfParents [NodeM] ++ [some UObject.Other]) (some AddOnPlain) = false ∧
    IsAddOnAllowedForSelectedObjects NodesOptInBehaviour
      [some (UObject.GraphNode { Valid := true, NodeInstance := none })]
      (some AddOnPlain) = false :=
  ⟨by decide,
    (C28_selection_allowed_only_if NodesOptInBehaviour (SelectionOfParents [NodeM])
      (some AddOnPlain)).1 (by decide),
    (C28_selection_allowed_only_if NodesOptInBehaviour
      (SelectionOfParents [NodeM] ++ [some UObject.Other]) (some AddOnPlain)).2.2.2
      ⟨some UObject.Other, by simp, rfl⟩,
    (C28_selection_allowed_only_if NodesOptInBehaviour
      [some (UObject.GraphNode { Valid := true, NodeInstance := none })]
      (some AddOnPlain)).2.2.1 (by
        intro Object hMem GraphNode hC
        rw [List.mem_singleton] at hMem
        subst hMem
        cases hC
        rfl)⟩

/-! ### Iteration over add-ons -/

/-- Folding the recording function over calls appends them. -/
theorem foldl_recordCall (Calls Acc : List (ObjectPath × UFlowNodeBase)) :
    Calls.foldl (fun s c => RecordCall c.1 c.2 s) Acc = Acc ++ Calls := by
  induction Calls generalizing Acc with
  | nil => simp
  | cons c Calls ih =>
    rw [List.foldl_cons, ih]
    simp [RecordCall]

mutual
/-- `ForEachAddOn` with the recording function adds its calls to those recorded before. -/
theorem forEachAddOn_record : ∀ (this : UFlowNodeBase) (Path : ObjectPath)
    (Acc : List (ObjectPath × UFlowNodeBase)),
    ForEachAddOn RecordCall Path this Acc = Acc ++ ForEachAddOn_Calls Path this
  | .mk _ a, Path, Acc => by
    rw [ForEachAddOn_Calls, ForEachAddOn, ForEachAddOn]
    exact forEachAddOnLoop_record a Path 0 Acc
/-- The loop of `ForEachAddOn` with the recording function adds its calls to those recorded
before. -/
theorem forEachAddOnLoop_record : ∀ (AddOns : List (Option UFlowNodeBase)) (Path : ObjectPath)
    (Index : Nat) (Acc : List (ObjectPath × UFlowNodeBase)),
    ForEachAddOnLoop RecordCall Path Index AddOns Acc =
      Acc ++ ForEachAddOnLoop_Calls Path Index AddOns
  | [], Path, Index, Acc => by simp [ForEachAddOnLoop_Calls, ForEachAddOnLoop]
  | none :: Rest, Path, Index, Acc => by
    rw [ForEachAddOnLoop_Calls, ForEachAddOnLoop, ForEachAddOnLoop]
    exact forEachAddOnLoop_record Rest Path (Index + 1) Acc
  | some AddOn :: Rest, Path, Index, Acc => by
    rw [ForEachAddOnLoop_Calls, ForEachAddOnLoop, ForEachAddOnLoop]
    split_ifs
    · rw [forEachAddOnLoop_record Rest Path (Index + 1) _,
        forEachAddOnLoop_record Rest Path (Index + 1) (ForEachAddOn _ _ _ _),
        forEachAddOn_record AddOn (Path ++ [Index]) _,
        forEachAddOn_record AddOn (Path ++ [Index]) (RecordCall _ _ _)]
      simp [RecordCall]
    · exact forEachAddOnLoop_record Rest Path (Index + 1) Acc
end

/-- The calls of `ForEachAddOn` on a unit are those of its loop from the first entry on. -/
theorem forEachAddOn_calls_eq (this : UFlowNodeBase) (Path : ObjectPath) :
    ForEachAddOn_Calls Path this = ForEachAddOnLoop_Calls Path 0 this.AddOns := by
  cases this with
  | mk p a => rw [ForEachAddOn_Calls, ForEachAddOn, ForEachAddOnLoop_Calls, UFlowNodeBase.AddOns]

/-- The loop of `ForEachAddOn` makes no call for a null entry. -/
theorem forEachAddOnLoop_calls_none (Path : ObjectPath) (Index : Nat)
    (Rest : List (Option UFlowNodeBase)) :
    ForEachAddOnLoop_Calls Path Index (none :: Rest) =
      ForEachAddOnLoop_Calls Path (Index + 1) Rest := by
  simp [ForEachAddOnLoop_Calls, ForEachAddOnLoop]

/-- The loop of `ForEachAddOn` makes no call for an entry that is garbage, nor below it. -/
theorem forEachAddOnLoop_calls_dead (Path : ObjectPath) (Index : Nat) (AddOn : UFlowNodeBase)
    (Rest : List (Option UFlowNodeBase)) (hDead : AddOn.Valid = false) :
    ForEachAddOnLoop_Calls Path Index (some AddOn :: Rest) =
      ForEachAddOnLoop_Calls Path (Index + 1) Rest := by
  simp [ForEachAddOnLoop_Calls, ForEachAddOnLoop, hDead]

/-- The loop of `ForEachAddOn` calls the function on a live entry, then below it, then goes
on with the entries after it. -/
theorem forEachAddOnLoop_calls_live (Path : ObjectPath) (Index : Nat) (AddOn : UFlowNodeBase)
    (Rest : List (Option UFlowNodeBase)) (hLive : AddOn.Valid = true) :
    ForEachAddOnLoop_Calls Path Index (some AddOn :: Rest) =
      (Path ++ [Index], AddOn) ::
        (ForEachAddOn_Calls (Path ++ [Index]) AddOn ++
          ForEachAddOnLoop_Calls Path (Index + 1) Rest) := by
  rw [ForEachAddOnLoop_Calls, ForEachAddOnLoop]
  simp only [hLive, if_true]
  rw [forEachAddOnLoop_record, forEachAddOn_record]
  simp [RecordCall]

mutual
/-- `ForEachAddOn` applies the function to its calls, one after the other. -/
theorem forEachAddOn_eq_foldl : ∀ (this : UFlowNodeBase) {σ : Type}
    (Function : ObjectPath → UFlowNodeBase → σ → σ) (Path : ObjectPath) (State : σ),
    ForEachAddOn Function Path this State =
      (ForEachAddOn_Calls Path this).foldl (fun s c => Function c.1 c.2 s) State
  | .mk p a, σ, Function, Path, State => by
    rw [forEachAddOn_calls_eq, ForEachAddOn, UFlowNodeBase.AddOns]
    exact forEachAddOnLoop_eq_foldl a Function Path 0 State
/-- The loop of `ForEachAddOn` applies the function to its calls, one after the other. -/
theorem forEachAddOnLoop_eq_foldl : ∀ (AddOns : List (Option UFlowNodeBase)) {σ : Type}
    (Function : ObjectPath → UFlowNodeBase → σ → σ) (Path : ObjectPath) (Index : Nat)
    (State : σ),
    ForEachAddOnLoop Function Path Index AddOns State =
      (ForEachAddOnLoop_Calls Path Index AddOns).foldl (fun s c => Function c.1 c.2 s) State
  | [], σ, Function, Path, Index, State => by simp [ForEachAddOnLoop_Calls, ForEachAddOnLoop]
  | none :: Rest, σ, Function, Path, Index, State => by
    rw [forEachAddOnLoop_calls_none, ForEachAddOnLoop]
    exact forEachAddOnLoop_eq_foldl Rest Function Path (Index + 1) State
  | some AddOn :: Rest, σ, Function, Path, Index, State => by
    rw [ForEachAddOnLoop]
    cases hV : AddOn.Valid with
    | true =>
      rw [forEachAddOnLoop_calls_live Path Index AddOn Rest hV]
      simp only [if_true]
      rw [forEachAddOnLoop_eq_foldl Rest Function Path (Index + 1) _,
        forEachAddOn_eq_foldl AddOn Function (Path ++ [Index]) _]
      simp [List.foldl_append]
    | false =>
      rw [forEachAddOnLoop_calls_dead Path Index AddOn Rest hV]
      simp only [Bool.false_eq_true, if_false]
      exact forEachAddOnLoop_eq_foldl Rest Function Path (Index + 1) State
end

/-- Nothing is reached from a null entry. -/
theorem liveAddOnIn_none (Rest : List (Option UFlowNodeBase)) (Below : ObjectPath) :
    LiveAddOnIn (none :: Rest) 0 Below = none := by
  cases Below <;> simp [LiveAddOnIn]

/-- Nothing is reached from an entry that is garbage. -/
theorem liveAddOnIn_dead (AddOn : UFlowNodeBase) (Rest : List (Option UFlowNodeBase))
    (Below : ObjectPath) (hDead : AddOn.Valid = false) :
    LiveAddOnIn (some AddOn :: Rest) 0 Below = none := by
  cases Below <;> simp [LiveAddOnIn, hDead]

/-- A live entry is reached by no further step. -/
theorem liveAddOnIn_live_nil (AddOn : UFlowNodeBase) (Rest : List (Option UFlowNodeBase))
    (hLive : AddOn.Valid = true) : LiveAddOnIn (some AddOn :: Rest) 0 [] = some AddOn := by
  simp [LiveAddOnIn, hLive]

/-- What is reached from a live entry by further steps is what is reached below that add-on. -/
theorem liveAddOnIn_live_cons (AddOn : UFlowNodeBase) (Rest : List (Option UFlowNodeBase))
    (Next : Nat) (Below : ObjectPath) (hLive : AddOn.Valid = true) :
    LiveAddOnIn (some AddOn :: Rest) 0 (Next :: Below) = LiveAddOnAt AddOn (Next :: Below) := by
  simp [LiveAddOnIn, LiveAddOnAt, hLive]

/-- The add-on reached from a later entry of an array does not depend on the first entry. -/
theorem liveAddOnIn_succ (Entry : Option UFlowNodeBase)
    (Rest : List (Option UFlowNodeBase)) (Index : Nat) (Below : ObjectPath) :
    LiveAddOnIn (Entry :: Rest) (Index + 1) Below = LiveAddOnIn Rest Index Below := by
  cases Below <;> simp [LiveAddOnIn]

/-- The places from a later entry on, counted from the entry before. -/
theorem path_succ (Path : ObjectPath) (Index k : Nat) (q : ObjectPath) :
    Path ++ (Index + 1 + k) :: q = Path ++ (Index + (k + 1)) :: q := by
  congr 2
  omega

mutual
/-- The calls of `ForEachAddOn` on a unit are the live add-ons below it, each at its place. -/
theorem forEachAddOn_calls_mem : ∀ (this : UFlowNodeBase) (Path p : ObjectPath)
    (a : UFlowNodeBase),
    (p, a) ∈ ForEachAddOn_Calls Path this ↔
      ∃ q, p = Path ++ q ∧ LiveAddOnAt this q = some a
  | .mk _ A, Path, p, a => by
    rw [forEachAddOn_calls_eq, UFlowNodeBase.AddOns, forEachAddOnLoop_calls_mem A Path 0 p a]
    constructor
    · rintro ⟨k, q, hp, hL⟩
      refine ⟨k :: q, ?_, ?_⟩
      · rw [hp, Nat.zero_add]
      · rw [LiveAddOnAt, UFlowNodeBase.AddOns]
        exact hL
    · rintro ⟨q, hp, hL⟩
      cases q with
      | nil => simp [LiveAddOnAt] at hL
      | cons k q =>
        refine ⟨k, q, ?_, ?_⟩
        · rw [hp, Nat.zero_add]
        · rw [LiveAddOnAt, UFlowNodeBase.AddOns] at hL
          exact hL
/-- The calls of the loop of `ForEachAddOn` are the live add-ons reached from the remaining
entries, each at its place. -/
theorem forEachAddOnLoop_calls_mem : ∀ (AddOns : List (Option UFlowNodeBase))
    (Path : ObjectPath) (Index : Nat) (p : ObjectPath) (a : UFlowNodeBase),
    (p, a) ∈ ForEachAddOnLoop_Calls Path Index AddOns ↔
      ∃ k q, p = Path ++ (Index + k) :: q ∧ LiveAddOnIn AddOns k q = some a
  | [], Path, Index, p, a => by
    simp only [ForEachAddOnLoop_Calls, ForEachAddOnLoop, List.not_mem_nil, false_iff, not_exists,
      not_and]
    intro k q _
    cases q <;> simp [LiveAddOnIn]
  | none :: Rest, Path, Index, p, a => by
    rw [forEachAddOnLoop_calls_none, forEachAddOnLoop_calls_mem Rest Path (Index + 1) p a]
    constructor
    · rintro ⟨k, q, hp, hL⟩
      exact ⟨k + 1, q, by rw [hp, path_succ], by rw [liveAddOnIn_succ]; exact hL⟩
    · rintro ⟨k, q, hp, hL⟩
      cases k with
      | zero => simp [liveAddOnIn_none] at hL
      | succ k =>
        rw [liveAddOnIn_succ] at hL
        exact ⟨k, q, by rw [hp, path_succ], hL⟩
  | some AddOn :: Rest, Path, Index, p, a => by
    have hRest := forEachAddOnLoop_calls_mem Rest Path (Index + 1) p a
    have hSub := forEachAddOn_calls_mem AddOn (Path ++ [Index]) p a
    cases hV : AddOn.Valid with
    | false =>
      rw [forEachAddOnLoop_calls_dead Path Index AddOn Rest hV, hRest]
      constructor
      · rintro ⟨k, q, hp, hL⟩
        exact ⟨k + 1, q, by rw [hp, path_succ], by rw [liveAddOnIn_succ]; exact hL⟩
      · rintro ⟨k, q, hp, hL⟩
        cases k with
        | zero => simp [liveAddOnIn_dead AddOn Rest q hV] at hL
        | succ k =>
          rw [liveAddOnIn_succ] at hL
          exact ⟨k, q, by rw [hp, path_succ], hL⟩
    | true =>
      rw [forEachAddOnLoop_calls_live Path Index AddOn Rest hV]
      simp only [List.mem_cons, List.mem_append, Prod.mk.injEq]
      rw [hRest, hSub]
      constructor
      · rintro (⟨hp, ha⟩ | ⟨q, hp, hL⟩ | ⟨k, q, hp, hL⟩)
        · refine ⟨0, [], ?_, ?_⟩
          · rw [hp, Nat.add_zero]
          · rw [liveAddOnIn_live_nil AddOn Rest hV, ha]
        · cases q with
          | nil => simp [LiveAddOnAt] at hL
          | cons n q =>
            refine ⟨0, n :: q, ?_, ?_⟩
            · rw [hp, Nat.add_zero, List.append_assoc]
              rfl
            · rw [liveAddOnIn_live_cons AddOn Rest n q hV]
              exact hL
        · exact ⟨k + 1, q, by rw [hp, path_succ], by rw [liveAddOnIn_succ]; exact hL⟩
      · rintro ⟨k, q, hp, hL⟩
        cases k with
        | zero =>
          rw [Nat.add_zero] at hp
          cases q with
          | nil =>
            rw [liveAddOnIn_live_nil AddOn Rest hV] at hL
            exact Or.inl ⟨hp, (Option.some.inj hL).symm⟩
          | cons n q =>
            rw [liveAddOnIn_live_cons AddOn Rest n q hV] at hL
            refine Or.inr (Or.inl ⟨n :: q, ?_, hL⟩)
            rw [hp, List.append_assoc]
            rfl
        | succ k =>
          rw [liveAddOnIn_succ] at hL
          exact Or.inr (Or.inr ⟨k, q, by rw [hp, path_succ], hL⟩)
end

/-- A place comes before the places below it and before the places at and below the later
entries of the same array, in the order of the dictionary. -/
theorem lex_path (Path : ObjectPath) (i j : Nat) (q r : ObjectPath)
    (h : (i = j ∧ q = [] ∧ r ≠ []) ∨ i < j) :
    List.Lex (fun x1 x2 : Nat => x1 < x2) (Path ++ i :: q) (Path ++ j :: r) := by
  apply List.Lex.append_left
  rcases h with ⟨rfl, rfl, hr⟩ | h
  · obtain ⟨n, r, rfl⟩ := List.exists_cons_of_ne_nil hr
    exact List.Lex.cons List.Lex.nil
  · exact List.Lex.rel h

mutual
/-- The calls of `ForEachAddOn` on a unit come in the order of their places. -/
theorem forEachAddOn_calls_sorted : ∀ (this : UFlowNodeBase) (Path : ObjectPath),
    (ForEachAddOn_Calls Path this).Pairwise
      (fun c d => List.Lex (fun x1 x2 : Nat => x1 < x2) c.1 d.1)
  | .mk _ A, Path => by
    rw [forEachAddOn_calls_eq, UFlowNodeBase.AddOns]
    exact forEachAddOnLoop_calls_sorted A Path 0
/-- The calls of the loop of `ForEachAddOn` come in the order of their places. -/
theorem forEachAddOnLoop_calls_sorted : ∀ (AddOns : List (Option UFlowNodeBase))
    (Path : ObjectPath) (Index : Nat),
    (ForEachAddOnLoop_Calls Path Index AddOns).Pairwise
      (fun c d => List.Lex (fun x1 x2 : Nat => x1 < x2) c.1 d.1)
  | [], Path, Index => by simp [ForEachAddOnLoop_Calls, ForEachAddOnLoop]
  | none :: Rest, Path, Index => by
    rw [forEachAddOnLoop_calls_none]
    exact forEachAddOnLoop_calls_sorted Rest Path (Index + 1)
  | some AddOn :: Rest, Path, Index => by
    have hRest := forEachAddOnLoop_calls_sorted Rest Path (Index + 1)
    have hSub := forEachAddOn_calls_sorted AddOn (Path ++ [Index])
    cases hV : AddOn.Valid with
    | false =>
      rw [forEachAddOnLoop_calls_dead Path Index AddOn Rest hV]
      exact hRest
    | true =>
      rw [forEachAddOnLoop_calls_live Path Index AddOn Rest hV]
      have hBelow : ∀ c ∈ ForEachAddOn_Calls (Path ++ [Index]) AddOn,
          ∃ n q, c.1 = Path ++ Index :: n :: q := by
        intro c hc
        obtain ⟨q, hp, hL⟩ := (forEachAddOn_calls_mem AddOn (Path ++ [Index]) c.1 c.2).mp hc
        cases q with
        | nil => simp [LiveAddOnAt] at hL
        | cons n q =>
          refine ⟨n, q, ?_⟩
          rw [hp, List.append_assoc]
          rfl
      have hLater : ∀ d ∈ ForEachAddOnLoop_Calls Path (Index + 1) Rest,
          ∃ k q, d.1 = Path ++ (Index + 1 + k) :: q := by
        intro d hd
        obtain ⟨k, q, hp, _⟩ := (forEachAddOnLoop_calls_mem Rest Path (Index + 1) d.1 d.2).mp hd
        exact ⟨k, q, hp⟩
      rw [List.pairwise_cons, List.pairwise_append]
      refine ⟨?_, hSub, hRest, ?_⟩
      · intro d hd
        rcases List.mem_append.mp hd with hd | hd
        · obtain ⟨n, q, hq⟩ := hBelow d hd
          rw [hq]
          exact lex_path Path Index Index [] (n :: q) (Or.inl ⟨rfl, rfl, by simp⟩)
        · obtain ⟨k, q, hq⟩ := hLater d hd
          rw [hq]
          exact lex_path Path Index (Index + 1 + k) [] q (Or.inr (by omega))
      · intro c hc d hd
        obtain ⟨n, q, hq⟩ := hBelow c hc
        obtain ⟨k, r, hr⟩ := hLater d hd
        rw [hq, hr]
        exact lex_path Path Index (Index + 1 + k) (n :: q) r (Or.inr (by omega))
end

/-- The order of the dictionary on places is strict. -/
theorem lex_path_irrefl (p : ObjectPath) : ¬ List.Lex (fun x1 x2 : Nat => x1 < x2) p p := by
  induction p with
  | nil => intro h; cases h
  | cons n p ih =>
    intro h
    cases h with
    | cons h => exact ih h
    | rel h => exact Nat.lt_irrefl _ h

/-- C23: `ForEachAddOn` and `ForEachAddOnConst` apply the given function, one call after the
other, to the sequence of calls `ForEachAddOn_Calls`, whatever the function. An add-on at a
place below the unit is in that sequence iff it is live and every add-on between it and the
unit is live, so a null or garbage entry is left out together with everything below it while
the entries after it are still visited. No place occurs twice, and the calls are in the order
of their places (an add-on before the add-ons below it, then the later entries of the same
array), which is depth-first pre-order in declaration order. -/
theorem C23_for_each_addon_visits_live_addons_in_preorder (this : UFlowNodeBase)
    (Path : ObjectPath) :
    (∀ (σ : Type) (Function : ObjectPath → UFlowNodeBase → σ → σ) (State : σ),
      ForEachAddOn Function Path this State =
        (ForEachAddOn_Calls Path this).foldl (fun s c => Function c.1 c.2 s) State ∧
      ForEachAddOnConst Function Path this State =
        (ForEachAddOn_Calls Path this).foldl (fun s c => Function c.1 c.2 s) State) ∧
    (∀ (p : ObjectPath) (a : UFlowNodeBase),
      (p, a) ∈ ForEachAddOn_Calls Path this ↔
        ∃ q, q ≠ [] ∧ p = Path ++ q ∧ LiveAddOnAt this q = some a) ∧
    ((ForEachAddOn_Calls Path this).map Prod.fst).Nodup ∧
    (ForEachAddOn_Calls Path this).Pairwise
      (fun c d => List.Lex (fun x1 x2 : Nat => x1 < x2) c.1 d.1) := by
  refine ⟨?_, ?_, ?_, forEachAddOn_calls_sorted this Path⟩
  · intro σ Function State
    exact ⟨forEachAddOn_eq_foldl this Function Path State,
      forEachAddOn_eq_foldl this Function Path State⟩
  · intro p a
    rw [forEachAddOn_calls_mem]
    constructor
    · rintro ⟨q, hp, hL⟩
      refine ⟨q, ?_, hp, hL⟩
      rintro rfl
      simp [LiveAddOnAt] at hL
    · rintro ⟨q, _, hp, hL⟩
      exact ⟨q, hp, hL⟩
  · rw [List.Nodup, List.pairwise_map]
    refine List.Pairwise.imp ?_ (forEachAddOn_calls_sorted this Path)
    intro c d hLex hEq
    rw [hEq] at hLex
    exact lex_path_irrefl _ hLex

/-- Witness of C23: the array of `NodeWithGaps` holds `AddOnOuter` (which carries `AddOnFoo`),
a null pointer, a garbage add-on that carries an add-on, and `AddOnPlain`. The function is
called on the first entry, on the add-on below it, and on the last entry, in that order; a
function that counts its calls ends at three. -/
theorem C23_for_each_addon_visits_live_addons_in_preorder_witness :
    (ForEachAddOn_Calls [] NodeWithGaps).map (fun c => (c.1, c.2.Class)) =
      [([0], "FlowNodeAddOn_Outer"), ([0, 0], "FlowNodeAddOn_Foo"),
        ([3], "FlowNodeAddOn_Plain")] ∧
    ForEachAddOn (fun _ _ (Count : Nat) => Count + 1) [] NodeWithGaps 0 = 3 ∧
    ((ForEachAddOn_Calls [] NodeWithGaps).map Prod.fst).Nodup :=
  ⟨by decide, by decide,
    (C23_for_each_addon_visits_live_addons_in_preorder NodeWithGaps []).2.2.1⟩

mutual
/-- `ForEachAddOnForClass` is `ForEachAddOn` with a function that does nothing on an add-on
that is neither of the class nor implements the interface. -/
theorem forEachAddOnForClass_eq : ∀ (this : UFlowNodeBase) {σ : Type}
    (InterfaceOrClass : UClass) (Function : ObjectPath → UFlowNodeBase → σ → σ)
    (Path : ObjectPath) (State : σ),
    ForEachAddOnForClass InterfaceOrClass Function Path this State =
      ForEachAddOn (fun p a s =>
        if MatchesInterfaceOrClass InterfaceOrClass a then Function p a s else s) Path this State
  | .mk _ A, σ, C, Function, Path, State => by
    rw [ForEachAddOnForClass, ForEachAddOn]
    exact forEachAddOnForClassLoop_eq A C Function Path 0 State
/-- The loop of `ForEachAddOnForClass` is the loop of `ForEachAddOn` with a function that does
nothing on an add-on that is neither of the class nor implements the interface. -/
theorem forEachAddOnForClassLoop_eq : ∀ (AddOns : List (Option UFlowNodeBase)) {σ : Type}
    (InterfaceOrClass : UClass) (Function : ObjectPath → UFlowNodeBase → σ → σ)
    (Path : ObjectPath) (Index : Nat) (State : σ),
    ForEachAddOnForClassLoop InterfaceOrClass Function Path Index AddOns State =
      ForEachAddOnLoop (fun p a s =>
        if MatchesInterfaceOrClass InterfaceOrClass a then Function p a s else s)
        Path Index AddOns State
  | [], σ, C, Function, Path, Index, State => by
    rw [ForEachAddOnForClassLoop, ForEachAddOnLoop]
  | none :: Rest, σ, C, Function, Path, Index, State => by
    rw [ForEachAddOnForClassLoop, ForEachAddOnLoop]
    exact forEachAddOnForClassLoop_eq Rest C Function Path (Index + 1) State
  | some AddOn :: Rest, σ, C, Function, Path, Index, State => by
    rw [ForEachAddOnForClassLoop, ForEachAddOnLoop]
    cases hV : AddOn.Valid with
    | true =>
      simp only [if_true]
      rw [forEachAddOnForClassLoop_eq Rest C Function Path (Index + 1) _,
        forEachAddOnForClass_eq AddOn C Function (Path ++ [Index]) _]
      rfl
    | false =>
      simp only [Bool.false_eq_true, if_false]
      exact forEachAddOnForClassLoop_eq Rest C Function Path (Index + 1) State
end

/-- Folding a function that acts on the matching elements only is folding over the matching
elements. -/
theorem foldl_if_eq_foldl_filter {α σ : Type} (P : α → Bool) (F : σ → α → σ) (L : List α)
    (State : σ) :
    L.foldl (fun s c => if P c then F s c else s) State = (L.filter P).foldl F State := by
  induction L generalizing State with
  | nil => rfl
  | cons c L ih =>
    rw [List.foldl_cons, List.filter_cons]
    split_ifs
    · rw [List.foldl_cons, ih]
    · rw [ih]

/-- `ForEachAddOnForClass` applies the function to the matching calls of `ForEachAddOn`. -/
theorem forEachAddOnForClass_eq_foldl (this : UFlowNodeBase) {σ : Type}
    (InterfaceOrClass : UClass) (Function : ObjectPath → UFlowNodeBase → σ → σ)
    (Path : ObjectPath) (State : σ) :
    ForEachAddOnForClass InterfaceOrClass Function Path this State =
      ((ForEachAddOn_Calls Path this).filter
        fun c => MatchesInterfaceOrClass InterfaceOrClass c.2).foldl
        (fun s c => Function c.1 c.2 s) State := by
  rw [forEachAddOnForClass_eq, forEachAddOn_eq_foldl]
  exact foldl_if_eq_foldl_filter
    (fun c : ObjectPath × UFlowNodeBase => MatchesInterfaceOrClass InterfaceOrClass c.2)
    (fun s c => Function c.1 c.2 s) _ State

/-- The calls of `ForEachAddOnForClass` are the matching calls of `ForEachAddOn`. -/
theorem forEachAddOnForClass_calls (this : UFlowNodeBase) (InterfaceOrClass : UClass)
    (Path : ObjectPath) :
    ForEachAddOnForClass_Calls InterfaceOrClass Path this =
      (ForEachAddOn_Calls Path this).filter
        fun c => MatchesInterfaceOrClass InterfaceOrClass c.2 := by
  rw [ForEachAddOnForClass_Calls, forEachAddOnForClass_eq_foldl, foldl_recordCall,
    List.nil_append]

/-- C27: for every unit, class or interface `C` and function, the sequence of add-ons on which
`ForEachAddOnForClass` calls the function is the sequence of calls of `ForEachAddOn` filtered
to the add-ons that are instances of `C` or whose class implements `C`, and the function is
applied to that sequence one call after the other. In particular every live add-on below the
unit that matches is called, whether or not the add-ons above it match. -/
theorem C27_for_each_addon_for_class_is_filtered_traversal (this : UFlowNodeBase)
    (InterfaceOrClass : UClass) (Path : ObjectPath) :
    ForEachAddOnForClass_Calls InterfaceOrClass Path this =
      (ForEachAddOn_Calls Path this).filter
        (fun c => c.2.IsA InterfaceOrClass || c.2.GetClass.ImplementsInterface InterfaceOrClass) ∧
    (∀ (σ : Type) (Function : ObjectPath → UFlowNodeBase → σ → σ) (State : σ),
      ForEachAddOnForClass InterfaceOrClass Function Path this State =
        ((ForEachAddOn_Calls Path this).filter
          (fun c =>
            c.2.IsA InterfaceOrClass || c.2.GetClass.ImplementsInterface InterfaceOrClass)).foldl
          (fun s c => Function c.1 c.2 s) State) ∧
    (∀ (q : ObjectPath) (a : UFlowNodeBase), LiveAddOnAt this q = some a →
      (a.IsA InterfaceOrClass || a.GetClass.ImplementsInterface InterfaceOrClass) = true →
      (Path ++ q, a) ∈ ForEachAddOnForClass_Calls InterfaceOrClass Path this) := by
  refine ⟨forEachAddOnForClass_calls this InterfaceOrClass Path, ?_, ?_⟩
  · intro σ Function State
    exact forEachAddOnForClass_eq_foldl this InterfaceOrClass Function Path State
  · intro q a hL hM
    rw [forEachAddOnForClass_calls, List.mem_filter]
    exact ⟨(forEachAddOn_calls_mem this Path (Path ++ q) a).mpr ⟨q, rfl, hL⟩, hM⟩

/-- Witness of C27: in `NodeTwo` the add-on `AddOnFoo` sits below `AddOnOuter`, which is not of
the class of `AddOnFoo`. `ForEachAddOnForClass` for that class calls the function on
`AddOnFoo` and on nothing else. -/
theorem C27_for_each_addon_for_class_is_filtered_traversal_witness :
    LiveAddOnAt NodeTwo [0] = some AddOnOuter ∧
    (AddOnOuter.IsA AddOnFooClass || AddOnOuter.GetClass.ImplementsInterface AddOnFooClass) =
      false ∧
    LiveAddOnAt NodeTwo [0, 0] = some AddOnFoo ∧
    (ForEachAddOnForClass_Calls AddOnFooClass [] NodeTwo).map (fun c => (c.1, c.2.Class)) =
      [([0, 0], "FlowNodeAddOn_Foo")] ∧
    ([] ++ [0, 0], AddOnFoo) ∈ ForEachAddOnForClass_Calls AddOnFooClass [] NodeTwo :=
  ⟨rfl, by decide, rfl, by decide,
    (C27_for_each_addon_for_class_is_filtered_traversal NodeTwo AddOnFooClass []).2.2 [0, 0]
      AddOnFoo rfl (by decide)⟩

/-! ### Connections between pins -/

open ECanCreateConnectionResponse EEdGraphPinDirection

/-- C24: for two pins on two distinct flow graph nodes, neither pin orphaned, one an input and
the other an output, `CanCreateConnection` does not disallow: it answers `MAKE` when the
output pin has no link, and otherwise `BREAK_OTHERS_A` when the output pin is the first
argument and `BREAK_OTHERS_B` when it is the second. Carrying the answer out leaves the output
pin with the new link only and the input pin with its old links and the new one. Pins whose
owning nodes are the same, an orphaned pin, and directions that are not one input and one
output are disallowed. -/
theorem C24_connection_breaks_output_side_only (PinA PinB : UEdGraphPin) :
    (∀ NodeA NodeB : UEdGraphNode,
      PinA.OwningNode = some NodeA → PinB.OwningNode = some NodeB →
      NodeA.IsFlowGraphNode = true → NodeB.IsFlowGraphNode = true → NodeA ≠ NodeB →
      PinA.bOrphanedPin = false → PinB.bOrphanedPin = false →
      ((PinA.Direction = EGPD_Input ∧ PinB.Direction = EGPD_Output) ∨
        (PinA.Direction = EGPD_Output ∧ PinB.Direction = EGPD_Input)) →
      (CanCreateConnection PinA PinB).Response ≠ CONNECT_RESPONSE_DISALLOW ∧
      ((if PinA.Direction = EGPD_Output then PinA else PinB).LinkedTo = [] →
        (CanCreateConnection PinA PinB).Response = CONNECT_RESPONSE_MAKE) ∧
      ((if PinA.Direction = EGPD_Output then PinA else PinB).LinkedTo ≠ [] →
        (CanCreateConnection PinA PinB).Response =
          if PinA.Direction = EGPD_Output then CONNECT_RESPONSE_BREAK_OTHERS_A
          else CONNECT_RESPONSE_BREAK_OTHERS_B) ∧
      ∃ AfterA AfterB, UEdGraphSchema_TryCreateConnection PinA PinB = some (AfterA, AfterB) ∧
        (if PinA.Direction = EGPD_Output then AfterA else AfterB).LinkedTo =
          [(if PinA.Direction = EGPD_Output then PinB else PinA).PinId] ∧
        (if PinA.Direction = EGPD_Output then AfterB else AfterA).LinkedTo =
          (if PinA.Direction = EGPD_Output then PinB else PinA).LinkedTo ++
            [(if PinA.Direction = EGPD_Output then PinA else PinB).PinId]) ∧
    ((PinA.OwningNode = PinB.OwningNode ∨ PinA.bOrphanedPin = true ∨ PinB.bOrphanedPin = true ∨
        ¬ ((PinA.Direction = EGPD_Input ∧ PinB.Direction = EGPD_Output) ∨
          (PinA.Direction = EGPD_Output ∧ PinB.Direction = EGPD_Input))) →
      (CanCreateConnection PinA PinB).Response = CONNECT_RESPONSE_DISALLOW) := by
  constructor
  · intro NodeA NodeB hA hB hFA hFB hNe hOA hOB hDir
    have hCastA : Cast_UFlowGraphNode_OfEdGraphNode PinA.OwningNode = some NodeA := by
      simp [hA, Cast_UFlowGraphNode_OfEdGraphNode, hFA]
    have hCastB : Cast_UFlowGraphNode_OfEdGraphNode PinB.OwningNode = some NodeB := by
      simp [hB, Cast_UFlowGraphNode_OfEdGraphNode, hFB]
    have hNodes : PinA.OwningNode ≠ PinB.OwningNode := by
      rw [hA, hB]
      intro h
      exact hNe (Option.some.inj h)
    have hPins : PinB ≠ PinA := by
      intro h
      exact hNodes (by rw [h])
    rcases hDir with ⟨hDA, hDB⟩ | ⟨hDA, hDB⟩
    · have hCat : CategorizePinsByDirection PinA PinB = some (PinA, PinB) := by
        simp [CategorizePinsByDirection, hDA, hDB]
      have hIf : (EGPD_Input = EGPD_Output) = False := by simp
      simp only [hDA, hIf, if_false]
      cases hL : PinB.LinkedTo with
      | nil =>
        have hResp : CanCreateConnection PinA PinB = ⟨CONNECT_RESPONSE_MAKE, ""⟩ := by
          simp [CanCreateConnection, hCastA, hCastB, hNodes, hOA, hOB, hCat, hL]
        refine ⟨by simp [hResp], fun _ => by simp [hResp], fun h => absurd rfl h, ?_⟩
        refine ⟨(MakeLinkTo PinA PinB).1, (MakeLinkTo PinA PinB).2, ?_, ?_, ?_⟩
        · simp [UEdGraphSchema_TryCreateConnection, hResp]
        · simp [MakeLinkTo, BreakAllPinLinks, hL]
        · simp [MakeLinkTo, BreakAllPinLinks]
      | cons Linked Others =>
        have hResp : CanCreateConnection PinA PinB =
            ⟨CONNECT_RESPONSE_BREAK_OTHERS_B, "Replace existing connections"⟩ := by
          simp [CanCreateConnection, hCastA, hCastB, hNodes, hOA, hOB, hCat, hL, hPins]
        refine ⟨by simp [hResp], fun h => by simp at h, fun _ => by simp [hResp], ?_⟩
        refine ⟨(MakeLinkTo PinA (BreakAllPinLinks PinB)).1, (MakeLinkTo PinA (BreakAllPinLinks PinB)).2, ?_, ?_, ?_⟩
        · simp [UEdGraphSchema_TryCreateConnection, hResp]
        · simp [MakeLinkTo, BreakAllPinLinks, hL]
        · simp [MakeLinkTo, BreakAllPinLinks]
    · have hCat : CategorizePinsByDirection PinA PinB = some (PinB, PinA) := by
        simp [CategorizePinsByDirection, hDA, hDB]
      simp only [hDA, if_true]
      cases hL : PinA.LinkedTo with
      | nil =>
        have hResp : CanCreateConnection PinA PinB = ⟨CONNECT_RESPONSE_MAKE, ""⟩ := by
          simp [CanCreateConnection, hCastA, hCastB, hNodes, hOA, hOB, hCat, hL]
        refine ⟨by simp [hResp], fun _ => by simp [hResp], fun h => absurd rfl h, ?_⟩
        refine ⟨(MakeLinkTo PinA PinB).1, (MakeLinkTo PinA PinB).2, ?_, ?_, ?_⟩
        · simp [UEdGraphSchema_TryCreateConnection, hResp]
        · simp [MakeLinkTo, BreakAllPinLinks, hL]
        · simp [MakeLinkTo, BreakAllPinLinks]
      | cons Linked Others =>
        have hResp : CanCreateConnection PinA PinB =
            ⟨CONNECT_RESPONSE_BREAK_OTHERS_A, "Replace existing connections"⟩ := by
          simp [CanCreateConnection, hCastA, hCastB, hNodes, hOA, hOB, hCat, hL]
        refine ⟨by simp [hResp], fun h => by simp at h, fun _ => by simp [hResp], ?_⟩
        refine ⟨(MakeLinkTo (BreakAllPinLinks PinA) PinB).1, (MakeLinkTo (BreakAllPinLinks PinA) PinB).2, ?_, ?_, ?_⟩
        · simp [UEdGraphSchema_TryCreateConnection, hResp]
        · simp [MakeLinkTo, BreakAllPinLinks, hL]
        · simp [MakeLinkTo, BreakAllPinLinks]
  · intro h
    unfold CanCreateConnection
    simp only
    split_ifs with h1 h2 h3
    · rfl
    · rfl
    · rfl
    · rcases h with h | h | h | h
      · exact absurd h h2
      · simp [h] at h3
      · simp [h] at h3
      · have hCat : CategorizePinsByDirection PinA PinB = none := by
          unfold CategorizePinsByDirection
          split_ifs with c1 c2
          · exact absurd (Or.inl c1) h
          · exact absurd (Or.inr ⟨c2.2, c2.1⟩) h
          · rfl
        simp [hCat]

/-- Witness of C24: the output pin `PinOutLinked` has a link and the input pin `PinInLinked`
has two. Dragging from the output to the input breaks the links of the first argument, dragging
from the input to the output those of the second; either way the output pin ends with the new
link only and the input pin keeps its two links. -/
theorem C24_connection_breaks_output_side_only_witness :
    (CanCreateConnection PinOutLinked PinInLinked).Response = CONNECT_RESPONSE_BREAK_OTHERS_A ∧
    (CanCreateConnection PinInLinked PinOutLinked).Response = CONNECT_RESPONSE_BREAK_OTHERS_B ∧
    UEdGraphSchema_TryCreateConnection PinInLinked PinOutLinked =
      some ({ PinInLinked with LinkedTo := [8, 9, 1] }, { PinOutLinked with LinkedTo := [2] }) ∧
    ((CanCreateConnection PinOutLinked PinInLinked).Response ≠ CONNECT_RESPONSE_DISALLOW ∧
      ((if PinOutLinked.Direction = EGPD_Output then PinOutLinked else PinInLinked).LinkedTo =
          [] →
        (CanCreateConnection PinOutLinked PinInLinked).Response = CONNECT_RESPONSE_MAKE) ∧
      ((if PinOutLinked.Direction = EGPD_Output then PinOutLinked else PinInLinked).LinkedTo ≠
          [] →
        (CanCreateConnection PinOutLinked PinInLinked).Response =
          if PinOutLinked.Direction = EGPD_Output then CONNECT_RESPONSE_BREAK_OTHERS_A
          else CONNECT_RESPONSE_BREAK_OTHERS_B) ∧
      ∃ AfterA AfterB,
        UEdGraphSchema_TryCreateConnection PinOutLinked PinInLinked = some (AfterA, AfterB) ∧
        (if PinOutLinked.Direction = EGPD_Output then AfterA else AfterB).LinkedTo =
          [(if PinOutLinked.Direction = EGPD_Output then PinInLinked else PinOutLinked).PinId] ∧
        (if PinOutLinked.Direction = EGPD_Output then AfterB else AfterA).LinkedTo =
          (if PinOutLinked.Direction = EGPD_Output then PinInLinked
            else PinOutLinked).LinkedTo ++
            [(if PinOutLinked.Direction = EGPD_Output then PinOutLinked
              else PinInLinked).PinId]) ∧
    (CanCreateConnection PinOutLinked PinOutLinked).Response = CONNECT_RESPONSE_DISALLOW :=
  ⟨by decide, by decide, by decide,
    (C24_connection_breaks_output_side_only PinOutLinked PinInLinked).1 GraphNodeOne
      GraphNodeTwo rfl rfl rfl rfl (by decide) rfl rfl (Or.inr ⟨rfl, rfl⟩),
    (C24_connection_breaks_output_side_only PinOutLinked PinOutLinked).2 (Or.inl rfl)⟩

/-! ### Graph node classes assigned to flow node classes -/

/-- In a map without a repeated key, `FindRef` gives the value that is registered for a key. -/
theorem tmap_findRef_of_mem : ∀ (Map : List (FName × Option FName)) (Key : FName)
    (Value : Option FName), (Map.map Prod.fst).Nodup → (Key, Value) ∈ Map →
    TMap_FindRef Map Key = Value
  | [], _, _, _, h => by cases h
  | (K, V) :: Rest, Key, Value, hN, h => by
    rw [List.map_cons, List.nodup_cons] at hN
    by_cases hK : K = Key
    · subst hK
      rcases List.mem_cons.mp h with h | h
      · cases h
        simp [TMap_FindRef]
      · exact absurd (List.mem_map_of_mem Prod.fst h) hN.1
    · rcases List.mem_cons.mp h with h | h
      · cases h
        exact absurd rfl hK
      · have ih := tmap_findRef_of_mem Rest Key Value hN.2 h
        have hb : (K == Key) = false := by simpa using hK
        simp only [TMap_FindRef] at ih
        simp only [TMap_FindRef, List.find?_cons, hb]
        exact ih

/-- The first loop returns the registered value at once when the class itself is a key. -/
theorem collectParentClasses_of_key (FlowNodeClass : UClass) :
    ∀ (Map : List (FName × Option FName)) (Found : List FName) (Value : Option FName),
    (Map.map Prod.fst).Nodup → (FlowNodeClass.Name, Value) ∈ Map →
    CollectParentClasses FlowNodeClass Map Found = .error Value
  | [], _, _, _, h => by cases h
  | (K, V) :: Rest, Found, Value, hN, h => by
    rw [List.map_cons, List.nodup_cons] at hN
    rw [CollectParentClasses]
    by_cases hK : FlowNodeClass.Name = K
    · rw [if_pos hK]
      rcases List.mem_cons.mp h with h | h
      · cases h
        rfl
      · have hm : FlowNodeClass.Name ∈ Rest.map Prod.fst := List.mem_map_of_mem Prod.fst h
        rw [hK] at hm
        exact absurd hm hN.1
    · rw [if_neg hK]
      rcases List.mem_cons.mp h with h | h
      · cases h
        exact absurd rfl hK
      · split_ifs
        · exact collectParentClasses_of_key FlowNodeClass Rest _ Value hN.2 h
        · exact collectParentClasses_of_key FlowNodeClass Rest _ Value hN.2 h

/-- When the class itself is not a key, the first loop collects the keys that are among its
superclasses, in the order of the map. -/
theorem collectParentClasses_of_not_key (FlowNodeClass : UClass) :
    ∀ (Map : List (FName × Option FName)) (Found : List FName),
    FlowNodeClass.Name ∉ Map.map Prod.fst →
    CollectParentClasses FlowNodeClass Map Found =
      .ok (Found ++ (Map.map Prod.fst).filter fun Key => FlowNodeClass.SuperClasses.contains Key)
  | [], Found, _ => by simp [CollectParentClasses]
  | (K, V) :: Rest, Found, h => by
    rw [List.map_cons, List.mem_cons, not_or] at h
    rw [CollectParentClasses, if_neg h.1]
    have hChild : FlowNodeClass.IsChildOf { Name := K } = FlowNodeClass.SuperClasses.contains K := by
      simp [UClass.IsChildOf, h.1]
    rw [hChild, List.map_cons, List.filter_cons]
    cases hC : FlowNodeClass.SuperClasses.contains K with
    | true =>
      simp only [if_true]
      rw [collectParentClasses_of_not_key FlowNodeClass Rest _ h.2]
      simp
    | false =>
      simp only [Bool.false_eq_true, if_false]
      exact collectParentClasses_of_not_key FlowNodeClass Rest _ h.2

/-- A value that the first loop returns at once is a value of the map. -/
theorem collectParentClasses_error_mem (FlowNodeClass : UClass) :
    ∀ (Map : List (FName × Option FName)) (Found : List FName) (Value : Option FName),
    CollectParentClasses FlowNodeClass Map Found = .error Value →
    ∃ Pair ∈ Map, Pair.2 = Value
  | [], _, _, h => by simp [CollectParentClasses] at h
  | (K, V) :: Rest, Found, Value, h => by
    rw [CollectParentClasses] at h
    split_ifs at h
    · cases h
      exact ⟨(K, V), List.mem_cons_self _ _, rfl⟩
    · obtain ⟨Pair, hMem, hEq⟩ := collectParentClasses_error_mem FlowNodeClass Rest _ Value h
      exact ⟨Pair, List.mem_cons_of_mem _ hMem, hEq⟩
    · obtain ⟨Pair, hMem, hEq⟩ := collectParentClasses_error_mem FlowNodeClass Rest _ Value h
      exact ⟨Pair, List.mem_cons_of_mem _ hMem, hEq⟩

/-- When every registered value is a class, `GetAssignedGraphNodeClass` does not return
null. -/
theorem getAssignedGraphNodeClass_ne_none (Map : List (FName × Option FName))
    (FlowNodeClass : UClass) (hValues : ∀ Pair ∈ Map, Pair.2 ≠ none) :
    GetAssignedGraphNodeClass Map FlowNodeClass ≠ none := by
  unfold GetAssignedGraphNodeClass
  cases hC : CollectParentClasses FlowNodeClass Map [] with
  | error Value =>
    obtain ⟨Pair, hMem, hEq⟩ := collectParentClasses_error_mem FlowNodeClass Map [] Value hC
    simp only
    rw [← hEq]
    exact hValues Pair hMem
  | ok Found =>
    simp only
    split <;> simp

/-- Along a chain on which the class is not above `UFlowNode`, the inner loop counts the steps
up to the class. -/
theorem stepsTillExactMatch_eq_indexOf (ParentClass : FName) :
    ∀ (Chain : List FName), ParentClass ∈ Chain → ParentClass ∉ AboveFlowNode Chain →
    StepsTillExactMatch ParentClass Chain = Chain.indexOf ParentClass
  | [], h, _ => by cases h
  | Local :: Supers, h, hA => by
    rw [StepsTillExactMatch]
    by_cases hL : Local = ParentClass
    · rw [if_neg (fun hc => hc.1 hL), List.indexOf_cons_eq _ hL]
    · have hMem : ParentClass ∈ Supers := by
        rcases List.mem_cons.mp h with h | h
        · exact absurd h.symm hL
        · exact h
      by_cases hF : Local = UFlowNode_StaticClass.Name
      · exfalso
        apply hA
        simp only [AboveFlowNode, List.dropWhile_cons, hF, bne_self_eq_false,
          Bool.false_eq_true, if_false, List.drop_succ_cons, List.drop_zero]
        exact hMem
      · rw [if_pos ⟨hL, hF⟩, List.indexOf_cons_ne _ hL]
        have hA2 : ParentClass ∉ AboveFlowNode Supers := by
          intro hc
          apply hA
          have hne : (Local != UFlowNode_StaticClass.Name) = true := by simpa using hF
          simp only [AboveFlowNode, List.dropWhile_cons, hne, if_true]
          exact hc
        rw [stepsTillExactMatch_eq_indexOf ParentClass Supers hMem hA2]

/-- Once the closest class is the running match, the loop keeps it. -/
theorem closestParentLoop_keep (FlowNodeClass : UClass) (Parent : FName) :
    ∀ (Found : List FName),
    (∀ Other ∈ Found,
      StepsTillExactMatch Parent (FlowNodeClass.Name :: FlowNodeClass.SuperClasses) ≤
        StepsTillExactMatch Other (FlowNodeClass.Name :: FlowNodeClass.SuperClasses)) →
    ClosestParentLoop FlowNodeClass Found
        (StepsTillExactMatch Parent (FlowNodeClass.Name :: FlowNodeClass.SuperClasses),
          some Parent) =
      (StepsTillExactMatch Parent (FlowNodeClass.Name :: FlowNodeClass.SuperClasses),
        some Parent)
  | [], _ => by rw [ClosestParentLoop]
  | Other :: Rest, h => by
    rw [ClosestParentLoop]
    have hO := h Other (List.mem_cons_self _ _)
    simp only
    rw [if_neg (fun hc => by omega)]
    exact closestParentLoop_keep FlowNodeClass Parent Rest
      (fun Q hQ => h Q (List.mem_cons_of_mem _ hQ))

/-- The loop over the found parent classes ends with the class that is the fewest steps away,
when that class is found, no other found class is as close, and it is closer than the bound
the loop starts with. -/
theorem closestParentLoop_eq (FlowNodeClass : UClass) (Parent : FName) :
    ∀ (Found : List FName) (Best : Nat × Option FName), Parent ∈ Found →
    StepsTillExactMatch Parent (FlowNodeClass.Name :: FlowNodeClass.SuperClasses) ≠ 0 →
    StepsTillExactMatch Parent (FlowNodeClass.Name :: FlowNodeClass.SuperClasses) < Best.1 →
    (∀ Other ∈ Found, Other ≠ Parent →
      StepsTillExactMatch Parent (FlowNodeClass.Name :: FlowNodeClass.SuperClasses) <
        StepsTillExactMatch Other (FlowNodeClass.Name :: FlowNodeClass.SuperClasses)) →
    ClosestParentLoop FlowNodeClass Found Best =
      (StepsTillExactMatch Parent (FlowNodeClass.Name :: FlowNodeClass.SuperClasses),
        some Parent)
  | [], _, h, _, _, _ => by cases h
  | Other :: Rest, Best, h, hNZ, hLt, hMin => by
    rw [ClosestParentLoop]
    have hRestMin : ∀ Q ∈ Rest, Q ≠ Parent →
        StepsTillExactMatch Parent (FlowNodeClass.Name :: FlowNodeClass.SuperClasses) <
          StepsTillExactMatch Q (FlowNodeClass.Name :: FlowNodeClass.SuperClasses) :=
      fun Q hQ hne => hMin Q (List.mem_cons_of_mem _ hQ) hne
    by_cases hO : Other = Parent
    · subst hO
      rw [if_pos ⟨hNZ, hLt⟩]
      apply closestParentLoop_keep
      intro Q hQ
      by_cases hQO : Q = Other
      · rw [hQO]
      · exact Nat.le_of_lt (hRestMin Q hQ hQO)
    · have hMem : Parent ∈ Rest := by
        rcases List.mem_cons.mp h with h | h
        · exact absurd h.symm hO
        · exact h
      have hOther := hMin Other (List.mem_cons_self _ _) hO
      split_ifs
      · exact closestParentLoop_eq FlowNodeClass Parent Rest _ hMem hNZ hOther hRestMin
      · exact closestParentLoop_eq FlowNodeClass Parent Rest _ hMem hNZ hLt hRestMin

/-- C30: for a registry without a repeated key whose values are classes and whose keys are not
above `UFlowNode` on the superclass chain of the class `C` (the registry is filled with
classes derived from `UFlowNode` or `UFlowNodeAddOn`), and a chain shorter than the bound 1000
of the search: `GetAssignedGraphNodeClass` returns the class registered for `C` itself when `C`
is a key; otherwise the class registered for the key that comes first on the superclass chain
of `C`; and `UFlowGraphNode` when no key is `C` or a superclass of `C`. It never returns
null. -/
theorem C30_assigned_graph_node_class_is_closest (GraphNodesByFlowNodes : List (FName × Option FName))
    (C : UClass)
    (hKeys : (GraphNodesByFlowNodes.map Prod.fst).Nodup)
    (hValues : ∀ Pair ∈ GraphNodesByFlowNodes, Pair.2 ≠ none)
    (hBelow : ∀ Key ∈ GraphNodesByFlowNodes.map Prod.fst,
      Key ∉ AboveFlowNode (C.Name :: C.SuperClasses))
    (hDepth : C.SuperClasses.length < 1000) :
    (∀ Value, (C.Name, Value) ∈ GraphNodesByFlowNodes →
      GetAssignedGraphNodeClass GraphNodesByFlowNodes C = Value) ∧
    (C.Name ∉ GraphNodesByFlowNodes.map Prod.fst →
      ∀ Parent Value, (Parent, Value) ∈ GraphNodesByFlowNodes → Parent ∈ C.SuperClasses →
        (∀ Other ∈ GraphNodesByFlowNodes.map Prod.fst, Other ∈ C.SuperClasses →
          C.SuperClasses.indexOf Parent ≤ C.SuperClasses.indexOf Other) →
        GetAssignedGraphNodeClass GraphNodesByFlowNodes C = Value) ∧
    ((∀ Key ∈ GraphNodesByFlowNodes.map Prod.fst, Key ≠ C.Name ∧ Key ∉ C.SuperClasses) →
      GetAssignedGraphNodeClass GraphNodesByFlowNodes C = some UFlowGraphNode_StaticClass) ∧
    GetAssignedGraphNodeClass GraphNodesByFlowNodes C ≠ none := by
  refine ⟨?_, ?_, ?_, getAssignedGraphNodeClass_ne_none _ _ hValues⟩
  · intro Value hMem
    unfold GetAssignedGraphNodeClass
    rw [collectParentClasses_of_key C _ [] Value hKeys hMem]
  · intro hNotKey Parent Value hMem hSuper hClosest
    have hVal : Value ≠ none := hValues (Parent, Value) hMem
    obtain ⟨Class, rfl⟩ := Option.ne_none_iff_exists'.mp hVal
    have hFind := tmap_findRef_of_mem _ Parent (some Class) hKeys hMem
    have hParentKey : Parent ∈ GraphNodesByFlowNodes.map Prod.fst :=
      List.mem_map_of_mem Prod.fst hMem
    have hFound : Parent ∈ (GraphNodesByFlowNodes.map Prod.fst).filter
        fun Key => C.SuperClasses.contains Key := by
      rw [List.mem_filter]
      exact ⟨hParentKey, by simpa using hSuper⟩
    have hSteps : ∀ Key ∈ (GraphNodesByFlowNodes.map Prod.fst).filter
        (fun Key => C.SuperClasses.contains Key),
        StepsTillExactMatch Key (C.Name :: C.SuperClasses) = C.SuperClasses.indexOf Key + 1 := by
      intro Key hKey
      rw [List.mem_filter] at hKey
      have hKS : Key ∈ C.SuperClasses := by simpa using hKey.2
      have hNe : C.Name ≠ Key := fun hc => hNotKey (hc ▸ hKey.1)
      rw [stepsTillExactMatch_eq_indexOf Key _ (List.mem_cons_of_mem _ hKS) (hBelow Key hKey.1),
        List.indexOf_cons_ne _ hNe]
    unfold GetAssignedGraphNodeClass
    rw [collectParentClasses_of_not_key C _ [] hNotKey, List.nil_append]
    simp only
    generalize hF : (GraphNodesByFlowNodes.map Prod.fst).filter
      (fun Key => C.SuperClasses.contains Key) = Found at hFound hSteps
    match Found, hFound, hSteps with
    | [], hFound, _ => cases hFound
    | [Single], hFound, _ =>
      rw [List.mem_singleton] at hFound
      subst hFound
      simp only [hFind]
    | First :: Second :: Rest, hFound, hSteps =>
      have hLoop := closestParentLoop_eq C Parent (First :: Second :: Rest) (1000, none) hFound
        (by rw [hSteps Parent hFound]; omega)
        (by
          rw [hSteps Parent hFound]
          have := List.indexOf_lt_length.mpr hSuper
          simp only
          omega)
        (by
          intro Other hOther hNe
          have hOK : Other ∈ (GraphNodesByFlowNodes.map Prod.fst).filter
              (fun Key => C.SuperClasses.contains Key) := by rw [hF]; exact hOther
          rw [List.mem_filter] at hOK
          have hOS : Other ∈ C.SuperClasses := by simpa using hOK.2
          rw [hSteps Parent hFound, hSteps Other hOther]
          have hLe := hClosest Other hOK.1 hOS
          have hNeq : C.SuperClasses.indexOf Parent ≠ C.SuperClasses.indexOf Other := by
            intro hEq
            exact hNe ((List.indexOf_inj hSuper hOS).mp hEq).symm
          omega)
      simp only [hLoop, hFind]
  · intro hNone
    have hNotKey : C.Name ∉ GraphNodesByFlowNodes.map Prod.fst :=
      fun hc => (hNone _ hc).1 rfl
    have hEmpty : (GraphNodesByFlowNodes.map Prod.fst).filter
        (fun Key => C.SuperClasses.contains Key) = [] := by
      rw [List.filter_eq_nil_iff]
      intro Key hKey
      simpa using (hNone Key hKey).2
    unfold GetAssignedGraphNodeClass
    rw [collectParentClasses_of_not_key C _ [] hNotKey, List.nil_append, hEmpty]

/-- Witness of C30: with graph node classes registered for `FlowNode`, `FlowNode_SubGraph` and
`FlowNodeAddOn`, a class derived from the sub graph node gets the graph node class of the sub
graph node, which is closer than the one of `FlowNode`; the sub graph node itself gets its own;
an add-on class gets the one of `FlowNodeAddOn`; and `FlowNodeBase` gets the default. -/
theorem C30_assigned_graph_node_class_is_closest_witness :
    GetAssignedGraphNodeClass SampleGraphNodesByFlowNodes MySubGraphClass =
      some "FlowGraphNode_SubGraph" ∧
    GetAssignedGraphNodeClass SampleGraphNodesByFlowNodes
      { Name := "FlowNode_SubGraph", SuperClasses := ["FlowNode", "FlowNodeBase", "Object"] } =
      some "FlowGraphNode_SubGraph" ∧
    GetAssignedGraphNodeClass SampleGraphNodesByFlowNodes AddOnGeneratedClass =
      some "FlowGraphNode_AddOn" ∧
    GetAssignedGraphNodeClass SampleGraphNodesByFlowNodes
      { Name := "FlowNodeBase", SuperClasses := ["Object"] } = some "FlowGraphNode" ∧
    GetAssignedGraphNodeClass SampleGraphNodesByFlowNodes MySubGraphClass ≠ none :=
  ⟨(C30_assigned_graph_node_class_is_closest SampleGraphNodesByFlowNodes MySubGraphClass
      (by decide) (by decide) (by decide) (by decide)).2.1 (by decide) "FlowNode_SubGraph"
      (some "FlowGraphNode_SubGraph") (by decide) (by decide) (by decide),
    by decide, by decide, by decide,
    (C30_assigned_graph_node_class_is_closest SampleGraphNodesByFlowNodes MySubGraphClass
      (by decide) (by decide) (by decide) (by decide)).2.2.2⟩

/-- Why the keys must not be above `UFlowNode`: the inner loop stops counting at `UFlowNode`,
so a key above it counts as far away as `UFlowNode` itself, and the one that comes first in the
map wins. `GatherNativeNodesOrAddOns` registers no such key. -/
theorem getAssignedGraphNodeClass_key_above_flowNode :
    GetAssignedGraphNodeClass
      [("FlowNodeBase", some "FlowGraphNode_Base"), ("FlowNode", some "FlowGraphNode_Default")]
      { Name := "FlowNode_Custom", SuperClasses := ["FlowNode", "FlowNodeBase", "Object"] } =
      some "FlowGraphNode_Base" := by
  decide

/-! ### Refreshing the graph nodes of add-ons -/

/-- An event made by the loop of a unit further down says nothing about an entry of a unit
higher up. -/
theorem isEntryAtDepth_of_isFromLoopBelow (Depth : Nat) (e : RefreshEvent)
    (h : e.IsFromLoopBelow (Depth + 1) = true) : e.IsEntryAtDepth Depth = false := by
  cases e with
  | Refresh Unit =>
    simp only [RefreshEvent.IsFromLoopBelow, decide_eq_true_eq] at h
    simp only [RefreshEvent.IsEntryAtDepth, beq_eq_false_iff_ne, ne_eq]
    omega
  | LogError Unit Index =>
    simp only [RefreshEvent.IsFromLoopBelow, decide_eq_true_eq] at h
    simp only [RefreshEvent.IsEntryAtDepth, beq_eq_false_iff_ne, ne_eq]
    omega
  | RecreateNode AddOn Class => rfl

/-- An event made by the loop of a unit further down is made at least as far down as any
level above. -/
theorem isFromLoopBelow_of_succ (Depth : Nat) (e : RefreshEvent)
    (h : e.IsFromLoopBelow (Depth + 1) = true) : e.IsFromLoopBelow Depth = true := by
  cases e <;>
    simp only [RefreshEvent.IsFromLoopBelow, decide_eq_true_eq] at h ⊢ <;> omega

mutual
/-- The refresh of a unit, for a registry whose values are classes: the call ends, and the
events after the first one are those of the loop over the add-ons of the unit. -/
theorem recursivelyRefreshAddOns_spec (GraphNodesByFlowNodes : List (FName × Option FName))
    (hValues : ∀ Pair ∈ GraphNodesByFlowNodes, Pair.2 ≠ none) :
    ∀ (this : UFlowNodeBase) (Path : ObjectPath),
    ∃ Events,
      RecursivelyRefreshAddOns GraphNodesByFlowNodes Path this =
        some (RefreshEvent.Refresh Path :: Events) ∧
      (∀ e ∈ Events, e.IsFromLoopBelow Path.length = true) ∧
      Events.filter (RefreshEvent.IsEntryAtDepth Path.length) =
        (this.AddOns.enumFrom 0).map (RefreshEntryEvent Path) ∧
      ∀ (k : Nat) (a : UFlowNodeBase), this.AddOns[k]? = some (some a) →
        ∃ Sub, RecursivelyRefreshAddOns GraphNodesByFlowNodes (Path ++ [0 + k]) a = some Sub ∧
          Sub <:+: Events
  | .mk _ A, Path => by
    obtain ⟨T, hT, hBelow, hFilter, hSub⟩ :=
      recursivelyRefreshAddOnsLoop_spec GraphNodesByFlowNodes hValues A Path 0
    refine ⟨T, ?_, hBelow, hFilter, hSub⟩
    rw [RecursivelyRefreshAddOns, hT]
/-- The loop of the refresh over the add-ons from entry `Index` on, for a registry whose values
are classes: it ends, every entry leaves one event in order (the error line for a null entry,
the call for a non-null one), and the whole refresh of every non-null entry is part of it. -/
theorem recursivelyRefreshAddOnsLoop_spec
    (GraphNodesByFlowNodes : List (FName × Option FName))
    (hValues : ∀ Pair ∈ GraphNodesByFlowNodes, Pair.2 ≠ none) :
    ∀ (AddOns : List (Option UFlowNodeBase)) (Path : ObjectPath) (Index : Nat),
    ∃ Events,
      RecursivelyRefreshAddOnsLoop GraphNodesByFlowNodes Path Index AddOns = some Events ∧
      (∀ e ∈ Events, e.IsFromLoopBelow Path.length = true) ∧
      Events.filter (RefreshEvent.IsEntryAtDepth Path.length) =
        (AddOns.enumFrom Index).map (RefreshEntryEvent Path) ∧
      ∀ (k : Nat) (a : UFlowNodeBase), AddOns[k]? = some (some a) →
        ∃ Sub,
          RecursivelyRefreshAddOns GraphNodesByFlowNodes (Path ++ [Index + k]) a = some Sub ∧
          Sub <:+: Events
  | [], Path, Index => by
    refine ⟨[], by rw [RecursivelyRefreshAddOnsLoop], by simp, rfl, ?_⟩
    intro k a h
    simp at h
  | none :: Rest, Path, Index => by
    obtain ⟨T, hT, hBelow, hFilter, hSub⟩ :=
      recursivelyRefreshAddOnsLoop_spec GraphNodesByFlowNodes hValues Rest Path (Index + 1)
    refine ⟨RefreshEvent.LogError Path Index :: T, ?_, ?_, ?_, ?_⟩
    · rw [RecursivelyRefreshAddOnsLoop, hT]
    · intro e he
      rcases List.mem_cons.mp he with rfl | he
      · simp [RefreshEvent.IsFromLoopBelow]
      · exact hBelow e he
    · rw [List.filter_cons, hFilter]
      simp [RefreshEvent.IsEntryAtDepth, RefreshEntryEvent, List.enumFrom_cons]
    · intro k a h
      cases k with
      | zero => simp at h
      | succ k =>
        rw [List.getElem?_cons_succ] at h
        obtain ⟨Sub, hS, hIn⟩ := hSub k a h
        refine ⟨Sub, ?_, hIn.trans (List.suffix_cons _ _).isInfix⟩
        rw [← hS]
        congr 3
        omega
  | some AddOn :: Rest, Path, Index => by
    obtain ⟨T, hT, hBelow, hFilter, hSub⟩ :=
      recursivelyRefreshAddOnsLoop_spec GraphNodesByFlowNodes hValues Rest Path (Index + 1)
    obtain ⟨F, hF, hFBelow, -, -⟩ :=
      recursivelyRefreshAddOns_spec GraphNodesByFlowNodes hValues AddOn (Path ++ [Index])
    have hLen : (Path ++ [Index]).length = Path.length + 1 := by simp
    rw [hLen] at hFBelow
    have hExpect := getAssignedGraphNodeClass_ne_none GraphNodesByFlowNodes AddOn.GetClass hValues
    have hFNone : F.filter (RefreshEvent.IsEntryAtDepth Path.length) = [] := by
      rw [List.filter_eq_nil_iff]
      intro e he
      rw [isEntryAtDepth_of_isFromLoopBelow _ e (hFBelow e he)]
      simp
    have hRun : ∃ Recreated : List RefreshEvent,
        RecursivelyRefreshAddOnsLoop GraphNodesByFlowNodes Path Index (some AddOn :: Rest) =
          some (Recreated ++ (RefreshEvent.Refresh (Path ++ [Index]) :: F) ++ T) ∧
        (Recreated = [] ∨ ∃ Class, Recreated = [RefreshEvent.RecreateNode (Path ++ [Index]) Class]) := by
      rw [RecursivelyRefreshAddOnsLoop]
      simp only [hF, hT]
      cases hG : Cast_UFlowGraphNode_OfEdGraphNode AddOn.GetGraphNode with
      | none =>
        have hNe : (none != GetAssignedGraphNodeClass GraphNodesByFlowNodes AddOn.GetClass) =
            true := by
          cases hE : GetAssignedGraphNodeClass GraphNodesByFlowNodes AddOn.GetClass with
          | none => exact absurd hE hExpect
          | some Class => rfl
        simp only [hNe, Bool.not_true, Bool.false_and, Bool.false_eq_true, if_false, if_true]
        exact ⟨_, rfl, Or.inr ⟨_, rfl⟩⟩
      | some Node =>
        simp only [Option.isNone_some, Bool.and_false, Bool.false_eq_true, if_false]
        split_ifs
        · exact ⟨_, rfl, Or.inr ⟨_, rfl⟩⟩
        · exact ⟨[], rfl, Or.inl rfl⟩
        · exact ⟨_, rfl, Or.inr ⟨_, rfl⟩⟩
        · exact ⟨[], rfl, Or.inl rfl⟩
    obtain ⟨Recreated, hRun, hRec⟩ := hRun
    have hRecBelow : ∀ e ∈ Recreated, e.IsFromLoopBelow Path.length = true := by
      intro e he
      rcases hRec with rfl | ⟨Class, rfl⟩
      · cases he
      · rw [List.mem_singleton] at he
        subst he
        simp [RefreshEvent.IsFromLoopBelow]
    have hRecNone : Recreated.filter (RefreshEvent.IsEntryAtDepth Path.length) = [] := by
      rcases hRec with rfl | ⟨Class, rfl⟩
      · rfl
      · rfl
    refine ⟨_, hRun, ?_, ?_, ?_⟩
    · intro e he
      simp only [List.mem_append, List.mem_cons] at he
      rcases he with (he | rfl | he) | he
      · exact hRecBelow e he
      · simp [RefreshEvent.IsFromLoopBelow]
      · exact isFromLoopBelow_of_succ _ e (hFBelow e he)
      · exact hBelow e he
    · rw [List.filter_append, List.filter_append, List.filter_cons, hRecNone, hFNone, hFilter]
      simp [RefreshEvent.IsEntryAtDepth, RefreshEntryEvent, List.enumFrom_cons]
    · intro k a h
      cases k with
      | zero =>
        rw [List.getElem?_cons_zero] at h
        cases h
        refine ⟨RefreshEvent.Refresh (Path ++ [Index]) :: F, hF, ?_⟩
        exact ⟨Recreated, T, rfl⟩
      | succ k =>
        rw [List.getElem?_cons_succ] at h
        obtain ⟨Sub, hS, hIn⟩ := hSub k a h
        refine ⟨Sub, ?_, hIn.trans (List.suffix_append _ _).isInfix⟩
        rw [← hS]
        congr 3
        omega
end

/-- C25: for a registry whose values are classes, the refresh of the add-ons of a graph node
ends; after the call for the node itself every entry of the add-on array of its node instance
leaves exactly one event at that level, in the order of the array: the error line for a null
entry, the call for the graph node of a non-null entry, whether the entry stands before or
after a null entry. For every non-null entry the whole refresh of that add-on, to which the
same applies, is part of what happens. -/
theorem C25_refresh_skips_null_addons_and_goes_on
    (GraphNodesByFlowNodes : List (FName × Option FName))
    (hValues : ∀ Pair ∈ GraphNodesByFlowNodes, Pair.2 ≠ none)
    (FromFlowGraphNode : UFlowGraphNode) (FromFlowNodeBase : UFlowNodeBase)
    (hInstance : FromFlowGraphNode.NodeInstance = some FromFlowNodeBase) :
    ∃ Events,
      UFlowGraph_RecursivelyRefreshAddOns GraphNodesByFlowNodes FromFlowGraphNode =
        some (RefreshEvent.Refresh [] :: Events) ∧
      Events.filter (RefreshEvent.IsEntryAtDepth 0) =
        FromFlowNodeBase.AddOns.enum.map (RefreshEntryEvent []) ∧
      (∀ Index : Nat, FromFlowNodeBase.AddOns[Index]? = some none →
        RefreshEvent.LogError [] Index ∈ Events) ∧
      (∀ (Index : Nat) (AddOn : UFlowNodeBase),
        FromFlowNodeBase.AddOns[Index]? = some (some AddOn) →
        ∃ Sub SubEvents,
          RecursivelyRefreshAddOns GraphNodesByFlowNodes [Index] AddOn = some Sub ∧
          Sub = RefreshEvent.Refresh [Index] :: SubEvents ∧ Sub <:+: Events ∧
          SubEvents.filter (RefreshEvent.IsEntryAtDepth 1) =
            AddOn.AddOns.enum.map (RefreshEntryEvent [Index])) := by
  obtain ⟨Events, hRun, -, hFilter, hSub⟩ :=
    recursivelyRefreshAddOns_spec GraphNodesByFlowNodes hValues FromFlowNodeBase []
  refine ⟨Events, ?_, hFilter, ?_, ?_⟩
  · rw [UFlowGraph_RecursivelyRefreshAddOns, hInstance]
    exact hRun
  · intro Index hNull
    have hMem : RefreshEntryEvent [] (Index, none) ∈
        (FromFlowNodeBase.AddOns.enumFrom 0).map (RefreshEntryEvent []) := by
      apply List.mem_map_of_mem
      rw [List.mk_mem_enumFrom_iff_le_and_getElem?_sub]
      exact ⟨Nat.zero_le _, hNull⟩
    rw [← hFilter] at hMem
    exact (List.mem_filter.mp hMem).1
  · intro Index AddOn hEntry
    obtain ⟨Sub, hS, hIn⟩ := hSub Index AddOn hEntry
    rw [List.nil_append, Nat.zero_add] at hS
    obtain ⟨SubEvents, hRun2, -, hFilter2, -⟩ :=
      recursivelyRefreshAddOns_spec GraphNodesByFlowNodes hValues AddOn [Index]
    rw [hRun2] at hS
    cases hS
    exact ⟨_, SubEvents, hRun2, rfl, hIn, hFilter2⟩

/-- Witness of C25: the add-on array of `NodeWithNullAddOn` holds `AddOnOuter`, a null pointer
and `AddOnWithGraphNode`. The refresh replaces the graph node of the first add-on and of the
add-on below it, logs the null entry, and goes on to the last add-on, whose graph node has the
assigned class already. -/
theorem C25_refresh_skips_null_addons_and_goes_on_witness :
    UFlowGraph_RecursivelyRefreshAddOns SampleGraphNodesByFlowNodes
      { Valid := true, NodeInstance := some NodeWithNullAddOn } =
      some [RefreshEvent.Refresh [],
        RefreshEvent.RecreateNode [0] (some "FlowGraphNode"), RefreshEvent.Refresh [0],
        RefreshEvent.RecreateNode [0, 0] (some "FlowGraphNode"), RefreshEvent.Refresh [0, 0],
        RefreshEvent.LogError [] 1,
        RefreshEvent.Refresh [2]] ∧
    ∃ Events,
      UFlowGraph_RecursivelyRefreshAddOns SampleGraphNodesByFlowNodes
        { Valid := true, NodeInstance := some NodeWithNullAddOn } =
        some (RefreshEvent.Refresh [] :: Events) ∧
      Events.filter (RefreshEvent.IsEntryAtDepth 0) =
        NodeWithNullAddOn.AddOns.enum.map (RefreshEntryEvent []) ∧
      (∀ Index : Nat, NodeWithNullAddOn.AddOns[Index]? = some none →
        RefreshEvent.LogError [] Index ∈ Events) ∧
      (∀ (Index : Nat) (AddOn : UFlowNodeBase),
        NodeWithNullAddOn.AddOns[Index]? = some (some AddOn) →
        ∃ Sub SubEvents,
          RecursivelyRefreshAddOns SampleGraphNodesByFlowNodes [Index] AddOn = some Sub ∧
          Sub = RefreshEvent.Refresh [Index] :: SubEvents ∧ Sub <:+: Events ∧
          SubEvents.filter (RefreshEvent.IsEntryAtDepth 1) =
            AddOn.AddOns.enum.map (RefreshEntryEvent [Index])) :=
  ⟨by decide,
    C25_refresh_skips_null_addons_and_goes_on SampleGraphNodesByFlowNodes (by decide)
      { Valid := true, NodeInstance := some NodeWithNullAddOn } NodeWithNullAddOn rfl⟩

/-! ### Prefixes removed from node names -/

/-- A string is below every longer string that starts with it, case disregarded. -/
theorem fstring_less_of_properPrefix (P Q : String) (h : IsProperPrefixOf P Q) :
    FString_Less P Q = true := by
  obtain ⟨⟨t, ht⟩, hne⟩ := h
  have hT : t ≠ [] := by
    intro hnil
    apply hne
    rw [String.ext_iff, ← ht, hnil, List.append_nil]
  obtain ⟨c, t, rfl⟩ := List.exists_cons_of_ne_nil hT
  simp only [FString_Less, FString_Key, ← ht, List.map_append, List.map_cons, decide_eq_true_eq]
  show List.Lex (fun x1 x2 : Nat => x1 < x2) _ _
  have := List.Lex.append_left (fun x1 x2 : Nat => x1 < x2)
    (List.Lex.nil : List.Lex _ [] (c.toLower.toNat :: t.map fun c => c.toLower.toNat))
    (P.data.map fun c => c.toLower.toNat)
  simpa using this

/-- The engine's sort with `TGreater` gives a list in which no element is below a later one,
and which holds the same elements. -/
theorem tarray_sort_tgreater (Array : List String) :
    (TArray_Sort TGreater Array).Sorted (fun A B => FString_Less A B = false) ∧
      (TArray_Sort TGreater Array).Perm Array := by
  haveI : IsTotal String (fun A B => TGreater B A = false) :=
    ⟨fun A B => by
      simp only [TGreater, FString_Less, decide_eq_false_iff_not, not_lt]
      exact le_total _ _⟩
  haveI : IsTrans String (fun A B => TGreater B A = false) :=
    ⟨fun A B C hab hbc => by
      simp only [TGreater, FString_Less, decide_eq_false_iff_not, not_lt] at *
      exact le_trans hbc hab⟩
  exact ⟨List.sorted_insertionSort (fun A B => TGreater B A = false) Array,
    List.perm_insertionSort _ Array⟩

/-- In a list in which no element is below a later one, a string stands behind every longer
string that starts with it. -/
theorem properPrefix_after_of_sorted (Array : List String)
    (hSorted : Array.Sorted (fun A B => FString_Less A B = false)) (i j : Nat) (P Q : String)
    (hi : Array[i]? = some P) (hj : Array[j]? = some Q) (hPQ : IsProperPrefixOf P Q) :
    j < i := by
  have hLess := fstring_less_of_properPrefix P Q hPQ
  rw [List.getElem?_eq_some] at hi hj
  obtain ⟨hi, rfl⟩ := hi
  obtain ⟨hj, rfl⟩ := hj
  rcases Nat.lt_trichotomy i j with hlt | heq | hgt
  · have := (List.pairwise_iff_getElem.mp hSorted) i j hi hj hlt
    rw [hLess] at this
    cases this
  · subst heq
    exact absurd rfl hPQ.2
  · exact hgt

/-- The loop of `Algo::Unique` keeps a sublist, and after a list in which no element is below
a later one, what is kept goes strictly down from the last element kept before. -/
theorem algo_unique_loop_spec : ∀ (Rest : List String) (Last : String),
    (Last :: Rest).Sorted (fun A B => FString_Less A B = false) →
    (Algo_Unique_Loop Last Rest).Sublist Rest ∧
    (Last :: Algo_Unique_Loop Last Rest).Pairwise (fun A B => FString_Less B A = true) ∧
    ∀ P ∈ Rest, FString_Equals Last P = true ∨
      ∃ Q ∈ Algo_Unique_Loop Last Rest, FString_Equals P Q = true
  | [], Last, _ => by simp [Algo_Unique_Loop]
  | Next :: Rest, Last, h => by
    rw [Algo_Unique_Loop]
    have hLN : FString_Less Last Next = false := (List.sorted_cons.mp h).1 Next (by simp)
    have hTail : (Next :: Rest).Sorted (fun A B => FString_Less A B = false) :=
      (List.sorted_cons.mp h).2
    split_ifs with hEq
    · have hLast : (Last :: Rest).Sorted (fun A B => FString_Less A B = false) := by
        rw [List.sorted_cons] at h ⊢
        exact ⟨fun b hb => h.1 b (List.mem_cons_of_mem _ hb), (List.sorted_cons.mp h.2).2⟩
      obtain ⟨hSub, hPair, hMem⟩ := algo_unique_loop_spec Rest Last hLast
      refine ⟨hSub.trans (List.sublist_cons_self _ _), hPair, ?_⟩
      intro P hP
      rcases List.mem_cons.mp hP with rfl | hP
      · exact Or.inl hEq
      · exact hMem P hP
    · obtain ⟨hSub, hPair, hMem⟩ := algo_unique_loop_spec Rest Next hTail
      have hStrict : FString_Less Next Last = true := by
        simp only [FString_Less, FString_Equals, decide_eq_false_iff_not, not_lt, beq_iff_eq,
          decide_eq_true_eq] at hLN hEq ⊢
        exact lt_of_le_of_ne hLN (fun h => hEq h.symm)
      refine ⟨hSub.cons₂ _, ?_, ?_⟩
      · rw [List.pairwise_cons]
        refine ⟨?_, hPair⟩
        intro B hB
        rcases List.mem_cons.mp hB with rfl | hB
        · exact hStrict
        · have hNB := (List.pairwise_cons.mp hPair).1 B hB
          simp only [FString_Less, decide_eq_true_eq] at hNB hStrict ⊢
          exact lt_trans hNB hStrict
      · intro P hP
        rcases List.mem_cons.mp hP with rfl | hP
        · exact Or.inr ⟨P, List.mem_cons_self _ _, by simp [FString_Equals]⟩
        · rcases hMem P hP with hE | ⟨Q, hQ, hE⟩
          · refine Or.inr ⟨Next, List.mem_cons_self _ _, ?_⟩
            simp only [FString_Equals, beq_iff_eq] at hE ⊢
            exact hE.symm
          · exact Or.inr ⟨Q, List.mem_cons_of_mem _ hQ, hE⟩

/-- What `Algo::Unique` keeps of a list in which no element is below a later one: a sublist
that goes strictly down and still holds every element up to case. -/
theorem algo_unique_spec (Array : List String)
    (h : Array.Sorted (fun A B => FString_Less A B = false)) :
    (Algo_Unique Array).Sublist Array ∧
    (Algo_Unique Array).Pairwise (fun A B => FString_Less B A = true) ∧
    ∀ P ∈ Array, ∃ Q ∈ Algo_Unique Array, FString_Equals P Q = true := by
  cases Array with
  | nil => simp [Algo_Unique]
  | cons First Rest =>
    obtain ⟨hSub, hPair, hMem⟩ := algo_unique_loop_spec Rest First h
    refine ⟨hSub.cons₂ _, hPair, ?_⟩
    intro P hP
    rcases List.mem_cons.mp hP with rfl | hP
    · exact ⟨P, List.mem_cons_self _ _, by simp [FString_Equals]⟩
    · rcases hMem P hP with hE | ⟨Q, hQ, hE⟩
      · refine ⟨First, List.mem_cons_self _ _, ?_⟩
        simp only [FString_Equals, beq_iff_eq] at hE ⊢
        exact hE.symm
      · exact ⟨Q, List.mem_cons_of_mem _ hQ, hE⟩

/-- After the edit handler for `NodePrefixesToRemove` the list is what `Algo::Unique` keeps of
the sorted list, whichever branch was taken. -/
theorem postEditChangeProperty_eq (NodePrefixesToRemove : List String) :
    (UFlowGraphSettings_PostEditChangeProperty "NodePrefixesToRemove" NodePrefixesToRemove).1 =
      Algo_Unique (TArray_Sort TGreater NodePrefixesToRemove) := by
  obtain ⟨hSub, -, -⟩ :=
    algo_unique_spec _ (tarray_sort_tgreater NodePrefixesToRemove).1
  simp only [UFlowGraphSettings_PostEditChangeProperty, if_true]
  split_ifs with hLen
  · rfl
  · exact (hSub.eq_of_length (le_antisymm hSub.length_le (not_lt.mp hLen))).symm

/-- C26: after `PostInitProperties` the prefix list holds the same prefixes in descending
order, so that a prefix stands behind every longer listed prefix that starts with it; after
`PostEditChangeProperty` for `NodePrefixesToRemove` the list is in descending order with the
same property, holds no entry twice, holds only prefixes that were listed, and still holds
every listed prefix up to case. -/
theorem C26_prefixes_sorted_longest_first (NodePrefixesToRemove : List String) :
    ((UFlowGraphSettings_PostInitProperties NodePrefixesToRemove).Perm NodePrefixesToRemove ∧
      (UFlowGraphSettings_PostInitProperties NodePrefixesToRemove).Sorted
        (fun A B => FString_Less A B = false) ∧
      ∀ (i j : Nat) (P Q : String),
        (UFlowGraphSettings_PostInitProperties NodePrefixesToRemove)[i]? = some P →
        (UFlowGraphSettings_PostInitProperties NodePrefixesToRemove)[j]? = some Q →
        IsProperPrefixOf P Q → j < i) ∧
    ((UFlowGraphSettings_PostEditChangeProperty "NodePrefixesToRemove"
        NodePrefixesToRemove).1.Sorted (fun A B => FString_Less A B = false) ∧
      (∀ (i j : Nat) (P Q : String),
        (UFlowGraphSettings_PostEditChangeProperty "NodePrefixesToRemove"
          NodePrefixesToRemove).1[i]? = some P →
        (UFlowGraphSettings_PostEditChangeProperty "NodePrefixesToRemove"
          NodePrefixesToRemove).1[j]? = some Q →
        IsProperPrefixOf P Q → j < i) ∧
      (UFlowGraphSettings_PostEditChangeProperty "NodePrefixesToRemove"
        NodePrefixesToRemove).1.Nodup ∧
      (∀ P ∈ (UFlowGraphSettings_PostEditChangeProperty "NodePrefixesToRemove"
          NodePrefixesToRemove).1, P ∈ NodePrefixesToRemove) ∧
      ∀ P ∈ NodePrefixesToRemove,
        ∃ Q ∈ (UFlowGraphSettings_PostEditChangeProperty "NodePrefixesToRemove"
          NodePrefixesToRemove).1, FString_Equals P Q = true) := by
  obtain ⟨hSorted, hPerm⟩ := tarray_sort_tgreater NodePrefixesToRemove
  obtain ⟨hSub, hPair, hMem⟩ := algo_unique_spec _ hSorted
  have hSortedU : (Algo_Unique (TArray_Sort TGreater NodePrefixesToRemove)).Sorted
      (fun A B => FString_Less A B = false) := List.Pairwise.sublist hSub hSorted
  refine ⟨⟨hPerm, hSorted, properPrefix_after_of_sorted _ hSorted⟩, ?_⟩
  rw [postEditChangeProperty_eq]
  refine ⟨hSortedU, properPrefix_after_of_sorted _ hSortedU, ?_, ?_, ?_⟩
  · refine (List.Pairwise.imp ?_ hPair)
    intro A B hBA hEq
    subst hEq
    simp [FString_Less] at hBA
  · intro P hP
    exact hPerm.mem_iff.mp (hSub.subset hP)
  · intro P hP
    exact hMem P (hPerm.mem_iff.mpr hP)

/-- Witness of C26: the list of the comment in the source with `Flow` entered a second time in
another case. After initialization `FlowNode` stands before both; the edit handler drops one
of the two and reports the duplicate. -/
theorem C26_prefixes_sorted_longest_first_witness :
    UFlowGraphSettings_PostInitProperties ["FN", "Flow", "FlowNode", "flow"] =
      ["FN", "FlowNode", "Flow", "flow"] ∧
    UFlowGraphSettings_PostEditChangeProperty "NodePrefixesToRemove"
      ["FN", "Flow", "FlowNode", "flow"] =
      (["FN", "FlowNode", "Flow"], [SettingsEvent.DuplicatePrefixError]) ∧
    IsProperPrefixOf "Flow" "FlowNode" ∧
    (∀ (i j : Nat),
      (UFlowGraphSettings_PostInitProperties ["FN", "Flow", "FlowNode", "flow"])[i]? =
        some "Flow" →
      (UFlowGraphSettings_PostInitProperties ["FN", "Flow", "FlowNode", "flow"])[j]? =
        some "FlowNode" → j < i) ∧
    (UFlowGraphSettings_PostEditChangeProperty "NodePrefixesToRemove"
      ["FN", "Flow", "FlowNode", "flow"]).1.Nodup :=
  ⟨by decide, by decide, ⟨by decide, by decide⟩,
    fun i j hi hj =>
      (C26_prefixes_sorted_longest_first ["FN", "Flow", "FlowNode", "flow"]).1.2.2 i j "Flow"
        "FlowNode" hi hj ⟨by decide, by decide⟩,
    (C26_prefixes_sorted_longest_first ["FN", "Flow", "FlowNode", "flow"]).2.2.2.1⟩

/-! ### Blueprint registries -/

/-- A key of a map after `Emplace` was a key before or is the key put in. -/
theorem tmap_contains_emplace {V : Type} (Map : List (FName × V)) (Key Other : FName)
    (Value : V) (h : TMap_Contains (TMap_Emplace Map Key Value) Other = true) :
    TMap_Contains Map Other = true ∨ Other = Key := by
  unfold TMap_Emplace at h
  split_ifs at h with hC
  · simp only [TMap_Contains, List.any_eq_true, List.mem_map] at h
    obtain ⟨Pair, ⟨Old, hOld, hEq⟩, hKey⟩ := h
    split_ifs at hEq with hOK
    · subst hEq
      have hK2 : Key = Other := by simpa using hKey
      exact Or.inr hK2.symm
    · subst hEq
      exact Or.inl (by
        simp only [TMap_Contains, List.any_eq_true]
        exact ⟨Old, hOld, hKey⟩)
  · simp only [TMap_Contains, List.any_append, Bool.or_eq_true, List.any_cons, List.any_nil,
      Bool.or_false, beq_iff_eq] at h
    rcases h with h | h
    · exact Or.inl h
    · exact Or.inr h.symm

/-- A key of a map after `Remove` was a key before. -/
theorem tmap_contains_remove {V : Type} (Map : List (FName × V)) (Key Other : FName)
    (h : TMap_Contains (TMap_Remove Map Key) Other = true) : TMap_Contains Map Other = true := by
  simp only [TMap_Contains, TMap_Remove, List.any_eq_true, List.mem_filter] at h ⊢
  obtain ⟨Pair, ⟨hMem, _⟩, hKey⟩ := h
  exact ⟨Pair, hMem, hKey⟩

/-- `AddAsset` changes nothing when the package name is a key of either registry. -/
theorem addAsset_known (bIsLoadingAssets : Bool) (Registries : BlueprintRegistries)
    (AssetData : FAssetData) (bBatch : Bool)
    (h : TMap_Contains Registries.BlueprintFlowNodes AssetData.PackageName = true ∨
      TMap_Contains Registries.BlueprintFlowNodeAddOns AssetData.PackageName = true) :
    AddAsset bIsLoadingAssets Registries AssetData bBatch = (Registries, []) := by
  have hK : (TMap_Contains Registries.BlueprintFlowNodes AssetData.PackageName ||
      TMap_Contains Registries.BlueprintFlowNodeAddOns AssetData.PackageName) = true := by
    rcases h with h | h <;> simp [h]
  simp [AddAsset, hK]

/-- `AddAsset` keeps the key sets of the two registries disjoint. -/
theorem addAsset_keysDisjoint (bIsLoadingAssets : Bool) (Registries : BlueprintRegistries)
    (AssetData : FAssetData) (bBatch : Bool) (h : KeysDisjoint Registries) :
    KeysDisjoint (AddAsset bIsLoadingAssets Registries AssetData bBatch).1 := by
  cases hK : (TMap_Contains Registries.BlueprintFlowNodes AssetData.PackageName ||
      TMap_Contains Registries.BlueprintFlowNodeAddOns AssetData.PackageName) with
  | true =>
    rw [addAsset_known bIsLoadingAssets Registries AssetData bBatch (by simpa using hK)]
    exact h
  | false =>
    rw [Bool.or_eq_false_iff] at hK
    cases bIsLoadingAssets with
    | true =>
      have : AddAsset true Registries AssetData bBatch = (Registries, []) := by
        simp [AddAsset]
      rw [this]
      exact h
    | false =>
      have hFst : (AddAsset false Registries AssetData bBatch).1 =
          (if ShouldAddToBlueprintFlowNodesMap AssetData UFlowNodeBlueprint_StaticClass
              UFlowNode_StaticClass then
            ({ Registries with
                BlueprintFlowNodes :=
                  TMap_Emplace Registries.BlueprintFlowNodes AssetData.PackageName AssetData } :
              BlueprintRegistries)
          else if ShouldAddToBlueprintFlowNodesMap AssetData UFlowNodeAddOnBlueprint_StaticClass
              UFlowNodeAddOn_StaticClass then
            { Registries with
                BlueprintFlowNodeAddOns :=
                  TMap_Emplace Registries.BlueprintFlowNodeAddOns AssetData.PackageName
                    AssetData }
          else Registries) := by
        simp only [AddAsset, hK.1, hK.2, Bool.or_self, Bool.false_eq_true, if_false]
        split_ifs <;> rfl
      rw [hFst]
      split_ifs
      · intro Name ⟨h1, h2⟩
        rcases tmap_contains_emplace _ _ _ _ h1 with h1 | rfl
        · exact h Name ⟨h1, h2⟩
        · simp only at h2
          rw [hK.2] at h2
          cases h2
      · intro Name ⟨h1, h2⟩
        rcases tmap_contains_emplace _ _ _ _ h2 with h2 | rfl
        · exact h Name ⟨h1, h2⟩
        · simp only at h1
          rw [hK.1] at h1
          cases h1
      · exact h

/-- `OnAssetRemoved` keeps the key sets of the two registries disjoint. -/
theorem onAssetRemoved_keysDisjoint (Registries : BlueprintRegistries) (AssetData : FAssetData)
    (h : KeysDisjoint Registries) : KeysDisjoint (OnAssetRemoved Registries AssetData).1 := by
  unfold OnAssetRemoved
  split_ifs
  · intro Name ⟨h1, h2⟩
    exact h Name ⟨tmap_contains_remove _ _ _ h1, h2⟩
  · intro Name ⟨h1, h2⟩
    exact h Name ⟨h1, tmap_contains_remove _ _ _ h2⟩
  · exact h

/-- `OnAssetRenamed` keeps the key sets of the two registries disjoint. -/
theorem onAssetRenamed_keysDisjoint (bIsLoadingAssets : Bool) (Registries : BlueprintRegistries)
    (AssetData : FAssetData) (OldObjectPath : String) (h : KeysDisjoint Registries) :
    KeysDisjoint (OnAssetRenamed bIsLoadingAssets Registries AssetData OldObjectPath).1 := by
  unfold OnAssetRenamed
  apply addAsset_keysDisjoint
  cases FString_Split_Dot OldObjectPath with
  | none => exact h
  | some Parts =>
    obtain ⟨OldPackageName, OldAssetName⟩ := Parts
    simp only
    split_ifs
    · intro Name ⟨h1, h2⟩
      exact h Name ⟨tmap_contains_remove _ _ _ h1, h2⟩
    · intro Name ⟨h1, h2⟩
      exact h Name ⟨h1, tmap_contains_remove _ _ _ h2⟩
    · exact h

/-- C29: no package name is a key of both `BlueprintFlowNodes` and `BlueprintFlowNodeAddOns`
in any reachable state of the registries: the empty registries have the property, `AddAsset`,
`OnAssetAdded`, `OnAssetRemoved` and `OnAssetRenamed` each keep it, and `AddAsset` leaves both
maps as they are when the package name is a key of either already. -/
theorem C29_blueprint_registries_stay_disjoint :
    (∀ Registries, Reachable Registries → KeysDisjoint Registries) ∧
    KeysDisjoint {} ∧
    (∀ bIsLoadingAssets Registries AssetData bBatch, KeysDisjoint Registries →
      KeysDisjoint (AddAsset bIsLoadingAssets Registries AssetData bBatch).1) ∧
    (∀ bIsLoadingAssets Registries AssetData, KeysDisjoint Registries →
      KeysDisjoint (OnAssetAdded bIsLoadingAssets Registries AssetData).1) ∧
    (∀ Registries AssetData, KeysDisjoint Registries →
      KeysDisjoint (OnAssetRemoved Registries AssetData).1) ∧
    (∀ bIsLoadingAssets Registries AssetData OldObjectPath, KeysDisjoint Registries →
      KeysDisjoint (OnAssetRenamed bIsLoadingAssets Registries AssetData OldObjectPath).1) ∧
    (∀ bIsLoadingAssets Registries (AssetData : FAssetData) bBatch,
      (TMap_Contains Registries.BlueprintFlowNodes AssetData.PackageName = true ∨
        TMap_Contains Registries.BlueprintFlowNodeAddOns AssetData.PackageName = true) →
      (AddAsset bIsLoadingAssets Registries AssetData bBatch).1 = Registries) := by
  have hEmpty : KeysDisjoint {} := by
    intro Name ⟨h1, _⟩
    simp [TMap_Contains] at h1
  refine ⟨?_, hEmpty, addAsset_keysDisjoint, ?_, onAssetRemoved_keysDisjoint,
    onAssetRenamed_keysDisjoint, ?_⟩
  · intro Registries hR
    induction hR with
    | Empty => exact hEmpty
    | AddAsset L R A b _ ih => exact addAsset_keysDisjoint L R A b ih
    | OnAssetAdded L R A _ ih => exact addAsset_keysDisjoint L R A false ih
    | OnAssetRemoved R A _ ih => exact onAssetRemoved_keysDisjoint R A ih
    | OnAssetRenamed L R A P _ ih => exact onAssetRenamed_keysDisjoint L R A P ih
  · intro L R A h
    exact addAsset_keysDisjoint L R A false h
  · intro L R A b h
    rw [addAsset_known L R A b h]

/-- Witness of C29: after a node blueprint and an add-on blueprint were gathered, an add-on
blueprint asset with the package name of the first is reported as added. The state is
reachable, so its key sets are disjoint; indeed the report changed nothing, each registry
holds one package. -/
theorem C29_blueprint_registries_stay_disjoint_witness :
    Reachable RegistriesAfterGather ∧
    RegistriesAfterGather.BlueprintFlowNodes.map Prod.fst = ["/Game/Flow/BP_Node"] ∧
    RegistriesAfterGather.BlueprintFlowNodeAddOns.map Prod.fst = ["/Game/Flow/BP_AddOn"] ∧
    KeysDisjoint RegistriesAfterGather :=
  ⟨Reachable.OnAssetAdded _ _ _ (Reachable.AddAsset _ _ _ _ (Reachable.AddAsset _ _ _ _ .Empty)),
    by decide, by decide,
    C29_blueprint_registries_stay_disjoint.1 RegistriesAfterGather
      (Reachable.OnAssetAdded _ _ _
        (Reachable.AddAsset _ _ _ _ (Reachable.AddAsset _ _ _ _ .Empty)))⟩

end Flow
